import Mathlib

/-!
# gocache: a shallow embedding of the cache facade and its stores

Go values are modelled functionally.  A Go `string` is a Lean `String`; a Go
`[]byte` is an `Option String` (`none` is the nil slice, `some s` a non-nil
slice holding the bytes of `s`); a Go `(value, error)` result is a pair whose
second component is `none` for a nil error.  Stateful collaborators (clients,
codecs, caches, loaders) are records of state-passing functions over an
explicit state type.
-/

namespace gocache

/-! ## Go runtime values -/

/-- Go `error` values built by the code under study: `errors.New(msg)` and
`store.NotFoundWithCause(cause)`. -/
inductive GoError where
  | New (msg : String)
  | NotFound (cause : GoError)
  deriving DecidableEq, Repr

/-- A Go byte slice: `none` is the nil slice. -/
abbrev ByteSlice := Option String

/-- The conversion `[]byte(s)`: always a non-nil slice. -/
def bytesOfString (s : String) : ByteSlice := some s

/-- The conversion `string(b)`: the nil slice converts to the empty string. -/
def stringOfBytes : ByteSlice → String
  | none => ""
  | some s => s

/-- A Go type as `reflect` sees it.  Two types are identical when both their
package path and their printed form agree; `Str` is what
`reflect.Type.String()` prints, which qualifies a name by its package *name*
only and so may coincide for distinct types. -/
structure GoType where
  PkgPath : String
  Str : String
  deriving DecidableEq, Repr

/-- A dynamic Go value (`any`).  `nil` is the nil interface; `object` stands for every value that is
neither a `string`, a `[]byte` nor an `int`: it carries its type, its default
formatting `fmt.Sprint(v)`, and, when its type implements `CacheKeyGenerator`,
the result of its `GetCacheKey()` method. -/
inductive GoAny where
  | nil
  | string (s : String)
  | bytes (b : ByteSlice)
  | int (n : Int)
  | object (T : GoType) (formatted : String) (cacheKey : Option String)
  deriving DecidableEq, Repr

/-! ## Package `strings` -/

/-- Pieces of a character list between occurrences of `sep`; there is always
at least one piece. -/
def splitChars (sep : Char) : List Char → List (List Char)
  | [] => [[]]
  | c :: cs =>
    if c = sep then [] :: splitChars sep cs
    else
      match splitChars sep cs with
      | [] => [[c]]
      | p :: ps => (c :: p) :: ps

/-- Concatenation of the pieces with `sep` between consecutive ones. -/
def joinChars (sep : Char) : List (List Char) → List Char
  | [] => []
  | [p] => p
  | p :: q :: ps => p ++ sep :: joinChars sep (q :: ps)

/-- Go `strings.Split(s, sep)` for a one-character separator (the code only
passes `","`). -/
def strings.Split (s : String) (sep : Char) : List String :=
  (splitChars sep s.data).map String.mk

/-- Go `strings.Join(elems, sep)` for a one-character separator. -/
def strings.Join (elems : List String) (sep : Char) : String :=
  String.mk (joinChars sep (elems.map String.data))

/-! ## Package `store`: options -/

/-- Go `store.Options`. -/
structure Options where
  Cost : Int
  Expiration : Int
  Tags : List String
  deriving DecidableEq, Repr

/-- Go `store.Option`, a function updating an `Options` value in place. -/
abbrev StoreOption := Options → Options

/-- Go `store.WithCost`. -/
def WithCost (cost : Int) : StoreOption := fun o => { o with Cost := cost }

/-- Go `store.WithExpiration`. -/
def WithExpiration (expiration : Int) : StoreOption := fun o => { o with Expiration := expiration }

/-- Go `store.WithTags`. -/
def WithTags (tags : List String) : StoreOption := fun o => { o with Tags := tags }

/-- Go `store.ApplyOptionsWithDefault`: copy the defaults, then run every
option on the copy in order. -/
def ApplyOptionsWithDefault (defaultOptions : Options) (opts : List StoreOption) : Options :=
  opts.foldl (fun returnedOptions opt => opt returnedOptions) defaultOptions

/-- Go `store.applyOptions`: the same loop from the zero `Options`. -/
def applyOptions (opts : List StoreOption) : Options :=
  opts.foldl (fun o opt => opt o) { Cost := 0, Expiration := 0, Tags := [] }

/-- Go `store.InvalidateOptions`. -/
structure InvalidateOptions where
  Tags : List String
  deriving DecidableEq, Repr

/-- Go `store.InvalidateOption`. -/
abbrev InvalidateOption := InvalidateOptions → InvalidateOptions

/-- Go `store.WithInvalidateTags`. -/
def WithInvalidateTags (tags : List String) : InvalidateOption := fun _ => { Tags := tags }

/-- Go `store.applyInvalidateOptions`. -/
def applyInvalidateOptions (opts : List InvalidateOption) : InvalidateOptions :=
  opts.foldl (fun o opt => opt o) { Tags := [] }

/-- One hour as a `time.Duration` (nanoseconds). -/
def Hour : Int := 3600 * 1000000000

/-! ## Package `store`: the Bigcache store -/

/-- Go `BigcacheClientInterface`, over an explicit client state `σ`. -/
structure BigcacheClientInterface (σ : Type) where
  Get : σ → String → σ × ByteSlice × Option GoError
  Set : σ → String → ByteSlice → σ × Option GoError
  Delete : σ → String → σ × Option GoError
  Reset : σ → σ × Option GoError

/-- Go `BigcacheStore`. -/
structure BigcacheStore (σ : Type) where
  Client : BigcacheClientInterface σ
  Options : Options

/-- Go `NewBigcache`. -/
def NewBigcache {σ : Type} (client : BigcacheClientInterface σ) (options : List StoreOption) :
    BigcacheStore σ :=
  { Client := client, Options := applyOptions options }

/-- Go `fmt.Sprintf(BigcacheTagPattern, tag)` with the pattern `"gocache_tag_%s"`. -/
def BigcacheTagKey (tag : String) : String := "gocache_tag_" ++ tag

/-- Go `BigcacheStore.Get`. -/
def BigcacheStore.Get {σ : Type} (s : BigcacheStore σ) (st : σ) (key : String) :
    σ × GoAny × Option GoError :=
  match s.Client.Get st key with
  | (st1, _, some err) => (st1, GoAny.nil, some err)
  | (st1, none, none) =>
    (st1, GoAny.nil,
      some (GoError.NotFound (GoError.New "unable to retrieve data from bigcache")))
  | (st1, some item, none) => (st1, GoAny.bytes (some item), none)

/-- Go `BigcacheStore.Delete`. -/
def BigcacheStore.Delete {σ : Type} (s : BigcacheStore σ) (st : σ) (key : String) :
    σ × Option GoError :=
  s.Client.Delete st key

/-- The body of one iteration of the loop of `BigcacheStore.setTags`, with the
recursive call to `Set` passed as `set`. -/
def BigcacheStore.setTag {σ : Type} (s : BigcacheStore σ)
    (set : σ → String → GoAny → List StoreOption → Option (σ × Option GoError))
    (st : σ) (key : String) (tag : String) : Option σ :=
  let tagKey := BigcacheTagKey tag
  let (st1, result, err) := s.Get st tagKey
  let cacheKeys : List String :=
    match err, result with
    | none, GoAny.bytes bytes => strings.Split (stringOfBytes bytes) ','
    | _, _ => []
  let alreadyInserted := cacheKeys.any (fun cacheKey => cacheKey == key)
  let cacheKeys := if alreadyInserted then cacheKeys else cacheKeys ++ [key]
  match set st1 tagKey (GoAny.bytes (bytesOfString (strings.Join cacheKeys ',')))
      [WithExpiration (720 * Hour)] with
  | none => none
  | some (st2, _) => some st2

/-- The loop of `BigcacheStore.setTags` over the tags. -/
def BigcacheStore.setTagsWith {σ : Type} (s : BigcacheStore σ)
    (set : σ → String → GoAny → List StoreOption → Option (σ × Option GoError))
    (st : σ) (key : String) : List String → Option σ
  | [] => some st
  | tag :: tags =>
    match s.setTag set st key tag with
    | none => none
    | some st1 => BigcacheStore.setTagsWith s set st1 key tags

/-- Go `BigcacheStore.Set`.  `Set` and `setTags` call each other, so the
embedding carries a bound on the call depth: `none` means the bound was
reached before the call returned. -/
def BigcacheStore.Set {σ : Type} (s : BigcacheStore σ) :
    Nat → σ → String → GoAny → List StoreOption → Option (σ × Option GoError)
  | 0, _, _, _, _ => none
  | fuel + 1, st, key, value, options =>
    let opts := ApplyOptionsWithDefault s.Options options
    let val : Option ByteSlice :=
      match value with
      | GoAny.string v => some (bytesOfString v)
      | GoAny.bytes v => some v
      | _ => none
    match val with
    | none => some (st, some (GoError.New "value type not supported by Bigcache store"))
    | some val =>
      match s.Client.Set st key val with
      | (st1, some err) => some (st1, some err)
      | (st1, none) =>
        if opts.Tags.length > 0 then
          match s.setTagsWith (BigcacheStore.Set s fuel) st1 key opts.Tags with
          | none => none
          | some st2 => some (st2, none)
        else some (st1, none)

/-- Go `BigcacheStore.setTags`, at call depth `fuel`. -/
def BigcacheStore.setTags {σ : Type} (s : BigcacheStore σ) (fuel : Nat)
    (st : σ) (key : String) (tags : List String) : Option σ :=
  s.setTagsWith (BigcacheStore.Set s fuel) st key tags

/-- The inner loop of `BigcacheStore.Invalidate`: delete every indexed key,
ignoring the errors. -/
def BigcacheStore.deleteKeys {σ : Type} (s : BigcacheStore σ) (st : σ) : List String → σ
  | [] => st
  | cacheKey :: cacheKeys => BigcacheStore.deleteKeys s (s.Delete st cacheKey).1 cacheKeys

/-- The outer loop of `BigcacheStore.Invalidate` over the tags: a failed
lookup of a tag's index returns at once. -/
def BigcacheStore.invalidateTags {σ : Type} (s : BigcacheStore σ) (st : σ) :
    List String → σ × Option GoError
  | [] => (st, none)
  | tag :: tags =>
    let tagKey := BigcacheTagKey tag
    match s.Get st tagKey with
    | (st1, _, some _) => (st1, none)
    | (st1, result, none) =>
      let cacheKeys : List String :=
        match result with
        | GoAny.bytes bytes => strings.Split (stringOfBytes bytes) ','
        | _ => []
      BigcacheStore.invalidateTags s (s.deleteKeys st1 cacheKeys) tags

/-- Go `BigcacheStore.Invalidate`. -/
def BigcacheStore.Invalidate {σ : Type} (s : BigcacheStore σ) (st : σ)
    (options : List InvalidateOption) : σ × Option GoError :=
  let opts := applyInvalidateOptions options
  if opts.Tags.length > 0 then s.invalidateTags st opts.Tags else (st, none)

/-- Go `BigcacheStore.Clear`. -/
def BigcacheStore.Clear {σ : Type} (s : BigcacheStore σ) (st : σ) : σ × Option GoError :=
  s.Client.Reset st

/-! ### A client that behaves as a key-to-bytes map -/

/-- The contents of a map client: the bytes held under each key. -/
abbrev MapState := String → Option String

/-- The error a map client reports for an absent key
(`bigcache.ErrEntryNotFound`). -/
def ErrEntryNotFound : GoError := GoError.New "Entry not found"

/-- A client that behaves as a key-to-bytes map: `Set` stores the bytes under
the key, `Get` returns the stored bytes as a non-nil slice or an error when the
key is absent, `Delete` removes the key and `Reset` empties the map. -/
def mapClient : BigcacheClientInterface MapState where
  Get := fun m key =>
    match m key with
    | some b => (m, some b, none)
    | none => (m, none, some ErrEntryNotFound)
  Set := fun m key entry =>
    (fun k => if k = key then some (stringOfBytes entry) else m k, none)
  Delete := fun m key =>
    match m key with
    | some _ => (fun k => if k = key then none else m k, none)
    | none => (m, some ErrEntryNotFound)
  Reset := fun _ => (fun _ => none, none)

/-- The empty map. -/
def emptyMap : MapState := fun _ => none

/-- A Bigcache store over the map client with the given default options. -/
def mapStore (defaults : Options) : BigcacheStore MapState :=
  { Client := mapClient, Options := defaults }

/-- The store of the tests: `NewBigcache(client)` over the map client, with no
default options. -/
def defaultStore : BigcacheStore MapState := NewBigcache mapClient []

/-- The bytes `BigcacheStore.Set` hands to the client for a value, when the
value has a supported type. -/
def valueBytes : GoAny → Option ByteSlice
  | GoAny.string v => some (bytesOfString v)
  | GoAny.bytes v => some v
  | _ => none

/-- The map with `b` stored under `key`. -/
def MapState.put (m : MapState) (key b : String) : MapState :=
  fun k => if k = key then some b else m k

/-- The keys listed by an index entry, as `setTags` and `Invalidate` read it. -/
def indexKeys : Option String → List String
  | some b => strings.Split b ','
  | none => []

/-- The index content `setTags` writes for `key`, given the entry it read. -/
def indexAfter (old : Option String) (key : String) : String :=
  strings.Join
    (if (indexKeys old).any (fun cacheKey => cacheKey == key) then indexKeys old
     else indexKeys old ++ [key]) ','

/-- Perform `Set(key, value, WithTags([tag]))` `n` times in a row. -/
def repeatSet (s : BigcacheStore MapState) (fuel : Nat) (key : String) (value : GoAny)
    (tag : String) : Nat → MapState → Option MapState
  | 0, m => some m
  | n + 1, m =>
    match s.Set fuel m key value [WithTags [tag]] with
    | some (m1, none) => repeatSet s fuel key value tag n m1
    | _ => none

/-! ## Package `crypto/md5` and `fmt` (library code the cache package calls) -/

/-- The UTF-8 encoding of one character, as bytes. -/
def utf8Char (c : Char) : List Nat :=
  let n := c.toNat
  if n < 128 then [n]
  else if n < 2048 then [192 + n / 64, 128 + n % 64]
  else if n < 65536 then [224 + n / 4096, 128 + n / 64 % 64, 128 + n % 64]
  else [240 + n / 262144, 128 + n / 4096 % 64, 128 + n / 64 % 64, 128 + n % 64]

/-- The bytes of a Go string. -/
def utf8Bytes : List Char → List Nat
  | [] => []
  | c :: cs => utf8Char c ++ utf8Bytes cs

/-- The `count` low-order bytes of `n`, least significant first. -/
def leBytes (n : Nat) : Nat → List Nat
  | 0 => []
  | count + 1 => n % 256 :: leBytes (n / 256) count

/-- The number whose little-endian bytes are given. -/
def leWord : List Nat → Nat
  | [] => 0
  | b :: bs => b + 256 * leWord bs

/-- The four chaining words of MD5. -/
structure MD5State where
  a : Nat
  b : Nat
  c : Nat
  d : Nat
  deriving DecidableEq, Repr

/-- Per-round left-rotation amounts of MD5 (RFC 1321). -/
def md5Shifts : List Nat :=
  [7, 12, 17, 22, 7, 12, 17, 22, 7, 12, 17, 22, 7, 12, 17, 22,
   5, 9, 14, 20, 5, 9, 14, 20, 5, 9, 14, 20, 5, 9, 14, 20,
   4, 11, 16, 23, 4, 11, 16, 23, 4, 11, 16, 23, 4, 11, 16, 23,
   6, 10, 15, 21, 6, 10, 15, 21, 6, 10, 15, 21, 6, 10, 15, 21]

/-- Per-round additive constants of MD5 (RFC 1321). -/
def md5Consts : List Nat :=
  [0xd76aa478, 0xe8c7b756, 0x242070db, 0xc1bdceee, 0xf57c0faf, 0x4787c62a, 0xa8304613, 0xfd469501,
   0x698098d8, 0x8b44f7af, 0xffff5bb1, 0x895cd7be, 0x6b901122, 0xfd987193, 0xa679438e, 0x49b40821,
   0xf61e2562, 0xc040b340, 0x265e5a51, 0xe9b6c7aa, 0xd62f105d, 0x02441453, 0xd8a1e681, 0xe7d3fbc8,
   0x21e1cde6, 0xc33707d6, 0xf4d50d87, 0x455a14ed, 0xa9e3e905, 0xfcefa3f8, 0x676f02d9, 0x8d2a4c8a,
   0xfffa3942, 0x8771f681, 0x6d9d6122, 0xfde5380c, 0xa4beea44, 0x4bdecfa9, 0xf6bb4b60, 0xbebfbc70,
   0x289b7ec6, 0xeaa127fa, 0xd4ef3085, 0x04881d05, 0xd9d4d039, 0xe6db99e5, 0x1fa27cf8, 0xc4ac5665,
   0xf4292244, 0x432aff97, 0xab9423a7, 0xfc93a039, 0x655b59c3, 0x8f0ccc92, 0xffeff47d, 0x85845dd1,
   0x6fa87e4f, 0xfe2ce6e0, 0xa3014314, 0x4e0811a1, 0xf7537e82, 0xbd3af235, 0x2ad7d2bb, 0xeb86d391]

/-- Rotation of a 32-bit word to the left by `c` bits. -/
def rotl32 (x c : Nat) : Nat :=
  ((x % 4294967296) * 2 ^ c % 4294967296) + (x % 4294967296) / 2 ^ (32 - c)

/-- Bitwise complement of a 32-bit word. -/
def not32 (x : Nat) : Nat := 4294967295 - x % 4294967296

/-- One of the 64 steps of the MD5 compression function on the message words
`w`. -/
def md5Step (w : List Nat) (s : MD5State) (i : Nat) : MD5State :=
  let f :=
    if i < 16 then (s.b &&& s.c) ||| (not32 s.b &&& s.d)
    else if i < 32 then (s.d &&& s.b) ||| (not32 s.d &&& s.c)
    else if i < 48 then s.b ^^^ s.c ^^^ s.d
    else s.c ^^^ (s.b ||| not32 s.d)
  let g :=
    if i < 16 then i
    else if i < 32 then (5 * i + 1) % 16
    else if i < 48 then (3 * i + 5) % 16
    else (7 * i) % 16
  let sum := (f + s.a + md5Consts.getD i 0 + w.getD g 0) % 4294967296
  { a := s.d, d := s.c, c := s.b, b := (s.b + rotl32 sum (md5Shifts.getD i 0)) % 4294967296 }

/-- The sixteen 32-bit little-endian words of a 64-byte block. -/
def blockWords : Nat → List Nat → List Nat
  | 0, _ => []
  | n + 1, block => leWord (block.take 4) :: blockWords n (block.drop 4)

/-- The MD5 compression function: 64 steps, then the feed-forward addition. -/
def md5Block (s : MD5State) (block : List Nat) : MD5State :=
  let w := blockWords 16 block
  let r := (List.range 64).foldl (md5Step w) s
  { a := (s.a + r.a) % 4294967296, b := (s.b + r.b) % 4294967296,
    c := (s.c + r.c) % 4294967296, d := (s.d + r.d) % 4294967296 }

/-- MD5 padding: a `0x80` byte, zero bytes up to 56 modulo 64, and the bit
length on 8 bytes. -/
def md5Pad (msg : List Nat) : List Nat :=
  msg ++ 128 :: (List.replicate ((119 - msg.length % 64) % 64) 0
    ++ leBytes (8 * msg.length % 18446744073709551616) 8)

/-- Fold the compression function over `n` consecutive 64-byte blocks. -/
def md5Blocks : Nat → MD5State → List Nat → MD5State
  | 0, s, _ => s
  | n + 1, s, msg => md5Blocks n (md5Block s (msg.take 64)) (msg.drop 64)

/-- The initial chaining value of MD5. -/
def md5Init : MD5State :=
  { a := 0x67452301, b := 0xefcdab89, c := 0x98badcfe, d := 0x10325476 }

/-- The final chaining value of MD5 on a message given as bytes. -/
def md5Final (msg : List Nat) : MD5State :=
  md5Blocks ((md5Pad msg).length / 64) md5Init (md5Pad msg)

/-- The 16 bytes of the digest for a final chaining value. -/
def digestBytes (s : MD5State) : List Nat :=
  leBytes s.a 4 ++ leBytes s.b 4 ++ leBytes s.c 4 ++ leBytes s.d 4

/-- The 16-byte MD5 digest (RFC 1321), what `crypto.MD5.New()` followed by
writes of `msg` and `Sum(nil)` returns. -/
def md5Sum (msg : List Nat) : List Nat := digestBytes (md5Final msg)

/-- One lowercase hexadecimal digit. -/
def hexDigit (n : Nat) : Char :=
  if n < 10 then Char.ofNat (48 + n) else Char.ofNat (87 + n)

/-- Go `fmt.Sprintf("%x", b)` for a byte slice: two lowercase hexadecimal
digits per byte. -/
def hexChars : List Nat → List Char
  | [] => []
  | b :: bs => hexDigit (b / 16 % 16) :: hexDigit (b % 16) :: hexChars bs

/-- The decimal numbers of a list of bytes, separated by spaces. -/
def decimalList : List Nat → String
  | [] => ""
  | [b] => toString b
  | b :: bs => toString b ++ " " ++ decimalList bs

/-- What `fmt.Fprint(w, reflect.TypeOf(v))` writes. -/
def GoAny.typeString : GoAny → String
  | GoAny.nil => "<nil>"
  | GoAny.string _ => "string"
  | GoAny.bytes _ => "[]uint8"
  | GoAny.int _ => "int"
  | GoAny.object T _ _ => T.Str

/-- What `fmt.Fprint(w, v)` writes: the default formatting of the value. -/
def GoAny.formatted : GoAny → String
  | GoAny.nil => "<nil>"
  | GoAny.string s => s
  | GoAny.bytes b => "[" ++ decimalList (utf8Bytes (stringOfBytes b).data) ++ "]"
  | GoAny.int n => toString n
  | GoAny.object _ f _ => f

/-- The dynamic type of a value, for type identity. -/
def GoAny.goType : GoAny → GoType
  | GoAny.object T _ _ => T
  | v => { PkgPath := "", Str := v.typeString }

/-! ## Package `cache`: key derivation -/

/-- The bytes written to the digester by `Checksum`: the type, then the value,
with nothing in between. -/
def checksumInput (object : GoAny) : List Nat :=
  utf8Bytes (object.typeString ++ object.formatted).data

/-- Go `cache.Checksum`. -/
def Checksum (object : GoAny) : String :=
  String.mk (hexChars (md5Sum (checksumInput object)))

/-- Go `Cache.GetCacheKey`. -/
def GetCacheKey (key : GoAny) : String :=
  match key with
  | GoAny.string v => v
  | GoAny.object _ _ (some cacheKey) => cacheKey
  | _ => Checksum key

/-- Whether the dynamic type of a value is `string`. -/
def GoAny.isString : GoAny → Bool
  | GoAny.string _ => true
  | _ => false

/-- The result of `GetCacheKey()` when the dynamic type of the value implements
`CacheKeyGenerator`. -/
def GoAny.generatedKey : GoAny → Option String
  | GoAny.object _ _ cacheKey => cacheKey
  | _ => none

/-- Whether `GetCacheKey` hashes the key: it is neither a string nor a
`CacheKeyGenerator`. -/
def GoAny.isHashed (key : GoAny) : Bool :=
  !key.isString && key.generatedKey.isNone

/-- The reference definition of the cache key, following the specification:
the key verbatim when it is a string, its own `GetCacheKey()` when it is a
non-string `CacheKeyGenerator`, its checksum otherwise. -/
def GetCacheKeySpec (key : GoAny) : String :=
  if key.isString then
    (match key with
     | GoAny.string s => s
     | _ => "")
  else
    match key.generatedKey with
    | some k => k
    | none => Checksum key

/-- Two keys of distinct struct types declared under the same name in two
packages that are both called `model`: `reflect` prints both types as
`model.User`. -/
def userKeyA : GoAny :=
  GoAny.object { PkgPath := "example.com/a/model", Str := "model.User" } "{1}" none

/-- The second key, of the type declared in the other package. -/
def userKeyB : GoAny :=
  GoAny.object { PkgPath := "example.com/b/model", Str := "model.User" } "{1}" none

/-- The keys of types `main.T`, `main.Ta`, `main.Taa`, ...: the zero values of
integer types declared in package `main`. -/
def familyKey (n : Nat) : GoAny :=
  GoAny.object { PkgPath := "main", Str := "main.T" ++ String.mk (List.replicate n 'a') } "0" none

/-- The final chaining value of the checksum of `familyKey n`, as 32-bit words. -/
def familyWords (n : Nat) :
    Fin 4294967296 × Fin 4294967296 × Fin 4294967296 × Fin 4294967296 :=
  let s := md5Final (checksumInput (familyKey n))
  (⟨s.a % 4294967296, Nat.mod_lt _ (by decide)⟩, ⟨s.b % 4294967296, Nat.mod_lt _ (by decide)⟩,
   ⟨s.c % 4294967296, Nat.mod_lt _ (by decide)⟩, ⟨s.d % 4294967296, Nat.mod_lt _ (by decide)⟩)

/-! ## Overrides built from the three option constructors -/

/-- An override built by `WithCost`, `WithExpiration` or `WithTags`. -/
inductive Override where
  | cost (c : Int)
  | expiration (e : Int)
  | tags (ts : List String)
  deriving DecidableEq, Repr

/-- The Go option an override stands for. -/
def Override.toOption : Override → StoreOption
  | Override.cost c => WithCost c
  | Override.expiration e => WithExpiration e
  | Override.tags ts => WithTags ts

/-- The cost given by the last override that sets the cost, if any. -/
def lastCost : List Override → Option Int
  | [] => none
  | o :: rest =>
    match lastCost rest with
    | some c => some c
    | none =>
      match o with
      | Override.cost c => some c
      | _ => none

/-- The expiration given by the last override that sets the expiration, if any. -/
def lastExpiration : List Override → Option Int
  | [] => none
  | o :: rest =>
    match lastExpiration rest with
    | some e => some e
    | none =>
      match o with
      | Override.expiration e => some e
      | _ => none

/-- The tags given by the last override that sets the tags, if any. -/
def lastTags : List Override → Option (List String)
  | [] => none
  | o :: rest =>
    match lastTags rest with
    | some ts => some ts
    | none =>
      match o with
      | Override.tags ts => some ts
      | _ => none

/-! ## Package `cache`: the typed cache -/

/-- Go `codec.CodecInterface`, over an explicit codec state `σ`, restricted to
the methods the cache calls (the cache always passes the derived string key).
`GetWithTTL` returns the value, the duration and the error. -/
structure CodecInterface (σ : Type) where
  Get : σ → String → σ × GoAny × Option GoError
  GetWithTTL : σ → String → σ × GoAny × Int × Option GoError
  Set : σ → String → GoAny → List StoreOption → σ × Option GoError
  Delete : σ → String → σ × Option GoError
  Invalidate : σ → List InvalidateOption → σ × Option GoError
  Clear : σ → σ × Option GoError

/-- A Go type parameter `T` as the generic code uses it: its zero value
`*new(T)`, the type assertion `value.(T)` and the conversion of a `T` to `any`. -/
structure TypeParam (T : Type) where
  zero : T
  assert : GoAny → Option T
  toAny : T → GoAny

/-- Go `Cache[T]`. -/
structure Cache (σ T : Type) where
  Codec : CodecInterface σ
  Param : TypeParam T

/-- Go `Cache.Get`. -/
def Cache.Get {σ T : Type} (c : Cache σ T) (st : σ) (key : GoAny) : σ × T × Option GoError :=
  let cacheKey := GetCacheKey key
  match c.Codec.Get st cacheKey with
  | (st1, _, some err) => (st1, c.Param.zero, some err)
  | (st1, value, none) =>
    match c.Param.assert value with
    | some v => (st1, v, none)
    | none => (st1, c.Param.zero, none)

/-- Go `Cache.GetWithTTL`. -/
def Cache.GetWithTTL {σ T : Type} (c : Cache σ T) (st : σ) (key : GoAny) :
    σ × T × Int × Option GoError :=
  let cacheKey := GetCacheKey key
  match c.Codec.GetWithTTL st cacheKey with
  | (st1, _, duration, some err) => (st1, c.Param.zero, duration, some err)
  | (st1, value, duration, none) =>
    match c.Param.assert value with
    | some v => (st1, v, duration, none)
    | none => (st1, c.Param.zero, duration, none)

/-- Go `Cache.Set`. -/
def Cache.Set {σ T : Type} (c : Cache σ T) (st : σ) (key : GoAny) (object : T)
    (options : List StoreOption) : σ × Option GoError :=
  c.Codec.Set st (GetCacheKey key) (c.Param.toAny object) options

/-- Go `Cache.Delete`. -/
def Cache.Delete {σ T : Type} (c : Cache σ T) (st : σ) (key : GoAny) : σ × Option GoError :=
  c.Codec.Delete st (GetCacheKey key)

/-- Go `Cache.Invalidate`. -/
def Cache.Invalidate {σ T : Type} (c : Cache σ T) (st : σ) (options : List InvalidateOption) :
    σ × Option GoError :=
  c.Codec.Invalidate st options

/-- Go `Cache.Clear`. -/
def Cache.Clear {σ T : Type} (c : Cache σ T) (st : σ) : σ × Option GoError :=
  c.Codec.Clear st

/-- The type parameter `string`. -/
def stringParam : TypeParam String where
  zero := ""
  assert := fun value =>
    match value with
    | GoAny.string s => some s
    | _ => none
  toAny := GoAny.string

/-- A codec that holds one value and returns it, with a nil error, for every
key; its state counts the calls. -/
def constCodec (value : GoAny) : CodecInterface Nat where
  Get := fun n _ => (n + 1, value, none)
  GetWithTTL := fun n _ => (n + 1, value, 0, none)
  Set := fun n _ _ _ => (n + 1, none)
  Delete := fun n _ => (n + 1, none)
  Invalidate := fun n _ => (n + 1, none)
  Clear := fun n => (n + 1, none)

/-- A codec whose reads fail with the given error, reporting the given
duration; its state counts the calls. -/
def failingCodec (err : GoError) (duration : Int) : CodecInterface Nat where
  Get := fun n _ => (n + 1, GoAny.nil, some err)
  GetWithTTL := fun n _ => (n + 1, GoAny.nil, duration, some err)
  Set := fun n _ _ _ => (n + 1, none)
  Delete := fun n _ => (n + 1, none)
  Invalidate := fun n _ => (n + 1, none)
  Clear := fun n => (n + 1, none)

/-! ## Package `cache`: the loadable cache -/

/-- Go `CacheInterface[T]`, over an explicit cache state `σ`. -/
structure CacheInterface (σ T : Type) where
  Get : σ → GoAny → σ × T × Option GoError
  Set : σ → GoAny → T → List StoreOption → σ × Option GoError
  Delete : σ → GoAny → σ × Option GoError
  Invalidate : σ → List InvalidateOption → σ × Option GoError
  Clear : σ → σ × Option GoError
  GetType : String

/-- Go `LoadFunction[T]`, over an explicit loader state `L`. -/
abbrev LoadFunction (L T : Type) := L → GoAny → L × T × Option GoError

/-- Go `LoadableCache[T]`: the immutable fields. -/
structure LoadableCache (σ L T : Type) where
  LoadFunc : LoadFunction L T
  Cache : CacheInterface σ T

/-- The mutable state around a `LoadableCache`: the state of the inner cache,
the state of the loader, the items buffered in `SetChannel` (oldest first) and
whether the channel has been closed. -/
structure LoadableState (σ L T : Type) where
  cache : σ
  loader : L
  SetChannel : List (GoAny × T)
  closed : Bool

/-- The capacity of `SetChannel` (`make(chan ..., 10000)`). -/
def SetChannelCapacity : Nat := 10000

/-- How a call of `LoadableCache.Get` ends: it returns, it panics on a send
to the closed channel, or it waits on the full channel with an item pending. -/
inductive LoadableResult (σ L T : Type) where
  | returned (st : LoadableState σ L T) (object : T) (err : Option GoError)
  | panicked (st : LoadableState σ L T)
  | blocked (st : LoadableState σ L T) (pending : GoAny × T)

/-- Go `LoadableCache.Get`. -/
def LoadableCache.Get {σ L T : Type} (c : LoadableCache σ L T) (st : LoadableState σ L T)
    (key : GoAny) : LoadableResult σ L T :=
  match c.Cache.Get st.cache key with
  | (s1, object, none) => LoadableResult.returned { st with cache := s1 } object none
  | (s1, _, some _) =>
    match c.LoadFunc st.loader key with
    | (l1, object, some err) =>
      LoadableResult.returned { st with cache := s1, loader := l1 } object (some err)
    | (l1, object, none) =>
      if st.closed then LoadableResult.panicked { st with cache := s1, loader := l1 }
      else if st.SetChannel.length < SetChannelCapacity then
        LoadableResult.returned
          { st with cache := s1, loader := l1, SetChannel := st.SetChannel ++ [(key, object)] }
          object none
      else LoadableResult.blocked { st with cache := s1, loader := l1 } (key, object)

/-- An inner cache that holds one value and returns it, with a nil error, for
every key; its state counts the calls. -/
def constCache {T : Type} (value : T) : CacheInterface Nat T where
  Get := fun n _ => (n + 1, value, none)
  Set := fun n _ _ _ => (n + 1, none)
  Delete := fun n _ => (n + 1, none)
  Invalidate := fun n _ => (n + 1, none)
  Clear := fun n => (n + 1, none)
  GetType := "const"

/-- A loader that returns its key formatted; its state counts its calls. -/
def countingLoader : LoadFunction Nat String :=
  fun n key => (n + 1, key.formatted, none)

/-- Go `NewLoadable`: the decorator itself. -/
def NewLoadable {σ L T : Type} (loadFunc : LoadFunction L T) (cache : CacheInterface σ T) :
    LoadableCache σ L T :=
  { LoadFunc := loadFunc, Cache := cache }

/-- Go `LoadableCache.Set`. -/
def LoadableCache.Set {σ L T : Type} (c : LoadableCache σ L T) (st : LoadableState σ L T)
    (key : GoAny) (object : T) (options : List StoreOption) :
    LoadableState σ L T × Option GoError :=
  match c.Cache.Set st.cache key object options with
  | (s1, err) => ({ st with cache := s1 }, err)

/-- Go `LoadableCache.Delete`. -/
def LoadableCache.Delete {σ L T : Type} (c : LoadableCache σ L T) (st : LoadableState σ L T)
    (key : GoAny) : LoadableState σ L T × Option GoError :=
  match c.Cache.Delete st.cache key with
  | (s1, err) => ({ st with cache := s1 }, err)

/-- Go `LoadableCache.Invalidate`. -/
def LoadableCache.Invalidate {σ L T : Type} (c : LoadableCache σ L T)
    (st : LoadableState σ L T) (options : List InvalidateOption) :
    LoadableState σ L T × Option GoError :=
  match c.Cache.Invalidate st.cache options with
  | (s1, err) => ({ st with cache := s1 }, err)

/-- Go `LoadableCache.Clear`. -/
def LoadableCache.Clear {σ L T : Type} (c : LoadableCache σ L T) (st : LoadableState σ L T) :
    LoadableState σ L T × Option GoError :=
  match c.Cache.Clear st.cache with
  | (s1, err) => ({ st with cache := s1 }, err)

/-- The item a call of `Get` loads successfully, if any: the inner cache's
`Get` fails and the loader returns a nil error. -/
def LoadableCache.successfulLoad {σ L T : Type} (c : LoadableCache σ L T)
    (st : LoadableState σ L T) (key : GoAny) : List (GoAny × T) :=
  match c.Cache.Get st.cache key with
  | (_, _, none) => []
  | (_, _, some _) =>
    match c.LoadFunc st.loader key with
    | (_, _, some _) => []
    | (_, object, none) => [(key, object)]

/-- A `LoadableCache` with its worker: the decorator's state, the items of the
calls of `Get` that wait on the full channel (oldest first), whether the worker
has left its loop (`SetterWg.Done` has run), and two histories kept for the
statement of properties: the successful loads and the write-backs performed,
both in order. -/
structure LoadableSystem (σ L T : Type) where
  st : LoadableState σ L T
  waiting : List (GoAny × T)
  exited : Bool
  loads : List (GoAny × T)
  writes : List (GoAny × T)

/-- Go `NewLoadable`: the state it creates, an empty open channel of capacity
10000 and a running worker. -/
def NewLoadableSystem {σ L T : Type} (cache : σ) (loader : L) : LoadableSystem σ L T :=
  { st := { cache := cache, loader := loader, SetChannel := [], closed := false },
    waiting := [], exited := false, loads := [], writes := [] }

/-- A call of `Get` as a step of the system, up to its return or up to the
point where it waits on the full channel; `none` when the call panics. -/
def LoadableCache.getStep {σ L T : Type} (c : LoadableCache σ L T) (s : LoadableSystem σ L T)
    (key : GoAny) : Option (LoadableSystem σ L T) :=
  match c.Get s.st key with
  | LoadableResult.returned st1 _ _ =>
    some { s with st := st1, loads := s.loads ++ c.successfulLoad s.st key }
  | LoadableResult.blocked st1 pending =>
    some { s with st := st1, waiting := s.waiting ++ [pending],
                  loads := s.loads ++ c.successfulLoad s.st key }
  | LoadableResult.panicked _ => none

/-- One turn of the loop of Go `LoadableCache.setter`: receive the head of the
channel (the oldest waiting sender, if any, then completes its send) and call
`c.Set(context.Background(), item.key, item.value)`, ignoring the error; on the
closed and empty channel the loop ends.  `none` when the worker has nothing to
do. -/
def LoadableCache.setterStep {σ L T : Type} (c : LoadableCache σ L T)
    (s : LoadableSystem σ L T) : Option (LoadableSystem σ L T) :=
  match s.st.SetChannel with
  | [] => if s.st.closed && !s.exited then some { s with exited := true } else none
  | item :: rest =>
    some { s with
      st := { (c.Set s.st item.1 item.2 []).1 with SetChannel := rest ++ s.waiting.take 1 },
      waiting := s.waiting.drop 1,
      writes := s.writes ++ [item] }

/-- The statement `close(c.SetChannel)`: `none` when it panics, on a channel
that is already closed, or makes the waiting senders panic. -/
def LoadableCache.closeChannel {σ L T : Type} (s : LoadableSystem σ L T) :
    Option (LoadableSystem σ L T) :=
  if s.st.closed then none
  else
    match s.waiting with
    | [] => some { s with st := { s.st with closed := true } }
    | _ :: _ => none

/-- Up to `n` turns of the worker. -/
def LoadableCache.runSetter {σ L T : Type} (c : LoadableCache σ L T) :
    Nat → LoadableSystem σ L T → LoadableSystem σ L T
  | 0, s => s
  | n + 1, s =>
    match c.setterStep s with
    | none => s
    | some s1 => LoadableCache.runSetter c n s1

/-- Go `LoadableCache.Close`, called while no other call is in progress: close
the channel, wait for the worker to leave its loop, return nil.  `none` when
`close` panics. -/
def LoadableCache.Close {σ L T : Type} (c : LoadableCache σ L T) (s : LoadableSystem σ L T) :
    Option (LoadableSystem σ L T × Option GoError) :=
  match LoadableCache.closeChannel s with
  | none => none
  | some s1 =>
    let s2 := c.runSetter (s1.st.SetChannel.length + 1) s1
    if s2.exited then some (s2, none) else none

/-- The operations on a `LoadableCache` and the turns of its worker. -/
inductive LoadableOp (T : Type) where
  | get (key : GoAny)
  | set (key : GoAny) (object : T) (options : List StoreOption)
  | delete (key : GoAny)
  | invalidate (options : List InvalidateOption)
  | clear
  | work
  | close

/-- The effect of one operation on the system; `none` when the operation
panics or cannot proceed. -/
def LoadableCache.step {σ L T : Type} (c : LoadableCache σ L T) (s : LoadableSystem σ L T) :
    LoadableOp T → Option (LoadableSystem σ L T)
  | LoadableOp.get key => c.getStep s key
  | LoadableOp.set key object options => some { s with st := (c.Set s.st key object options).1 }
  | LoadableOp.delete key => some { s with st := (c.Delete s.st key).1 }
  | LoadableOp.invalidate options => some { s with st := (c.Invalidate s.st options).1 }
  | LoadableOp.clear => some { s with st := (c.Clear s.st).1 }
  | LoadableOp.work => c.setterStep s
  | LoadableOp.close => LoadableCache.closeChannel s

/-- The system after a sequence of operations from a given system; `none` as
soon as one of them panics or cannot proceed. -/
def LoadableCache.run {σ L T : Type} (c : LoadableCache σ L T) :
    LoadableSystem σ L T → List (LoadableOp T) → Option (LoadableSystem σ L T)
  | s, [] => some s
  | s, op :: ops =>
    match c.step s op with
    | none => none
    | some s1 => LoadableCache.run c s1 ops

/-- The states of the system reachable from the state `NewLoadable` creates. -/
def LoadableCache.Reachable {σ L T : Type} (c : LoadableCache σ L T) (cache : σ) (loader : L)
    (s : LoadableSystem σ L T) : Prop :=
  ∃ ops, c.run (NewLoadableSystem cache loader) ops = some s

/-- An inner cache whose `Get` always fails and whose `Set` always fails; its
state is the list of the `Set` calls it received. -/
def missCache : CacheInterface (List (GoAny × String × List Options)) String where
  Get := fun log _ => (log, "", some (GoError.New "unable to find in cache 1"))
  Set := fun log key object options =>
    (log ++ [(key, object, options.map (fun opt => opt ⟨0, 0, []⟩))],
      some (GoError.New "unable to set"))
  Delete := fun log _ => (log, none)
  Invalidate := fun log _ => (log, none)
  Clear := fun log => (log, none)
  GetType := "miss"

/-- A loader that always fails. -/
def failingLoader : LoadFunction Nat String :=
  fun n _ => (n + 1, "", some (GoError.New "an error has occurred while loading data"))

/-- The invariant of the system: the write-backs performed, followed by the
content of the channel and the items of the waiting senders, are the successful
loads; a sender only waits on a full channel; no sender waits on a closed
channel; and the worker only leaves its loop on the closed and empty channel. -/
def LoadableInv {σ L T : Type} (s : LoadableSystem σ L T) : Prop :=
  s.writes ++ s.st.SetChannel ++ s.waiting = s.loads ∧
  (s.waiting ≠ [] → ¬ s.st.SetChannel.length < SetChannelCapacity) ∧
  (s.st.closed = true → s.waiting = []) ∧
  (s.exited = true → s.st.closed = true ∧ s.st.SetChannel = [])

/-- The decorator of the examples: a loader that always succeeds over an inner
cache that always misses. -/
def sampleLoadable : LoadableCache (List (GoAny × String × List Options)) Nat String :=
  NewLoadable countingLoader missCache

/-- The system of the examples after two loading calls of `Get` and one turn
of the worker. -/
def sampleSystem : LoadableSystem (List (GoAny × String × List Options)) Nat String :=
  { st := { cache := [(GoAny.string "a", "a", [])], loader := 2,
            SetChannel := [(GoAny.int 3, "3")], closed := false },
    waiting := [], exited := false,
    loads := [(GoAny.string "a", "a"), (GoAny.int 3, "3")],
    writes := [(GoAny.string "a", "a")] }

/-! ## Package `cache`: the metric cache -/

/-- Go `metrics.MetricsInterface`, over an explicit sink state `μ`.  The codec
is passed by reference (`C`); the sink may read, through it, the current state
`σ` of the caches. -/
structure MetricsInterface (μ σ C : Type) where
  RecordFromCodec : μ → σ → C → μ

/-- Modelled from the spec: the type `ChainCache[T]` and its `GetCaches()`
(chain.go is not among the sources), which "holds an ordered sequence of typed
caches" and whose `getCaches()` "exposes the ordered tier list".  A
`CacheShape` is the dynamic type of a `CacheInterface[T]` value as the type
switch of `updateMetrics` sees it: a `*ChainCache[T]` with the result of its
`GetCaches()`, another type that implements `SetterCacheInterface[T]` with the
result of its `GetCodec()`, or any other type. -/
inductive CacheShape (C : Type) where
  | chain (caches : List (CacheShape C))
  | setter (codec : C)
  | other

/-- Go `MetricCache[T]`; `shape` is the dynamic type of the value in `Cache`. -/
structure MetricCache (μ σ C T : Type) where
  Metrics : MetricsInterface μ σ C
  Cache : CacheInterface σ T
  shape : CacheShape C

mutual

/-- Go `MetricCache.updateMetrics`. -/
def updateMetrics {μ σ C : Type} (metrics : MetricsInterface μ σ C) (st : σ) :
    CacheShape C → μ → μ
  | CacheShape.chain caches, sink => updateMetricsEach metrics st caches sink
  | CacheShape.setter codec, sink => metrics.RecordFromCodec sink st codec
  | CacheShape.other, sink => sink

/-- The loop of `updateMetrics` over the caches of a chain. -/
def updateMetricsEach {μ σ C : Type} (metrics : MetricsInterface μ σ C) (st : σ) :
    List (CacheShape C) → μ → μ
  | [], sink => sink
  | cache :: caches, sink =>
    updateMetricsEach metrics st caches (updateMetrics metrics st cache sink)

end

/-- Go `MetricCache.Get`. -/
def MetricCache.Get {μ σ C T : Type} (c : MetricCache μ σ C T) (st : σ) (sink : μ)
    (key : GoAny) : σ × μ × T × Option GoError :=
  match c.Cache.Get st key with
  | (st1, result, err) => (st1, updateMetrics c.Metrics st1 c.shape sink, result, err)

/-- Go `MetricCache.Set`. -/
def MetricCache.Set {μ σ C T : Type} (c : MetricCache μ σ C T) (st : σ) (sink : μ)
    (key : GoAny) (object : T) (options : List StoreOption) : σ × μ × Option GoError :=
  match c.Cache.Set st key object options with
  | (st1, err) => (st1, sink, err)

/-- Go `MetricCache.Delete`. -/
def MetricCache.Delete {μ σ C T : Type} (c : MetricCache μ σ C T) (st : σ) (sink : μ)
    (key : GoAny) : σ × μ × Option GoError :=
  match c.Cache.Delete st key with
  | (st1, err) => (st1, sink, err)

/-- Go `MetricCache.Invalidate`. -/
def MetricCache.Invalidate {μ σ C T : Type} (c : MetricCache μ σ C T) (st : σ) (sink : μ)
    (options : List InvalidateOption) : σ × μ × Option GoError :=
  match c.Cache.Invalidate st options with
  | (st1, err) => (st1, sink, err)

/-- Go `MetricCache.Clear`. -/
def MetricCache.Clear {μ σ C T : Type} (c : MetricCache μ σ C T) (st : σ) (sink : μ) :
    σ × μ × Option GoError :=
  match c.Cache.Clear st with
  | (st1, err) => (st1, sink, err)

/-- A sink that keeps the list of the codecs it was called with, in order. -/
def logSink (σ C : Type) : MetricsInterface (List C) σ C where
  RecordFromCodec := fun log _ codec => log ++ [codec]

mutual

/-- The codecs `updateMetrics` records for a cache, in order. -/
def CacheShape.codecs {C : Type} : CacheShape C → List C
  | CacheShape.chain caches => CacheShape.codecsEach caches
  | CacheShape.setter codec => [codec]
  | CacheShape.other => []

/-- The codecs recorded for a list of caches, in order. -/
def CacheShape.codecsEach {C : Type} : List (CacheShape C) → List C
  | [] => []
  | cache :: caches => cache.codecs ++ CacheShape.codecsEach caches

end

/-! ## Package `marshaler` -/

/-- The two functions of the `msgpack` package the marshaler calls, on values
of type `Obj`: `Marshal(object)` and `Unmarshal(data, target)`, which returns
the content of the target after the call together with the error. -/
structure Serializer (Obj : Type) where
  Marshal : Obj → ByteSlice × Option GoError
  Unmarshal : ByteSlice → Obj → Obj × Option GoError

/-- Go `Marshaler`, with the serializer package it calls. -/
structure Marshaler (σ Obj : Type) where
  Cache : CacheInterface σ GoAny
  msgpack : Serializer Obj

/-- Go `Marshaler.Get`.  The result is the state of the inner cache, the
content of the caller's target after the call, the returned value (`none` is
nil, `some` is the target) and the error. -/
def Marshaler.Get {σ Obj : Type} (c : Marshaler σ Obj) (st : σ) (key : GoAny)
    (returnObj : Obj) : σ × Obj × Option Obj × Option GoError :=
  match c.Cache.Get st key with
  | (st1, _, some err) => (st1, returnObj, none, some err)
  | (st1, result, none) =>
    let decoded : Obj × Option GoError :=
      match result with
      | GoAny.bytes v => c.msgpack.Unmarshal v returnObj
      | GoAny.string v => c.msgpack.Unmarshal (bytesOfString v) returnObj
      | _ => (returnObj, none)
    match decoded with
    | (target, some err) => (st1, target, none, some err)
    | (target, none) => (st1, target, some target, none)

/-- Go `Marshaler.Set`. -/
def Marshaler.Set {σ Obj : Type} (c : Marshaler σ Obj) (st : σ) (key : GoAny) (object : Obj)
    (options : List StoreOption) : σ × Option GoError :=
  match c.msgpack.Marshal object with
  | (_, some err) => (st, some err)
  | (bytes, none) => c.Cache.Set st key (GoAny.bytes bytes) options

/-- Go `Marshaler.Delete`. -/
def Marshaler.Delete {σ Obj : Type} (c : Marshaler σ Obj) (st : σ) (key : GoAny) :
    σ × Option GoError :=
  c.Cache.Delete st key

/-- Go `Marshaler.Invalidate`. -/
def Marshaler.Invalidate {σ Obj : Type} (c : Marshaler σ Obj) (st : σ)
    (options : List InvalidateOption) : σ × Option GoError :=
  c.Cache.Invalidate st options

/-- Go `Marshaler.Clear`. -/
def Marshaler.Clear {σ Obj : Type} (c : Marshaler σ Obj) (st : σ) : σ × Option GoError :=
  c.Cache.Clear st

/-- A serializer for the examples, on strings: the empty string cannot be
encoded, any other string is encoded as itself; decoding fails on the nil
slice and on `unknown-string`, leaving a mark in the target. -/
def sampleSerializer : Serializer String where
  Marshal := fun object =>
    if object = "" then (none, some (GoError.New "cannot encode")) else (some object, none)
  Unmarshal := fun data target =>
    match data with
    | none => (target, some (GoError.New "EOF"))
    | some b =>
      if b = "unknown-string" then (target ++ "?", some (GoError.New "cannot decode"))
      else (b, none)

/-- An inner cache with one slot: `Set` stores the value and the applied
options whatever the key, `Get` returns the stored value or fails when the slot
is empty. -/
def slotCache : CacheInterface (Option (GoAny × Options)) GoAny where
  Get := fun slot _ =>
    match slot with
    | some (value, _) => (slot, value, none)
    | none => (slot, GoAny.nil, some (GoError.New "unable to find item in store"))
  Set := fun _ _ object options => (some (object, ApplyOptionsWithDefault ⟨0, 0, []⟩ options), none)
  Delete := fun _ _ => (none, none)
  Invalidate := fun slot _ => (slot, none)
  Clear := fun _ => (none, none)
  GetType := "slot"

/-! ## Package `time` and numeric conversions -/

/-- Round a rational to the nearest integer, ties to the even one. -/
def roundHalfEven (q : ℚ) : ℤ :=
  if q - ⌊q⌋ < 1 / 2 then ⌊q⌋
  else if 1 / 2 < q - ⌊q⌋ then ⌊q⌋ + 1
  else if ⌊q⌋ % 2 = 0 then ⌊q⌋ else ⌊q⌋ + 1

/-- The `float64` nearest to a real value (round to nearest, ties to even, 53
significant bits; the exponent range plays no part in the values met here).
Every `float64` operation returns the rounding of its exact result. -/
def float64Round (x : ℚ) : ℚ :=
  if x = 0 then 0
  else if 0 < x then (roundHalfEven (x * 2 ^ (52 - Int.log 2 x)) : ℚ) * 2 ^ (Int.log 2 x - 52)
  else -((roundHalfEven (-x * 2 ^ (52 - Int.log 2 (-x))) : ℚ) * 2 ^ (Int.log 2 (-x) - 52))

/-- One second as a `time.Duration` (nanoseconds). -/
def Second : Int := 1000000000

/-- Go `Duration.Seconds`: `float64(d / Second) + float64(d % Second) / 1e9`,
with Go's truncated integer division. -/
def Duration.Seconds (d : Int) : ℚ :=
  float64Round (float64Round (Int.tdiv d Second) +
    float64Round (float64Round (Int.tmod d Second) / float64Round 1000000000))

/-- The Go conversion `int32(f)` of a `float64`: the fraction is discarded
(truncation toward zero); a value out of range gives the smallest `int32`, as
on amd64 (the language leaves that case to the implementation). -/
def int32OfFloat (x : ℚ) : Int :=
  if -2147483648 ≤ (if 0 ≤ x then ⌊x⌋ else ⌈x⌉) ∧ (if 0 ≤ x then ⌊x⌋ else ⌈x⌉) < 2147483648
  then (if 0 ≤ x then ⌊x⌋ else ⌈x⌉)
  else -2147483648

/-! ## Package `store`: the Memcache store -/

/-- Go `memcache.Item`; `casid` is the compare-and-swap token the client keeps
in the item. -/
structure MemcacheItem where
  Key : String
  Value : ByteSlice
  Flags : Nat
  Expiration : Int
  casid : Nat
  deriving DecidableEq, Repr

/-- Go `MemcacheClientInterface`, over an explicit client state `σ`.  `Get`
returns the item pointer (`none` is nil) and the error. -/
structure MemcacheClientInterface (σ : Type) where
  Get : σ → String → σ × Option MemcacheItem × Option GoError
  Set : σ → MemcacheItem → σ × Option GoError
  Delete : σ → String → σ × Option GoError
  FlushAll : σ → σ × Option GoError
  CompareAndSwap : σ → MemcacheItem → σ × Option GoError
  Add : σ → MemcacheItem → σ × Option GoError

/-- Go `memcache.ErrCacheMiss`. -/
def ErrCacheMiss : GoError := GoError.New "memcache: cache miss"

/-- Go `errors.Is(err, target)`: the error itself or an error it wraps. -/
def errorsIs : GoError → GoError → Bool
  | GoError.New msg, target => decide (GoError.New msg = target)
  | GoError.NotFound cause, target =>
    decide (GoError.NotFound cause = target) || errorsIs cause target

/-- Go `TagKeyExpiry`, 720 hours. -/
def TagKeyExpiry : Int := 720 * Hour

/-- Go `MemcacheStore`. -/
structure MemcacheStore (σ : Type) where
  Client : MemcacheClientInterface σ
  Options : Options

/-- Go `NewMemcache`. -/
def NewMemcache {σ : Type} (client : MemcacheClientInterface σ) (options : List StoreOption) :
    MemcacheStore σ :=
  { Client := client, Options := applyOptions options }

/-- Go `fmt.Sprintf(MemcacheTagPattern, tag)` with the pattern `"gocache_tag_%s"`. -/
def MemcacheTagKey (tag : String) : String := "gocache_tag_" ++ tag

/-- Go `MemcacheStore.Get`. -/
def MemcacheStore.Get {σ : Type} (s : MemcacheStore σ) (st : σ) (key : String) :
    σ × GoAny × Option GoError :=
  match s.Client.Get st key with
  | (st1, _, some err) => (st1, GoAny.nil, some err)
  | (st1, none, none) =>
    (st1, GoAny.nil,
      some (GoError.NotFound (GoError.New "unable to retrieve data from memcache")))
  | (st1, some item, none) => (st1, GoAny.bytes item.Value, none)

/-- Go `MemcacheStore.GetWithTTL`. -/
def MemcacheStore.GetWithTTL {σ : Type} (s : MemcacheStore σ) (st : σ) (key : String) :
    σ × GoAny × Int × Option GoError :=
  match s.Client.Get st key with
  | (st1, _, some err) => (st1, GoAny.nil, 0, some err)
  | (st1, none, none) =>
    (st1, GoAny.nil, 0,
      some (GoError.NotFound (GoError.New "unable to retrieve data from memcache")))
  | (st1, some item, none) => (st1, GoAny.bytes item.Value, item.Expiration * Second, none)

/-- Go `MemcacheStore.addKeyToTagValue`.  `none` is the panic of
`result.Value` on a nil item returned with a nil error. -/
def MemcacheStore.addKeyToTagValue {σ : Type} (s : MemcacheStore σ) (st : σ)
    (tagKey : String) (key : String) : Option (σ × Option GoError) :=
  match s.Client.Get st tagKey with
  | (st1, result, err) =>
    let read : Option (Option (List String)) :=
      match err, result with
      | none, some item => some (some (strings.Split (stringOfBytes item.Value) ','))
      | none, none => none
      | some e, _ => if !errorsIs e ErrCacheMiss then some none else some (some [])
    match read with
    | none => none
    | some none => some (st1, err)
    | some (some cacheKeys) =>
      if cacheKeys.any (fun cacheKey => cacheKey == key) then some (st1, none)
      else
        let newVal := bytesOfString (strings.Join (cacheKeys ++ [key]) ',')
        match result with
        | none =>
          some (s.Client.Add st1
            { Key := tagKey, Value := newVal, Flags := 0,
              Expiration := int32OfFloat (Duration.Seconds TagKeyExpiry), casid := 0 })
        | some item =>
          some (s.Client.CompareAndSwap st1
            { item with Value := newVal,
                        Expiration := int32OfFloat (Duration.Seconds TagKeyExpiry) })

/-- The retry loop of `MemcacheStore.setTags` for one tag, with `n` attempts
left and the error of the last attempt. -/
def MemcacheStore.addKeyRetry {σ : Type} (s : MemcacheStore σ) (tagKey key : String) :
    Nat → σ → Option GoError → Option (σ × Option GoError)
  | 0, st, err => some (st, err)
  | n + 1, st, _ =>
    match s.addKeyToTagValue st tagKey key with
    | none => none
    | some (st1, none) => some (st1, none)
    | some (st1, some err) => MemcacheStore.addKeyRetry s tagKey key n st1 (some err)

/-- Go `MemcacheStore.setTags`.  The source starts one goroutine per tag and
waits for all of them; the embedding runs them one after the other, in the
order of the tags.  Each makes up to three attempts; the errors are dropped. -/
def MemcacheStore.setTags {σ : Type} (s : MemcacheStore σ) (st : σ) (key : String) :
    List String → Option σ
  | [] => some st
  | tag :: tags =>
    match s.addKeyRetry (MemcacheTagKey tag) key 3 st none with
    | none => none
    | some (st1, _) => MemcacheStore.setTags s st1 key tags

/-- The item `MemcacheStore.Set` builds for the client from the key, the bytes
and the merged options. -/
def MemcacheStore.newItem (opts : gocache.Options) (key : String) (v : ByteSlice) : MemcacheItem :=
  { Key := key, Value := v, Flags := 0,
    Expiration := int32OfFloat (Duration.Seconds opts.Expiration), casid := 0 }

/-- Go `MemcacheStore.Set`.  `none` is a panic: the type assertion
`value.([]byte)` on another value, or the panic of `addKeyToTagValue`. -/
def MemcacheStore.Set {σ : Type} (s : MemcacheStore σ) (st : σ) (key : String) (value : GoAny)
    (options : List StoreOption) : Option (σ × Option GoError) :=
  let opts := ApplyOptionsWithDefault s.Options options
  match value with
  | GoAny.bytes v =>
    match s.Client.Set st (MemcacheStore.newItem opts key v) with
    | (st1, some err) => some (st1, some err)
    | (st1, none) =>
      if opts.Tags.length > 0 then
        match s.setTags st1 key opts.Tags with
        | none => none
        | some st2 => some (st2, none)
      else some (st1, none)
  | _ => none

/-- Go `MemcacheStore.Delete`. -/
def MemcacheStore.Delete {σ : Type} (s : MemcacheStore σ) (st : σ) (key : String) :
    σ × Option GoError :=
  s.Client.Delete st key

/-- The inner loop of `MemcacheStore.Invalidate`. -/
def MemcacheStore.deleteKeys {σ : Type} (s : MemcacheStore σ) (st : σ) : List String → σ
  | [] => st
  | cacheKey :: cacheKeys => MemcacheStore.deleteKeys s (s.Delete st cacheKey).1 cacheKeys

/-- The outer loop of `MemcacheStore.Invalidate`: a failed lookup of a tag's
index returns at once. -/
def MemcacheStore.invalidateTags {σ : Type} (s : MemcacheStore σ) (st : σ) :
    List String → σ × Option GoError
  | [] => (st, none)
  | tag :: tags =>
    match s.Get st (MemcacheTagKey tag) with
    | (st1, _, some _) => (st1, none)
    | (st1, result, none) =>
      let cacheKeys : List String :=
        match result with
        | GoAny.bytes bytes => strings.Split (stringOfBytes bytes) ','
        | _ => []
      MemcacheStore.invalidateTags s (s.deleteKeys st1 cacheKeys) tags

/-- Go `MemcacheStore.Invalidate`. -/
def MemcacheStore.Invalidate {σ : Type} (s : MemcacheStore σ) (st : σ)
    (options : List InvalidateOption) : σ × Option GoError :=
  let opts := applyInvalidateOptions options
  if opts.Tags.length > 0 then s.invalidateTags st opts.Tags else (st, none)

/-- Go `MemcacheStore.Clear`. -/
def MemcacheStore.Clear {σ : Type} (s : MemcacheStore σ) (st : σ) : σ × Option GoError :=
  s.Client.FlushAll st

/-! ## Package `store`: the Redis cluster store -/

/-- Go `RedisClusterClientInterface`, over an explicit client state `σ`; each
method returns what `.Result()` (or `.Err()`) gives on the command it returns. -/
structure RedisClusterClientInterface (σ : Type) where
  Get : σ → String → σ × String × Option GoError
  TTL : σ → String → σ × Int × Option GoError
  Expire : σ → String → Int → σ × Bool × Option GoError
  Set : σ → String → GoAny → Int → σ × Option GoError
  Del : σ → List String → σ × Int × Option GoError
  FlushAll : σ → σ × Option GoError
  SAdd : σ → String → List String → σ × Int × Option GoError
  SMembers : σ → String → σ × List String × Option GoError

/-- Go `redis.Nil`. -/
def RedisNil : GoError := GoError.New "redis: nil"

/-- Go `RedisClusterStore`. -/
structure RedisClusterStore (σ : Type) where
  Clusclient : RedisClusterClientInterface σ
  Options : Options

/-- Go `NewRedisCluster`. -/
def NewRedisCluster {σ : Type} (client : RedisClusterClientInterface σ)
    (options : List StoreOption) : RedisClusterStore σ :=
  { Clusclient := client, Options := applyOptions options }

/-- Modelled from the spec: the constant `RedisTagPattern`, which
rediscluster.go uses and redis.go (not among the sources) declares; the tag key
follows the "fixed pattern `"gocache_tag_" + tag`". -/
def RedisTagKey (tag : String) : String := "gocache_tag_" ++ tag

/-- Go `RedisClusterStore.Get`. -/
def RedisClusterStore.Get {σ : Type} (s : RedisClusterStore σ) (st : σ) (key : String) :
    σ × GoAny × Option GoError :=
  match s.Clusclient.Get st key with
  | (st1, object, err) =>
    if err = some RedisNil then (st1, GoAny.nil, some (GoError.NotFound RedisNil))
    else (st1, GoAny.string object, err)

/-- Go `RedisClusterStore.GetWithTTL`. -/
def RedisClusterStore.GetWithTTL {σ : Type} (s : RedisClusterStore σ) (st : σ) (key : String) :
    σ × GoAny × Int × Option GoError :=
  match s.Clusclient.Get st key with
  | (st1, object, err) =>
    if err = some RedisNil then (st1, GoAny.nil, 0, some (GoError.NotFound RedisNil))
    else
      match err with
      | some e => (st1, GoAny.nil, 0, some e)
      | none =>
        match s.Clusclient.TTL st1 key with
        | (st2, _, some e) => (st2, GoAny.nil, 0, some e)
        | (st2, ttl, none) => (st2, GoAny.string object, ttl, none)

/-- Go `RedisClusterStore.setTags`. -/
def RedisClusterStore.setTags {σ : Type} (s : RedisClusterStore σ) (st : σ) (key : String) :
    List String → σ
  | [] => st
  | tag :: tags =>
    RedisClusterStore.setTags s
      (s.Clusclient.Expire (s.Clusclient.SAdd st (RedisTagKey tag) [key]).1 (RedisTagKey tag)
        (720 * Hour)).1 key tags

/-- Go `RedisClusterStore.Set`. -/
def RedisClusterStore.Set {σ : Type} (s : RedisClusterStore σ) (st : σ) (key : String)
    (value : GoAny) (options : List StoreOption) : σ × Option GoError :=
  let opts := ApplyOptionsWithDefault s.Options options
  match s.Clusclient.Set st key value opts.Expiration with
  | (st1, some err) => (st1, some err)
  | (st1, none) =>
    if opts.Tags.length > 0 then (s.setTags st1 key opts.Tags, none) else (st1, none)

/-- Go `RedisClusterStore.Delete`. -/
def RedisClusterStore.Delete {σ : Type} (s : RedisClusterStore σ) (st : σ) (key : String) :
    σ × Option GoError :=
  match s.Clusclient.Del st [key] with
  | (st1, _, err) => (st1, err)

/-- The inner loop of `RedisClusterStore.Invalidate`. -/
def RedisClusterStore.deleteKeys {σ : Type} (s : RedisClusterStore σ) (st : σ) :
    List String → σ
  | [] => st
  | cacheKey :: cacheKeys => RedisClusterStore.deleteKeys s (s.Delete st cacheKey).1 cacheKeys

/-- The outer loop of `RedisClusterStore.Invalidate`: a tag whose members
cannot be read is skipped. -/
def RedisClusterStore.invalidateTags {σ : Type} (s : RedisClusterStore σ) (st : σ) :
    List String → σ
  | [] => st
  | tag :: tags =>
    match s.Clusclient.SMembers st (RedisTagKey tag) with
    | (st1, _, some _) => RedisClusterStore.invalidateTags s st1 tags
    | (st1, cacheKeys, none) =>
      RedisClusterStore.invalidateTags s
        (s.Delete (s.deleteKeys st1 cacheKeys) (RedisTagKey tag)).1 tags

/-- Go `RedisClusterStore.Invalidate`. -/
def RedisClusterStore.Invalidate {σ : Type} (s : RedisClusterStore σ) (st : σ)
    (options : List InvalidateOption) : σ × Option GoError :=
  let opts := applyInvalidateOptions options
  if opts.Tags.length > 0 then (s.invalidateTags st opts.Tags, none) else (st, none)

/-- Go `RedisClusterStore.Clear`. -/
def RedisClusterStore.Clear {σ : Type} (s : RedisClusterStore σ) (st : σ) :
    σ × Option GoError :=
  match s.Clusclient.FlushAll st with
  | (st1, some err) => (st1, some err)
  | (st1, none) => (st1, none)

/-- A Redis cluster client that records, in order, the keys whose deletion is
requested.  `members` gives the member set of each key, `none` when the lookup
fails; `delFails` tells the keys whose deletion fails. -/
def recordingRedis (members : String → Option (List String)) (delFails : String → Bool) :
    RedisClusterClientInterface (List String) where
  Get := fun log _ => (log, "", some RedisNil)
  TTL := fun log _ => (log, 0, none)
  Expire := fun log _ _ => (log, true, none)
  Set := fun log _ _ _ => (log, none)
  Del := fun log keys =>
    (log ++ keys, 0, if keys.any delFails then some (GoError.New "unexpected error") else none)
  FlushAll := fun log => (log, none)
  SAdd := fun log _ _ => (log, 1, none)
  SMembers := fun log key =>
    match members key with
    | some ms => (log, ms, none)
    | none => (log, [], some (GoError.New "unable to read members"))

/-- The deletions the claim on `RedisClusterStore.Invalidate` describes: for
each tag whose member set can be read, its members, then its index key. -/
def expectedRedisDeletes (members : String → Option (List String)) : List String → List String
  | [] => []
  | tag :: tags =>
    (match members (RedisTagKey tag) with
     | some ms => ms ++ [RedisTagKey tag]
     | none => []) ++ expectedRedisDeletes members tags

/-- A Bigcache client that records, in order, the keys whose deletion is
requested.  `index` gives the entry under each key, `none` when it is absent;
`delFails` tells the keys whose deletion fails. -/
def recordingBigcache (index : String → Option String) (delFails : String → Bool) :
    BigcacheClientInterface (List String) where
  Get := fun log key =>
    match index key with
    | some b => (log, some b, none)
    | none => (log, none, some ErrEntryNotFound)
  Set := fun log _ _ => (log, none)
  Delete := fun log key =>
    (log ++ [key], if delFails key then some (GoError.New "unexpected error") else none)
  Reset := fun log => (log, none)

/-- A Memcache client that records, in order, the keys whose deletion is
requested, with the same parameters as `recordingBigcache`. -/
def recordingMemcache (index : String → Option String) (delFails : String → Bool) :
    MemcacheClientInterface (List String) where
  Get := fun log key =>
    match index key with
    | some b =>
      (log, some { Key := key, Value := some b, Flags := 0, Expiration := 0, casid := 1 }, none)
    | none => (log, none, some ErrCacheMiss)
  Set := fun log _ => (log, none)
  Delete := fun log key =>
    (log ++ [key], if delFails key then some (GoError.New "unexpected error") else none)
  FlushAll := fun log => (log, none)
  CompareAndSwap := fun log _ => (log, none)
  Add := fun log _ => (log, none)

/-! ## Options behind pointers -/

/-- A memory holding `Options` structs at addresses. -/
abbrev OptionsHeap := Nat → Options

/-- The memory with the struct at address `p` replaced. -/
def OptionsHeap.write (h : OptionsHeap) (p : Nat) (o : Options) : OptionsHeap :=
  fun q => if q = p then o else h q

/-- Go `store.Option` as it runs: a function that receives a pointer to an
`Options` struct and writes through it. -/
abbrev PointerOption := OptionsHeap → Nat → OptionsHeap

/-- Go `store.WithCost`, through the pointer: `o.Cost = cost`. -/
def WithCostPtr (cost : Int) : PointerOption :=
  fun h o => h.write o { h o with Cost := cost }

/-- Go `store.WithExpiration`, through the pointer: `o.Expiration = expiration`. -/
def WithExpirationPtr (expiration : Int) : PointerOption :=
  fun h o => h.write o { h o with Expiration := expiration }

/-- Go `store.WithTags`, through the pointer: `o.Tags = tags`. -/
def WithTagsPtr (tags : List String) : PointerOption :=
  fun h o => h.write o { h o with Tags := tags }

/-- The pointer-level option an override stands for. -/
def Override.toPointerOption : Override → PointerOption
  | Override.cost c => WithCostPtr c
  | Override.expiration e => WithExpirationPtr e
  | Override.tags ts => WithTagsPtr ts

/-- Go `store.ApplyOptionsWithDefault` on pointers: `returnedOptions :=
&Options{}` is the fresh address `fresh`, `*returnedOptions = *defaultOptions`
copies the struct, then every option runs on `returnedOptions`.  The result is
the memory after the call and the returned pointer. -/
def ApplyOptionsWithDefaultPtr (h : OptionsHeap) (fresh : Nat) (defaultOptions : Nat)
    (opts : List PointerOption) : OptionsHeap × Nat :=
  (opts.foldl (fun heap opt => opt heap fresh) (h.write fresh (h defaultOptions)), fresh)

/-- The store of the failing case of `Set`: `NewBigcache(client,
WithTags([]string{"a"}))` over the map client. -/
def taggedStore : BigcacheStore MapState := NewBigcache mapClient [WithTags ["a"]]

/-- A Memcache client that records, in order, the index writes it receives:
the command (`Add` or `CompareAndSwap`) and the item.  `index` gives the entry
under each key, `none` when it is absent; `writeFails` makes every index write
fail. -/
def tagWriteMemcache (index : String → Option String) (writeFails : Bool) :
    MemcacheClientInterface (List (String × MemcacheItem)) where
  Get := fun log key =>
    match index key with
    | some b =>
      (log, some { Key := key, Value := some b, Flags := 0, Expiration := 0, casid := 1 }, none)
    | none => (log, none, some ErrCacheMiss)
  Set := fun log _ => (log, none)
  Delete := fun log _ => (log, none)
  FlushAll := fun log => (log, none)
  CompareAndSwap := fun log item =>
    (log ++ [("CompareAndSwap", item)],
      if writeFails then some (GoError.New "memcache: compare-and-swap conflict") else none)
  Add := fun log item =>
    (log ++ [("Add", item)],
      if writeFails then some (GoError.New "memcache: item not stored") else none)

/-- The index of the tests: the tag `tag1` lists `my-key` and `a-second-key`. -/
def sampleIndex : String → Option String :=
  fun key => if key = "gocache_tag_tag1" then some "my-key,a-second-key" else none

/-- A map client state in which the tag `b` lists the key `k`, the key `k`
holds a value, and the tag `a` has no index entry. -/
def twoTagMap : MapState :=
  fun key => if key = "gocache_tag_b" then some "k" else if key = "k" then some "v" else none

/-- The deletions the claim on the store-level `Invalidate` describes for a
store that keeps the index of a tag as a comma-separated entry under
`tagKey tag`: the keys listed in the index of each tag, tag after tag, up to
the first tag whose index cannot be read. -/
def expectedIndexDeletes (tagKey : String → String) (index : String → Option String) :
    List String → List String
  | [] => []
  | tag :: tags =>
    match index (tagKey tag) with
    | some b => strings.Split b ',' ++ expectedIndexDeletes tagKey index tags
    | none => []

/-- The index writes the claim on `MemcacheStore.Set` describes, on a client
whose index writes all succeed or all fail: for each tag in order, no write
when the index already lists the key, otherwise one write when the writes
succeed and three when they fail, an `Add` when the index is missing and a
`CompareAndSwap` of the item read, with the key appended, when it exists. -/
def expectedIndexWrites (index : String → Option String) (writeFails : Bool) (key : String) :
    List String → List (String × MemcacheItem)
  | [] => []
  | tag :: tags =>
    (match index (MemcacheTagKey tag) with
     | none =>
       List.replicate (if writeFails then 3 else 1)
         ("Add", { Key := MemcacheTagKey tag, Value := some key, Flags := 0,
                   Expiration := 2592000, casid := 0 })
     | some b =>
       if key ∈ strings.Split b ',' then []
       else
         List.replicate (if writeFails then 3 else 1)
           ("CompareAndSwap",
             { Key := MemcacheTagKey tag,
               Value := some (strings.Join (strings.Split b ',' ++ [key]) ','),
               Flags := 0, Expiration := 2592000, casid := 1 }))
    ++ expectedIndexWrites index writeFails key tags

/-! # Theorems -/

/-! ## Lemmas on `strings.Split` and `strings.Join` -/

theorem splitChars_ne_nil (sep : Char) (s : List Char) : splitChars sep s ≠ [] := by
  induction s with
  | nil => simp [splitChars]
  | cons c cs ih =>
    unfold splitChars
    split
    · simp
    · split <;> simp

theorem joinChars_cons_cons (sep : Char) (c : Char) (p : List Char) (ps : List (List Char)) :
    joinChars sep ((c :: p) :: ps) = c :: joinChars sep (p :: ps) := by
  cases ps <;> simp [joinChars]

theorem joinChars_splitChars (sep : Char) (s : List Char) :
    joinChars sep (splitChars sep s) = s := by
  induction s with
  | nil => simp [splitChars, joinChars]
  | cons c cs ih =>
    unfold splitChars
    split
    · rename_i h
      cases hs : splitChars sep cs with
      | nil => exact absurd hs (splitChars_ne_nil sep cs)
      | cons p ps => rw [hs] at ih; simp [joinChars, ih, h]
    · cases hs : splitChars sep cs with
      | nil => exact absurd hs (splitChars_ne_nil sep cs)
      | cons p ps => rw [hs] at ih; simp [joinChars_cons_cons, ih]

theorem splitChars_append_sep (sep : Char) (a b : List Char) :
    splitChars sep (a ++ sep :: b) = splitChars sep a ++ splitChars sep b := by
  induction a with
  | nil => simp [splitChars]
  | cons c cs ih =>
    simp only [List.cons_append, splitChars]
    split
    · simp [ih]
    · have ih2 : splitChars sep (cs.append (sep :: b)) = splitChars sep cs ++ splitChars sep b := ih
      rw [ih2]
      cases hs : splitChars sep cs with
      | nil => exact absurd hs (splitChars_ne_nil sep cs)
      | cons p ps => simp

theorem splitChars_of_not_mem (sep : Char) (s : List Char) (h : sep ∉ s) :
    splitChars sep s = [s] := by
  induction s with
  | nil => simp [splitChars]
  | cons c cs ih =>
    simp only [List.mem_cons, not_or] at h
    have hc : ¬ c = sep := fun e => h.1 e.symm
    simp [splitChars, hc, ih h.2]

theorem joinChars_append_singleton (sep : Char) (ps : List (List Char)) (k : List Char)
    (h : ps ≠ []) : joinChars sep (ps ++ [k]) = joinChars sep ps ++ sep :: k := by
  induction ps with
  | nil => exact absurd rfl h
  | cons p qs ih =>
    cases qs with
    | nil => simp [joinChars]
    | cons q rs =>
      have := ih (by simp)
      simp only [List.cons_append] at this ⊢
      simp [joinChars, this]

theorem Join_Split (s : String) (sep : Char) : strings.Join (strings.Split s sep) sep = s := by
  simp [strings.Join, strings.Split, List.map_map, Function.comp_def, joinChars_splitChars]

theorem Split_ne_nil (s : String) (sep : Char) : strings.Split s sep ≠ [] := by
  simp [strings.Split, splitChars_ne_nil]

theorem Split_of_not_mem (k : String) (sep : Char) (h : sep ∉ k.data) :
    strings.Split k sep = [k] := by
  simp [strings.Split, splitChars_of_not_mem sep k.data h]

theorem Split_Join_append (s k : String) (sep : Char) (h : sep ∉ k.data) :
    strings.Split (strings.Join (strings.Split s sep ++ [k]) sep) sep
      = strings.Split s sep ++ [k] := by
  have hne : List.map String.data (strings.Split s sep) ≠ [] := by
    simp [Split_ne_nil]
  have hj : joinChars sep (List.map String.data (strings.Split s sep)) = s.data := by
    have := Join_Split s sep
    simp only [strings.Join] at this
    exact congrArg String.data this
  simp only [strings.Join, List.map_append, List.map_cons, List.map_nil]
  rw [joinChars_append_singleton sep _ _ hne, hj]
  simp only [strings.Split]
  rw [splitChars_append_sep, splitChars_of_not_mem sep k.data h]
  simp

/-! ## The Bigcache store over the map client -/

theorem mapClient_Delete_apply (m : MapState) (key k : String) :
    (mapClient.Delete m key).1 k = if k = key then none else m k := by
  unfold mapClient
  simp only
  cases h : m key with
  | none =>
    simp only
    split
    · rename_i e; rw [e, h]
    · rfl
  | some b => simp

theorem mapStore_deleteKeys_apply (d : Options) (ks : List String) (m : MapState) (k : String) :
    ((mapStore d).deleteKeys m ks) k = if k ∈ ks then none else m k := by
  induction ks generalizing m with
  | nil => simp [BigcacheStore.deleteKeys]
  | cons c cs ih =>
    simp only [BigcacheStore.deleteKeys, BigcacheStore.Delete]
    rw [ih]
    have := mapClient_Delete_apply m c k
    simp only [mapStore] at this ⊢
    rw [this]
    by_cases h1 : k ∈ cs <;> by_cases h2 : k = c <;> simp [h1, h2]

theorem mapStore_Get (d : Options) (m : MapState) (key : String) :
    (mapStore d).Get m key =
      match m key with
      | some b => (m, GoAny.bytes (some b), none)
      | none => (m, GoAny.nil, some ErrEntryNotFound) := by
  unfold BigcacheStore.Get mapStore mapClient
  simp only
  cases m key <;> rfl

theorem mapStore_Invalidate (d : Options) (m : MapState) (x : String) :
    (mapStore d).Invalidate m [WithInvalidateTags [x]] =
      match m (BigcacheTagKey x) with
      | some b => ((mapStore d).deleteKeys m (strings.Split b ','), none)
      | none => (m, none) := by
  simp only [BigcacheStore.Invalidate, applyInvalidateOptions, WithInvalidateTags, List.foldl,
    List.length_singleton, Nat.lt_one_iff, BigcacheStore.invalidateTags, mapStore_Get]
  cases m (BigcacheTagKey x) <;> simp [stringOfBytes, BigcacheStore.invalidateTags]

theorem mapStore_Set_plain (d : Options) (hd : d.Tags = []) (fuel : Nat) (m : MapState)
    (key : String) (b : String) :
    (mapStore d).Set (fuel + 1) m key (GoAny.bytes (some b)) [WithExpiration (720 * Hour)]
      = some (m.put key b, none) := by
  simp [BigcacheStore.Set, ApplyOptionsWithDefault, WithExpiration, hd, mapStore, mapClient,
    stringOfBytes]
  rfl

theorem mapStore_setTag (d : Options) (hd : d.Tags = []) (fuel : Nat) (m : MapState)
    (key x : String) :
    (mapStore d).setTag ((mapStore d).Set (fuel + 1)) m key x
      = some (m.put (BigcacheTagKey x) (indexAfter (m (BigcacheTagKey x)) key)) := by
  unfold BigcacheStore.setTag
  simp only [mapStore_Get]
  cases h : m (BigcacheTagKey x) with
  | none =>
    simp [mapStore_Set_plain d hd, indexAfter, indexKeys, bytesOfString]
  | some b =>
    simp [mapStore_Set_plain d hd, indexAfter, indexKeys, bytesOfString, stringOfBytes]

theorem mapStore_Set_tag (d : Options) (hd : d.Tags = []) (fuel : Nat) (m : MapState)
    (key : String) (value : GoAny) (val : ByteSlice) (hv : valueBytes value = some val)
    (x : String) :
    (mapStore d).Set (fuel + 2) m key value [WithTags [x]]
      = some ((m.put key (stringOfBytes val)).put (BigcacheTagKey x)
          (indexAfter ((m.put key (stringOfBytes val)) (BigcacheTagKey x)) key), none) := by
  have hput : ∀ v, (mapStore d).Client.Set m key v = (m.put key (stringOfBytes v), none) :=
    fun _ => rfl
  cases value with
  | string v =>
    cases hv
    rw [BigcacheStore.Set]
    simp only [hput, ApplyOptionsWithDefault, List.foldl, WithTags,
      List.length_singleton, Nat.lt_one_iff, BigcacheStore.setTagsWith,
      mapStore_setTag d hd]
    simp
  | bytes v =>
    cases hv
    rw [BigcacheStore.Set]
    simp only [hput, ApplyOptionsWithDefault, List.foldl, WithTags,
      List.length_singleton, Nat.lt_one_iff, BigcacheStore.setTagsWith,
      mapStore_setTag d hd]
    simp
  | nil => cases hv
  | int n => cases hv
  | object T f c => cases hv

theorem Split_indexAfter (old : Option String) (k : String) (hk : ',' ∉ k.data) :
    strings.Split (indexAfter old k) ',' =
      if k ∈ indexKeys old then indexKeys old else indexKeys old ++ [k] := by
  unfold indexAfter
  cases old with
  | none => simp [indexKeys, strings.Join, joinChars, Split_of_not_mem k ',' hk]
  | some b =>
    by_cases h : k ∈ strings.Split b ','
    · simp [indexKeys, h, Join_Split]
    · simp [indexKeys, h, Split_Join_append b k ',' hk]

theorem mem_Split_indexAfter (old : Option String) (k : String) (hk : ',' ∉ k.data) :
    k ∈ strings.Split (indexAfter old k) ',' := by
  rw [Split_indexAfter old k hk]
  split
  · assumption
  · simp

theorem indexAfter_of_mem (e k : String) (h : k ∈ strings.Split e ',') :
    indexAfter (some e) k = e := by
  simp [indexAfter, indexKeys, h, Join_Split]

theorem MapState.put_same (m : MapState) (key b : String) : (m.put key b) key = some b := by
  simp [MapState.put]

theorem MapState.put_other (m : MapState) (key b k : String) (h : k ≠ key) :
    (m.put key b) k = m k := by
  simp [MapState.put, h]

/-! ## Tag invalidation in the Bigcache store -/

/-- C1 (claim as stated fails): on the store of the tests, starting from the
empty client, `Set("a,b", "v", WithTags(["x"]))` followed by
`Invalidate(WithInvalidateTags(["x"]))` leaves the entry in place: `Get("a,b")`
still returns the stored bytes with a nil error, because the comma-delimited
index lists the pieces `a` and `b` instead of the key. -/
theorem bigcache_invalidate_comma_key_still_hits :
    ∃ m1, defaultStore.Set 2 emptyMap "a,b" (GoAny.string "v") [WithTags ["x"]] = some (m1, none) ∧
      (defaultStore.Get (defaultStore.Invalidate m1 [WithInvalidateTags ["x"]]).1 "a,b").2
        = (GoAny.bytes (some "v"), none) := by
  refine ⟨_, mapStore_Set_tag _ rfl 0 emptyMap "a,b" (GoAny.string "v") (some "v") rfl "x", ?_⟩
  decide

/-- C1 (amended): for a Bigcache store without default tags over the map
client, in any client state, for every key `k` that contains no comma, every
string or byte-slice value `v` and every tag `x`: `Set(k, v, WithTags([x]))`
returns nil (any call-depth bound of at least 2 suffices), and after the
following `Invalidate(WithInvalidateTags([x]))`, `Get(k)` returns the nil value
and the client's not-found error. -/
theorem bigcache_get_misses_after_tag_invalidate (d : Options) (hd : d.Tags = [])
    (fuel : Nat) (m : MapState) (k x : String) (v : GoAny) (val : ByteSlice)
    (hv : valueBytes v = some val) (hk : ',' ∉ k.data) :
    ∃ m1, (mapStore d).Set (fuel + 2) m k v [WithTags [x]] = some (m1, none) ∧
      ((mapStore d).Get ((mapStore d).Invalidate m1 [WithInvalidateTags [x]]).1 k).2
        = (GoAny.nil, some ErrEntryNotFound) := by
  refine ⟨_, mapStore_Set_tag d hd fuel m k v val hv x, ?_⟩
  rw [mapStore_Invalidate, MapState.put_same]
  simp only [mapStore_Get, mapStore_deleteKeys_apply,
    mem_Split_indexAfter _ k hk, if_true]

theorem bigcache_get_misses_after_tag_invalidate_witness :
    ∃ m1, (mapStore ⟨0, 0, []⟩).Set 2 emptyMap "my-key" (GoAny.string "my-cache-value")
        [WithTags ["tag1"]] = some (m1, none) ∧
      ((mapStore ⟨0, 0, []⟩).Get
          ((mapStore ⟨0, 0, []⟩).Invalidate m1 [WithInvalidateTags ["tag1"]]).1 "my-key").2
        = (GoAny.nil, some ErrEntryNotFound) :=
  bigcache_get_misses_after_tag_invalidate ⟨0, 0, []⟩ rfl 0 emptyMap "my-key" "tag1"
    (GoAny.string "my-cache-value") (some "my-cache-value") rfl (by decide)

/-- C2 (the code at the failing input): on the store of the tests, starting
from the empty client, after `Set("my-key", "my-cache-value",
WithTags(["tag1"]))` and `Invalidate(WithInvalidateTags(["tag1"]))` the entry
`my-key` is gone but the client still holds the index entry
`gocache_tag_tag1`, with content `my-key`: `Invalidate` deletes the indexed keys
and never the index entry. -/
theorem bigcache_invalidate_keeps_tag_index :
    ∃ m1, defaultStore.Set 2 emptyMap "my-key" (GoAny.string "my-cache-value")
        [WithTags ["tag1"]] = some (m1, none) ∧
      (defaultStore.Invalidate m1 [WithInvalidateTags ["tag1"]]).1 "my-key" = none ∧
      (defaultStore.Invalidate m1 [WithInvalidateTags ["tag1"]]).1 "gocache_tag_tag1"
        = some "my-key" := by
  refine ⟨_, mapStore_Set_tag _ rfl 0 emptyMap "my-key" (GoAny.string "my-cache-value")
    (some "my-cache-value") rfl "tag1", ?_, ?_⟩ <;> decide

/-! ## Idempotence of the tag index -/

theorem repeatSet_keeps_index (d : Options) (hd : d.Tags = []) (fuel : Nat) (k x : String)
    (v : GoAny) (val : ByteSlice) (hv : valueBytes v = some val)
    (hkx : k ≠ BigcacheTagKey x) (e : String) (he : k ∈ strings.Split e ',') (n : Nat) :
    ∀ m : MapState, m (BigcacheTagKey x) = some e →
      ∃ mn, repeatSet (mapStore d) (fuel + 2) k v x n m = some mn ∧
        mn (BigcacheTagKey x) = some e := by
  induction n with
  | zero => intro m hm; exact ⟨m, rfl, hm⟩
  | succ n ih =>
    intro m hm
    have hidx : (m.put k (stringOfBytes val)) (BigcacheTagKey x) = some e := by
      rw [MapState.put_other _ _ _ _ (Ne.symm hkx), hm]
    obtain ⟨mn, h1, h2⟩ := ih ((m.put k (stringOfBytes val)).put (BigcacheTagKey x) e)
      (MapState.put_same _ _ _)
    refine ⟨mn, ?_, h2⟩
    simp only [repeatSet, mapStore_Set_tag d hd fuel m k v val hv x, hidx,
      indexAfter_of_mem e k he]
    exact h1

/-- C3 (claim as stated fails): on the store of the tests, starting from the
empty client, one `Set("a,b", "v", WithTags(["x"]))` writes the index entry
`a,b`, and a second identical `Set` changes it to `a,b,a,b`. -/
theorem bigcache_comma_key_duplicated_in_index :
    (repeatSet defaultStore 2 "a,b" (GoAny.string "v") "x" 1 emptyMap).map
        (fun m => m "gocache_tag_x") = some (some "a,b") ∧
    (repeatSet defaultStore 2 "a,b" (GoAny.string "v") "x" 2 emptyMap).map
        (fun m => m "gocache_tag_x") = some (some "a,b,a,b") ∧
    (strings.Split "a,b,a,b" ',').count "a,b" = 0 := by
  decide

/-- C3 (amended): for a Bigcache store without default tags over the map
client, for every key `k` that contains no comma and is not the index key of
the tag `x`, every string or byte-slice value, and every client state whose
index entry for `x` lists `k` at most once (in particular when there is no
entry): after `Set(k, v, WithTags([x]))` has been performed `n + 1` times, the
index entry for `x` lists `k` exactly once, and its content is the one the
first `Set` wrote. -/
theorem bigcache_tag_index_idempotent (d : Options) (hd : d.Tags = []) (fuel : Nat)
    (m : MapState) (k x : String) (v : GoAny) (val : ByteSlice)
    (hv : valueBytes v = some val) (hk : ',' ∉ k.data) (hkx : k ≠ BigcacheTagKey x)
    (hm : (indexKeys (m (BigcacheTagKey x))).count k ≤ 1) (n : Nat) :
    ∃ m1 mn e, (mapStore d).Set (fuel + 2) m k v [WithTags [x]] = some (m1, none) ∧
      m1 (BigcacheTagKey x) = some e ∧
      repeatSet (mapStore d) (fuel + 2) k v x (n + 1) m = some mn ∧
      mn (BigcacheTagKey x) = some e ∧
      (strings.Split e ',').count k = 1 := by
  have hset := mapStore_Set_tag d hd fuel m k v val hv x
  have hidx : (m.put k (stringOfBytes val)) (BigcacheTagKey x) = m (BigcacheTagKey x) :=
    MapState.put_other _ _ _ _ (Ne.symm hkx)
  rw [hidx] at hset
  have hmem := mem_Split_indexAfter (m (BigcacheTagKey x)) k hk
  obtain ⟨mn, h1, h2⟩ := repeatSet_keeps_index d hd fuel k x v val hv hkx
    (indexAfter (m (BigcacheTagKey x)) k) hmem n _ (MapState.put_same _ _ _)
  refine ⟨_, mn, indexAfter (m (BigcacheTagKey x)) k, hset, MapState.put_same _ _ _, ?_, h2, ?_⟩
  · simp only [repeatSet, hset]
    exact h1
  · rw [Split_indexAfter _ k hk]
    split
    · rename_i hin
      have := List.count_pos_iff.mpr hin
      omega
    · rename_i hin
      simp [List.count_append, List.count_eq_zero_of_not_mem hin]

theorem bigcache_tag_index_idempotent_witness :
    ∃ m1 mn e, (mapStore ⟨0, 0, []⟩).Set 2 emptyMap "my-key" (GoAny.string "v")
        [WithTags ["tag1"]] = some (m1, none) ∧
      m1 (BigcacheTagKey "tag1") = some e ∧
      repeatSet (mapStore ⟨0, 0, []⟩) 2 "my-key" (GoAny.string "v") "tag1" (1 + 1) emptyMap
        = some mn ∧
      mn (BigcacheTagKey "tag1") = some e ∧
      (strings.Split e ',').count "my-key" = 1 :=
  bigcache_tag_index_idempotent ⟨0, 0, []⟩ rfl 0 emptyMap "my-key" "tag1" (GoAny.string "v")
    (some "v") rfl (by decide) (by decide) (by decide) 1


/-! ## Key derivation -/

theorem leBytes_length (n count : Nat) : (leBytes n count).length = count := by
  induction count generalizing n with
  | zero => rfl
  | succ c ih => simp [leBytes, ih]

theorem hexChars_length (l : List Nat) : (hexChars l).length = 2 * l.length := by
  induction l with
  | nil => rfl
  | cons b bs ih => simp [hexChars, ih]; omega

theorem md5Sum_length (msg : List Nat) : (md5Sum msg).length = 16 := by
  simp [md5Sum, digestBytes, leBytes_length]

theorem hexDigit_mem (n : Nat) (h : n < 16) : hexDigit n ∈ "0123456789abcdef".data := by
  interval_cases n <;> decide

theorem hexChars_mem (l : List Nat) : ∀ c ∈ hexChars l, c ∈ "0123456789abcdef".data := by
  induction l with
  | nil => simp [hexChars]
  | cons b bs ih =>
    intro c hc
    simp only [hexChars, List.mem_cons] at hc
    rcases hc with h | h | h
    · rw [h]; exact hexDigit_mem _ (Nat.mod_lt _ (by decide))
    · rw [h]; exact hexDigit_mem _ (Nat.mod_lt _ (by decide))
    · exact ih c h

theorem leBytes_four_mod (w : Nat) : leBytes (w % 4294967296) 4 = leBytes w 4 := by
  simp only [leBytes, List.cons.injEq, and_true]
  refine ⟨?_, ?_, ?_, ?_⟩ <;> omega

theorem digestBytes_congr (s t : MD5State) (ha : s.a % 4294967296 = t.a % 4294967296)
    (hb : s.b % 4294967296 = t.b % 4294967296) (hc : s.c % 4294967296 = t.c % 4294967296)
    (hd : s.d % 4294967296 = t.d % 4294967296) : digestBytes s = digestBytes t := by
  unfold digestBytes
  rw [← leBytes_four_mod s.a, ← leBytes_four_mod s.b, ← leBytes_four_mod s.c,
    ← leBytes_four_mod s.d, ha, hb, hc, hd, leBytes_four_mod, leBytes_four_mod,
    leBytes_four_mod, leBytes_four_mod]

/-- Sanity of the embedding of MD5: the RFC 1321 test vectors for the empty
message, `a`, `abc` and `message digest`. -/
theorem md5Sum_rfc1321 :
    String.mk (hexChars (md5Sum [])) = "d41d8cd98f00b204e9800998ecf8427e" ∧
    String.mk (hexChars (md5Sum (utf8Bytes "a".data))) = "0cc175b9c0f1b6a831c399e269772661" ∧
    String.mk (hexChars (md5Sum (utf8Bytes "abc".data))) = "900150983cd24fb0d6963f7d28e17f72" ∧
    String.mk (hexChars (md5Sum (utf8Bytes "message digest".data)))
      = "f96b697d7cb7938d525a2f31aaf161d0" := by
  decide!

/-- The expected digests of `TestCacheChecksum`, evaluated on the embedding:
an `int`, a `string`, a byte slice and three values of an anonymous struct
type. -/
theorem Checksum_test_cases :
    Checksum (GoAny.int 273273623) = "a187c153af38575778244cb3796536da" ∧
    Checksum (GoAny.string "hello-world") = "f31215be6928a6f6e0c7c1cf2c68054e" ∧
    Checksum (GoAny.bytes (bytesOfString "hello-world")) = "f097ebac995e666eb074e019cd39d99b" ∧
    Checksum (GoAny.object ⟨"", "struct { Label string }"⟩ "{}" none)
      = "2938da2beee350d6ea988e404109f428" ∧
    Checksum (GoAny.object ⟨"", "struct { Label string }"⟩ "{hello-world}" none)
      = "4119a1c8530a0420859f1c6ecf2dc0b7" ∧
    Checksum (GoAny.object ⟨"", "struct { Label string }"⟩ "{hello-everyone}" none)
      = "1d7e7ed4acd56d2635f7cb33aa702bdd" := by
  decide!

theorem familyKey_typeString_injective (n m : Nat)
    (h : (familyKey n).typeString = (familyKey m).typeString) : n = m := by
  simp only [familyKey, GoAny.typeString] at h
  have := congrArg String.length h
  simpa using this

theorem familyKey_collision :
    ∃ n m, n ≠ m ∧ Checksum (familyKey n) = Checksum (familyKey m) := by
  obtain ⟨n, m, hne, h⟩ := Finite.exists_ne_map_eq_of_infinite familyWords
  refine ⟨n, m, hne, ?_⟩
  simp only [familyWords, Prod.mk.injEq, Fin.mk.injEq] at h
  obtain ⟨ha, hb, hc, hd⟩ := h
  simp only [Checksum, md5Sum]
  rw [digestBytes_congr _ _ ha hb hc hd]


theorem Char.toNat_lt_max (c : Char) : c.toNat < 1114112 := by
  have h := c.valid
  have e : c.toNat = c.val.toNat := rfl
  simp only [UInt32.isValidChar, Nat.isValidChar] at h
  omega

theorem Char.eq_of_toNat_eq (c d : Char) (h : c.toNat = d.toNat) : c = d := by
  apply Char.ext
  exact UInt32.ext h

theorem utf8Char_append_inj (c d : Char) (r t : List Nat)
    (h : utf8Char c ++ r = utf8Char d ++ t) : c = d ∧ r = t := by
  have hc := Char.toNat_lt_max c
  have hd := Char.toNat_lt_max d
  unfold utf8Char at h
  simp only at h
  split_ifs at h
  all_goals simp only [List.cons_append, List.nil_append, List.cons.injEq] at h
  all_goals first
    | (exfalso; obtain ⟨h1, _⟩ := h; omega)
    | (obtain ⟨h1, h2⟩ := h; exact ⟨Char.eq_of_toNat_eq c d (by omega), h2⟩)
    | (obtain ⟨h1, h2, h3⟩ := h; exact ⟨Char.eq_of_toNat_eq c d (by omega), h3⟩)
    | (obtain ⟨h1, h2, h3, h4⟩ := h; exact ⟨Char.eq_of_toNat_eq c d (by omega), h4⟩)
    | (obtain ⟨h1, h2, h3, h4, h5⟩ := h; exact ⟨Char.eq_of_toNat_eq c d (by omega), h5⟩)

theorem utf8Bytes_injective (s t : List Char) (h : utf8Bytes s = utf8Bytes t) : s = t := by
  induction s generalizing t with
  | nil =>
    cases t with
    | nil => rfl
    | cons d ds =>
      exfalso
      simp only [utf8Bytes, utf8Char] at h
      split_ifs at h <;> simp at h
  | cons c cs ih =>
    cases t with
    | nil =>
      exfalso
      simp only [utf8Bytes, utf8Char] at h
      split_ifs at h <;> simp at h
    | cons d ds =>
      simp only [utf8Bytes] at h
      obtain ⟨h1, h2⟩ := utf8Char_append_inj c d _ _ h
      rw [h1, ih ds h2]


theorem checksumInput_ne (k1 k2 : GoAny) (hf : k1.formatted = k2.formatted)
    (ht : k1.typeString ≠ k2.typeString) : checksumInput k1 ≠ checksumInput k2 := by
  intro h
  have h1 := utf8Bytes_injective _ _ h
  rw [hf] at h1
  simp only [String.data_append] at h1
  exact ht (String.ext (List.append_cancel_right h1))

theorem GetCacheKey_of_isHashed (k : GoAny) (h : k.isHashed = true) :
    GetCacheKey k = Checksum k := by
  cases k with
  | string s => simp [GoAny.isHashed, GoAny.isString] at h
  | object T f c =>
    cases c with
    | none => rfl
    | some g => simp [GoAny.isHashed, GoAny.isString, GoAny.generatedKey] at h
  | nil => rfl
  | bytes b => rfl
  | int n => rfl

/-- C4 (claim as stated fails): the keys `userKeyA` and `userKeyB` are both
hashed, have different types (declared in two packages both named `model`) and
the same formatted value, and `GetCacheKey` gives them the same key, because
the printed type `model.User` is the same.  Moreover some two hashed keys with
different printed types and the same formatted value get the same key: the
digest has 128 bits, and the keys `familyKey n` are infinitely many. -/
theorem getCacheKey_collides_across_types :
    (userKeyA.isHashed = true ∧ userKeyB.isHashed = true ∧
      userKeyA.goType ≠ userKeyB.goType ∧ userKeyA.formatted = userKeyB.formatted ∧
      GetCacheKey userKeyA = GetCacheKey userKeyB) ∧
    (∃ k1 k2 : GoAny, k1.isHashed = true ∧ k2.isHashed = true ∧
      k1.typeString ≠ k2.typeString ∧ k1.formatted = k2.formatted ∧
      GetCacheKey k1 = GetCacheKey k2) := by
  refine ⟨⟨rfl, rfl, by decide, rfl, rfl⟩, ?_⟩
  obtain ⟨n, m, hne, h⟩ := familyKey_collision
  exact ⟨familyKey n, familyKey m, rfl, rfl,
    fun e => hne (familyKey_typeString_injective n m e), rfl, h⟩

/-- C4 (amended): for two hashed keys (neither a string nor a
`CacheKeyGenerator`) with identical formatted values, each derived key is the
hexadecimal MD5 digest of the printed type followed by the formatted value;
when the printed types differ the two digested byte strings differ (so the keys
can coincide only through an MD5 collision), and when the printed types are
equal the derived keys are equal: the key is a function of the printed type and
the formatted value alone, so repeated calls return the same key. -/
theorem getCacheKey_hashed_keys (k1 k2 : GoAny) (h1 : k1.isHashed = true)
    (h2 : k2.isHashed = true) (hf : k1.formatted = k2.formatted) :
    GetCacheKey k1 = String.mk (hexChars (md5Sum (checksumInput k1))) ∧
    GetCacheKey k2 = String.mk (hexChars (md5Sum (checksumInput k2))) ∧
    (k1.typeString ≠ k2.typeString → checksumInput k1 ≠ checksumInput k2) ∧
    (k1.typeString = k2.typeString → GetCacheKey k1 = GetCacheKey k2) := by
  refine ⟨GetCacheKey_of_isHashed k1 h1, GetCacheKey_of_isHashed k2 h2,
    checksumInput_ne k1 k2 hf, ?_⟩
  intro ht
  rw [GetCacheKey_of_isHashed k1 h1, GetCacheKey_of_isHashed k2 h2]
  simp only [Checksum, checksumInput, ht, hf]

theorem getCacheKey_hashed_keys_witness :
    (GoAny.int 1).isHashed = true ∧
    (GoAny.object ⟨"main", "main.ID"⟩ "1" none).isHashed = true ∧
    (GoAny.int 1).formatted = (GoAny.object ⟨"main", "main.ID"⟩ "1" none).formatted ∧
    GetCacheKey (GoAny.int 1) = String.mk (hexChars (md5Sum (checksumInput (GoAny.int 1)))) ∧
    checksumInput (GoAny.int 1) ≠ checksumInput (GoAny.object ⟨"main", "main.ID"⟩ "1" none) ∧
    GetCacheKey (GoAny.object ⟨"main", "main.ID"⟩ "1" none)
      = GetCacheKey (GoAny.object ⟨"main", "main.ID"⟩ "1" none) :=
  ⟨rfl, rfl, by decide,
    (getCacheKey_hashed_keys (GoAny.int 1) (GoAny.object ⟨"main", "main.ID"⟩ "1" none) rfl rfl
      (by decide)).1,
    (getCacheKey_hashed_keys (GoAny.int 1) (GoAny.object ⟨"main", "main.ID"⟩ "1" none) rfl rfl
      (by decide)).2.2.1 (by decide),
    (getCacheKey_hashed_keys (GoAny.object ⟨"main", "main.ID"⟩ "1" none)
      (GoAny.object ⟨"main", "main.ID"⟩ "1" none) rfl rfl rfl).2.2.2 rfl⟩

/-- C5: `GetCacheKey` equals its reference definition for every key: the key
itself when it is a string, the key's own `GetCacheKey()` when it is a
non-string `CacheKeyGenerator`, `Checksum(key)` otherwise. -/
theorem getCacheKey_eq_spec (key : GoAny) : GetCacheKey key = GetCacheKeySpec key := by
  cases key with
  | object T f c => cases c <;> rfl
  | nil => rfl
  | string s => rfl
  | bytes b => rfl
  | int n => rfl

/-- C6: for every object, `Checksum(object)` is the hexadecimal MD5 digest of
the printed type immediately followed by the formatted value, it has 32
characters, all of them lowercase hexadecimal digits; `Checksum(273273623)` is
`a187c153af38575778244cb3796536da`, the MD5 of `int273273623`, and
`Checksum("hello-world")` is `f31215be6928a6f6e0c7c1cf2c68054e`, the MD5 of
`stringhello-world`. -/
theorem checksum_is_md5_hex (object : GoAny) :
    Checksum object
      = String.mk (hexChars (md5Sum (utf8Bytes (object.typeString ++ object.formatted).data))) ∧
    (Checksum object).length = 32 ∧
    (∀ c ∈ (Checksum object).data, c ∈ "0123456789abcdef".data) ∧
    Checksum (GoAny.int 273273623) = "a187c153af38575778244cb3796536da" ∧
    String.mk (hexChars (md5Sum (utf8Bytes "int273273623".data)))
      = "a187c153af38575778244cb3796536da" ∧
    Checksum (GoAny.string "hello-world") = "f31215be6928a6f6e0c7c1cf2c68054e" ∧
    String.mk (hexChars (md5Sum (utf8Bytes "stringhello-world".data)))
      = "f31215be6928a6f6e0c7c1cf2c68054e" := by
  refine ⟨rfl, ?_, ?_, by decide!, by decide!, by decide!, by decide!⟩
  · simp [Checksum, String.length, hexChars_length, md5Sum_length]
  · exact hexChars_mem _

/-! ## Options -/

theorem ApplyOptionsWithDefault_cons (d : Options) (o : StoreOption) (os : List StoreOption) :
    ApplyOptionsWithDefault d (o :: os) = ApplyOptionsWithDefault (o d) os := rfl

/-- C7: for every default `d` and every list of overrides built from
`WithCost`, `WithExpiration` and `WithTags`, each field of
`ApplyOptionsWithDefault(d, overrides...)` is the value given by the last
override that sets the field, or the value of `d` when none does; with no
override the result is `d`; and `WithTags` replaces the default tags. -/
theorem applyOptionsWithDefault_last_override_wins (d : Options) (overrides : List Override) :
    (ApplyOptionsWithDefault d (overrides.map Override.toOption)).Cost
      = (lastCost overrides).getD d.Cost ∧
    (ApplyOptionsWithDefault d (overrides.map Override.toOption)).Expiration
      = (lastExpiration overrides).getD d.Expiration ∧
    (ApplyOptionsWithDefault d (overrides.map Override.toOption)).Tags
      = (lastTags overrides).getD d.Tags ∧
    ApplyOptionsWithDefault d [] = d ∧
    ∀ ts, (ApplyOptionsWithDefault d [WithTags ts]).Tags = ts := by
  refine ⟨?_, ?_, ?_, rfl, fun _ => rfl⟩
  · induction overrides generalizing d with
    | nil => rfl
    | cons o rest ih =>
      rw [List.map_cons, ApplyOptionsWithDefault_cons, ih]
      simp only [lastCost]
      cases lastCost rest with
      | some c => rfl
      | none => cases o <;> rfl
  · induction overrides generalizing d with
    | nil => rfl
    | cons o rest ih =>
      rw [List.map_cons, ApplyOptionsWithDefault_cons, ih]
      simp only [lastExpiration]
      cases lastExpiration rest with
      | some c => rfl
      | none => cases o <;> rfl
  · induction overrides generalizing d with
    | nil => rfl
    | cons o rest ih =>
      rw [List.map_cons, ApplyOptionsWithDefault_cons, ih]
      simp only [lastTags]
      cases lastTags rest with
      | some c => rfl
      | none => cases o <;> rfl

/-! ## The typed cache -/

/-- C8: when the codec's `Get` succeeds for the derived key with a value on
which the type assertion to `T` fails, `Cache[T].Get` returns the zero value of
`T` with a nil error; when the assertion succeeds it returns the asserted value
with a nil error. -/
theorem cache_get_narrows (σ T : Type) (c : Cache σ T) (st st1 : σ) (key : GoAny)
    (value : GoAny) (h : c.Codec.Get st (GetCacheKey key) = (st1, value, none)) :
    (c.Param.assert value = none → c.Get st key = (st1, c.Param.zero, none)) ∧
    (∀ v, c.Param.assert value = some v → c.Get st key = (st1, v, none)) := by
  constructor
  · intro ha
    simp [Cache.Get, h, ha]
  · intro v ha
    simp [Cache.Get, h, ha]

theorem cache_get_narrows_witness :
    Cache.Get ⟨constCodec (GoAny.int 5), stringParam⟩ 0 (GoAny.string "my-key") = (1, "", none) ∧
    Cache.Get ⟨constCodec (GoAny.string "v"), stringParam⟩ 0 (GoAny.string "my-key")
      = (1, "v", none) :=
  ⟨(cache_get_narrows Nat String ⟨constCodec (GoAny.int 5), stringParam⟩ 0 1
      (GoAny.string "my-key") (GoAny.int 5) rfl).1 rfl,
    (cache_get_narrows Nat String ⟨constCodec (GoAny.string "v"), stringParam⟩ 0 1
      (GoAny.string "my-key") (GoAny.string "v") rfl).2 "v" rfl⟩

/-- C9: whenever the codec's `Get` fails for the derived key, `Cache[T].Get`
returns the zero value of `T` and the codec's error; whenever the codec's
`GetWithTTL` fails, `Cache[T].GetWithTTL` returns the zero value of `T`, the
duration the codec reported and the codec's error. -/
theorem cache_get_propagates_codec_error (σ T : Type) (c : Cache σ T) (st st1 : σ)
    (key : GoAny) (value : GoAny) (duration : Int) (err : GoError) :
    (c.Codec.Get st (GetCacheKey key) = (st1, value, some err) →
      c.Get st key = (st1, c.Param.zero, some err)) ∧
    (c.Codec.GetWithTTL st (GetCacheKey key) = (st1, value, duration, some err) →
      c.GetWithTTL st key = (st1, c.Param.zero, duration, some err)) := by
  constructor
  · intro h
    simp [Cache.Get, h]
  · intro h
    simp [Cache.GetWithTTL, h]

theorem cache_get_propagates_codec_error_witness :
    Cache.Get ⟨failingCodec (GoError.New "unable to find item in store") 7, stringParam⟩ 0
        (GoAny.string "my-key")
      = (1, "", some (GoError.New "unable to find item in store")) ∧
    Cache.GetWithTTL ⟨failingCodec (GoError.New "unable to find item in store") 7, stringParam⟩
        0 (GoAny.string "my-key")
      = (1, "", 7, some (GoError.New "unable to find item in store")) :=
  ⟨(cache_get_propagates_codec_error Nat String
      ⟨failingCodec (GoError.New "unable to find item in store") 7, stringParam⟩ 0 1
      (GoAny.string "my-key") GoAny.nil 7 (GoError.New "unable to find item in store")).1 rfl,
    (cache_get_propagates_codec_error Nat String
      ⟨failingCodec (GoError.New "unable to find item in store") 7, stringParam⟩ 0 1
      (GoAny.string "my-key") GoAny.nil 7 (GoError.New "unable to find item in store")).2 rfl⟩

/-! ## The loadable cache -/

/-- C10: when the inner cache's `Get` succeeds, `LoadableCache.Get` returns
that value with a nil error, leaves the loader's state untouched (the loader is
not invoked) and leaves the write-back queue as it was. -/
theorem loadable_get_hit (σ L T : Type) (c : LoadableCache σ L T) (st : LoadableState σ L T)
    (key : GoAny) (s1 : σ) (object : T) (h : c.Cache.Get st.cache key = (s1, object, none)) :
    c.Get st key
      = LoadableResult.returned
          { cache := s1, loader := st.loader, SetChannel := st.SetChannel, closed := st.closed }
          object none := by
  simp [LoadableCache.Get, h]

theorem loadable_get_hit_witness :
    LoadableCache.Get ⟨countingLoader, constCache "world"⟩
        { cache := 0, loader := 0, SetChannel := [], closed := false } (GoAny.string "my-key")
      = LoadableResult.returned
          { cache := 1, loader := 0, SetChannel := [], closed := false } "world" none :=
  loadable_get_hit Nat Nat String ⟨countingLoader, constCache "world"⟩
    { cache := 0, loader := 0, SetChannel := [], closed := false } (GoAny.string "my-key")
    1 "world" rfl

/-! ## The loadable cache and its worker -/

theorem loadableInv_init {σ L T : Type} (cache : σ) (loader : L) :
    LoadableInv (NewLoadableSystem cache loader : LoadableSystem σ L T) := by
  simp [LoadableInv, NewLoadableSystem]

theorem loadableInv_getStep {σ L T : Type} (c : LoadableCache σ L T)
    (s s1 : LoadableSystem σ L T) (key : GoAny) (h : c.getStep s key = some s1)
    (hs : LoadableInv s) : LoadableInv s1 := by
  obtain ⟨h1, h2, h3, h4⟩ := hs
  unfold LoadableCache.getStep LoadableCache.Get LoadableCache.successfulLoad at h
  rcases hc : c.Cache.Get s.st.cache key with ⟨c1, o, e⟩
  rw [hc] at h
  cases e with
  | none =>
    simp only [Option.some.injEq] at h
    subst h
    exact ⟨by simpa using h1, h2, h3, h4⟩
  | some e =>
    rcases hl : c.LoadFunc s.st.loader key with ⟨l1, o1, e1⟩
    rw [hl] at h
    cases e1 with
    | some e1 =>
      simp only [Option.some.injEq] at h
      subst h
      exact ⟨by simpa using h1, h2, h3, h4⟩
    | none =>
      simp only at h
      by_cases hcl : s.st.closed = true
      · simp [hcl] at h
      · simp only [hcl, Bool.false_eq_true, if_false] at h
        by_cases hroom : s.st.SetChannel.length < SetChannelCapacity
        · simp only [hroom, if_true, Option.some.injEq] at h
          subst h
          have hw : s.waiting = [] := by
            by_contra hne
            exact h2 hne hroom
          refine ⟨?_, ?_, ?_, ?_⟩
          · simp only [hw, List.append_nil] at h1 ⊢
            rw [← h1, List.append_assoc]
          · intro hne; exact absurd hw hne
          · intro hcl2; simp at hcl2
          · intro hex; exact absurd (h4 hex).1 hcl
        · simp only [hroom, if_false, Option.some.injEq] at h
          subst h
          refine ⟨?_, ?_, ?_, ?_⟩
          · simp only
            rw [← h1]
            simp [List.append_assoc]
          · intro _; exact hroom
          · intro hcl2; simp at hcl2
          · intro hex; exact absurd (h4 hex).1 hcl

theorem loadableInv_setterStep {σ L T : Type} (c : LoadableCache σ L T)
    (s s1 : LoadableSystem σ L T) (h : c.setterStep s = some s1)
    (hs : LoadableInv s) : LoadableInv s1 := by
  obtain ⟨h1, h2, h3, h4⟩ := hs
  unfold LoadableCache.setterStep at h
  cases hq : s.st.SetChannel with
  | nil =>
    rw [hq] at h
    simp only at h
    split at h
    · rename_i hcond
      simp only [Bool.and_eq_true, Bool.not_eq_true', Option.some.injEq] at hcond h
      subst h
      exact ⟨h1, h2, h3, fun _ => ⟨hcond.1, hq⟩⟩
    · cases h
  | cons item rest =>
    rw [hq] at h
    simp only [Option.some.injEq] at h
    subst h
    have hne : s.exited ≠ true := by
      intro hex
      have := (h4 hex).2
      rw [hq] at this
      cases this
    have hset : (c.Set s.st item.1 item.2 []).1.closed = s.st.closed := by
      simp [LoadableCache.Set]
    refine ⟨?_, ?_, ?_, ?_⟩
    · simp only
      rw [← h1, hq]
      cases s.waiting <;> simp
    · simp only
      intro hw
      have hw0 : s.waiting ≠ [] := by
        intro e; rw [e] at hw; simp at hw
      have hfull := h2 hw0
      rw [hq] at hfull
      cases hwt : s.waiting with
      | nil => exact absurd hwt hw0
      | cons w ws => simpa using hfull
    · simp only [hset]
      intro hcl
      simp [h3 hcl]
    · intro hex
      exact absurd hex hne

theorem loadableInv_closeChannel {σ L T : Type}
    (s s1 : LoadableSystem σ L T) (h : LoadableCache.closeChannel s = some s1)
    (hs : LoadableInv s) : LoadableInv s1 := by
  obtain ⟨h1, h2, h3, h4⟩ := hs
  unfold LoadableCache.closeChannel at h
  split at h
  · cases h
  · rename_i hcl
    cases hw : s.waiting with
    | nil =>
      rw [hw] at h
      simp only [Option.some.injEq] at h
      subst h
      refine ⟨by simpa [hw] using h1, by simp, by simp, ?_⟩
      intro hex
      exact absurd (h4 hex).1 hcl
    | cons w ws =>
      rw [hw] at h
      cases h

theorem loadableInv_step {σ L T : Type} (c : LoadableCache σ L T)
    (s s1 : LoadableSystem σ L T) (op : LoadableOp T) (h : c.step s op = some s1)
    (hs : LoadableInv s) : LoadableInv s1 := by
  cases op with
  | get key => exact loadableInv_getStep c s s1 key h hs
  | work => exact loadableInv_setterStep c s s1 h hs
  | close => exact loadableInv_closeChannel s s1 h hs
  | set key object options =>
    simp only [LoadableCache.step, Option.some.injEq] at h
    subst h
    simpa [LoadableInv, LoadableCache.Set] using hs
  | delete key =>
    simp only [LoadableCache.step, Option.some.injEq] at h
    subst h
    simpa [LoadableInv, LoadableCache.Delete] using hs
  | invalidate options =>
    simp only [LoadableCache.step, Option.some.injEq] at h
    subst h
    simpa [LoadableInv, LoadableCache.Invalidate] using hs
  | clear =>
    simp only [LoadableCache.step, Option.some.injEq] at h
    subst h
    simpa [LoadableInv, LoadableCache.Clear] using hs

theorem loadableInv_run {σ L T : Type} (c : LoadableCache σ L T) (ops : List (LoadableOp T)) :
    ∀ s s1 : LoadableSystem σ L T, c.run s ops = some s1 → LoadableInv s → LoadableInv s1 := by
  induction ops with
  | nil =>
    intro s s1 h hs
    simp only [LoadableCache.run, Option.some.injEq] at h
    subst h
    exact hs
  | cons op ops ih =>
    intro s s1 h hs
    simp only [LoadableCache.run] at h
    cases hstep : c.step s op with
    | none => rw [hstep] at h; cases h
    | some s2 =>
      rw [hstep] at h
      exact ih s2 s1 h (loadableInv_step c s s2 op hstep hs)

theorem loadable_run_append {σ L T : Type} (c : LoadableCache σ L T)
    (ops1 ops2 : List (LoadableOp T)) :
    ∀ s s1 : LoadableSystem σ L T, c.run s ops1 = some s1 →
      c.run s (ops1 ++ ops2) = c.run s1 ops2 := by
  induction ops1 with
  | nil =>
    intro s s1 h
    simp only [LoadableCache.run, Option.some.injEq] at h
    subst h
    rfl
  | cons op ops ih =>
    intro s s1 h
    simp only [LoadableCache.run, List.cons_append] at h ⊢
    cases hstep : c.step s op with
    | none => rw [hstep] at h; cases h
    | some s2 =>
      rw [hstep] at h
      exact ih s2 s1 h

theorem loadable_runSetter_drains {σ L T : Type} (c : LoadableCache σ L T) (n : Nat) :
    ∀ s : LoadableSystem σ L T, s.st.SetChannel.length = n → s.st.closed = true →
      s.waiting = [] → s.exited = false →
      (c.runSetter (n + 1) s).exited = true ∧
      (c.runSetter (n + 1) s).st.SetChannel = [] ∧
      (c.runSetter (n + 1) s).writes = s.writes ++ s.st.SetChannel ∧
      (c.runSetter (n + 1) s).loads = s.loads ∧
      c.run s (List.replicate (n + 1) LoadableOp.work) = some (c.runSetter (n + 1) s) := by
  induction n with
  | zero =>
    intro s hlen hcl hw hex
    have hq : s.st.SetChannel = [] := List.length_eq_zero.mp hlen
    have hstep : c.setterStep s = some { s with exited := true } := by
      simp [LoadableCache.setterStep, hq, hcl, hex]
    simp [LoadableCache.runSetter, LoadableCache.run, LoadableCache.step, hstep, hq]
  | succ n ih =>
    intro s hlen hcl hw hex
    cases hq : s.st.SetChannel with
    | nil => rw [hq] at hlen; cases hlen
    | cons item rest =>
      have hstep : c.setterStep s = some
          { s with
            st := { (c.Set s.st item.1 item.2 []).1 with SetChannel := rest },
            waiting := [],
            writes := s.writes ++ [item] } := by
        simp [LoadableCache.setterStep, hq, hw]
      have hrest : rest.length = n := by
        rw [hq] at hlen
        simpa using hlen
      have hcl1 : (c.Set s.st item.1 item.2 []).1.closed = true := by
        simpa [LoadableCache.Set] using hcl
      obtain ⟨i1, i2, i3, i4, i5⟩ := ih
        { s with
          st := { (c.Set s.st item.1 item.2 []).1 with SetChannel := rest },
          waiting := [],
          writes := s.writes ++ [item] } hrest hcl1 rfl hex
      have hrun : c.runSetter (n + 1 + 1) s = c.runSetter (n + 1)
          { s with
            st := { (c.Set s.st item.1 item.2 []).1 with SetChannel := rest },
            waiting := [],
            writes := s.writes ++ [item] } := by
        rw [LoadableCache.runSetter, hstep]
      rw [hrun]
      refine ⟨i1, i2, ?_, i4, ?_⟩
      · rw [i3]; simp
      · rw [List.replicate_succ, LoadableCache.run]
        simp only [LoadableCache.step, hstep]
        exact i5

theorem loadable_close_drains {σ L T : Type} (c : LoadableCache σ L T)
    (s : LoadableSystem σ L T) (hcl : s.st.closed = false) (hw : s.waiting = [])
    (hex : s.exited = false) :
    ∃ s1, c.Close s = some (s1, none) ∧
      c.run s (LoadableOp.close :: List.replicate (s.st.SetChannel.length + 1) LoadableOp.work)
        = some s1 ∧
      s1.st.SetChannel = [] ∧ s1.writes = s.writes ++ s.st.SetChannel ∧ s1.loads = s.loads := by
  have hc : LoadableCache.closeChannel s = some { s with st := { s.st with closed := true } } := by
    simp [LoadableCache.closeChannel, hcl, hw]
  obtain ⟨i1, i2, i3, i4, i5⟩ := loadable_runSetter_drains c s.st.SetChannel.length
    { s with st := { s.st with closed := true } } rfl rfl hw hex
  refine ⟨_, ?_, ?_, i2, i3, i4⟩
  · simp only [LoadableCache.Close, hc, i1, if_true]
  · simp only [LoadableCache.run, LoadableCache.step, hc]
    exact i5

/-- C11 (claim as stated fails): on the decorator of the examples, in the
state `Close` leaves when called on the state `NewLoadable` creates, the inner
cache's `Get` fails for `my-key` and the loader returns `my-key` with a nil
error, yet `LoadableCache.Get` does not return `(V, nil)`: it panics on the send
to the closed channel, and the channel is still empty. -/
theorem loadable_get_miss_after_close_panics :
    (∃ s, sampleLoadable.Close (NewLoadableSystem [] 0) = some (s, none) ∧
      s.st = { cache := [], loader := 0, SetChannel := [], closed := true }) ∧
    (sampleLoadable.Cache.Get [] (GoAny.string "my-key")).2.2
      = some (GoError.New "unable to find in cache 1") ∧
    sampleLoadable.LoadFunc 0 (GoAny.string "my-key") = (1, "my-key", none) ∧
    sampleLoadable.Get { cache := [], loader := 0, SetChannel := [], closed := true }
        (GoAny.string "my-key")
      = LoadableResult.panicked { cache := [], loader := 1, SetChannel := [], closed := true } ∧
    ∀ st1, sampleLoadable.Get { cache := [], loader := 0, SetChannel := [], closed := true }
        (GoAny.string "my-key")
      ≠ LoadableResult.returned st1 "my-key" none := by
  refine ⟨⟨_, rfl, rfl⟩, rfl, rfl, rfl, ?_⟩
  intro st1 h
  rw [show sampleLoadable.Get { cache := [], loader := 0, SetChannel := [], closed := true }
        (GoAny.string "my-key")
      = LoadableResult.panicked { cache := [], loader := 1, SetChannel := [], closed := true }
      from rfl] at h
  cases h

/-- C11 (amended): when the inner cache's `Get` fails and the loader returns `V`
with a nil error, on a decorator that has not been closed: with room in the
channel, `LoadableCache.Get` returns `(V, nil)` and the channel holds one more
item, `(key, V)`, at its end; on the full channel the call waits with exactly
the item `(key, V)` pending, and when no other call waits the worker's next
receive puts that item at the end of the channel, which completes the send.
The inner cache's error appears in neither result. -/
theorem loadable_get_miss_loads (σ L T : Type) (c : LoadableCache σ L T)
    (st : LoadableState σ L T) (key : GoAny) (s1 : σ) (o : T) (e : GoError) (l1 : L) (V : T)
    (hc : c.Cache.Get st.cache key = (s1, o, some e))
    (hl : c.LoadFunc st.loader key = (l1, V, none)) (hopen : st.closed = false) :
    (st.SetChannel.length < SetChannelCapacity →
      c.Get st key = LoadableResult.returned
        { cache := s1, loader := l1, SetChannel := st.SetChannel ++ [(key, V)], closed := false }
        V none) ∧
    (¬ st.SetChannel.length < SetChannelCapacity →
      c.Get st key = LoadableResult.blocked
        { cache := s1, loader := l1, SetChannel := st.SetChannel, closed := false } (key, V)) ∧
    (∀ s : LoadableSystem σ L T, s.st = st → s.waiting = [] →
      ¬ st.SetChannel.length < SetChannelCapacity →
      ∃ s2 s3, c.getStep s key = some s2 ∧ s2.waiting = [(key, V)] ∧
        s2.st.SetChannel = st.SetChannel ∧
        c.setterStep s2 = some s3 ∧ s3.waiting = [] ∧
        s3.st.SetChannel = st.SetChannel.tail ++ [(key, V)] ∧
        s3.writes = s.writes ++ st.SetChannel.take 1) := by
  have hfullGet : ¬ st.SetChannel.length < SetChannelCapacity →
      c.Get st key = LoadableResult.blocked
        { cache := s1, loader := l1, SetChannel := st.SetChannel, closed := false } (key, V) := by
    intro hfull
    simp [LoadableCache.Get, hc, hl, hopen, hfull]
  refine ⟨?_, hfullGet, ?_⟩
  · intro hroom
    simp [LoadableCache.Get, hc, hl, hopen, hroom]
  · intro s hs hw hfull
    subst hs
    have hne : ∃ item rest, s.st.SetChannel = item :: rest := by
      cases hq : s.st.SetChannel with
      | nil =>
        rw [hq] at hfull
        exact absurd (show ([] : List (GoAny × T)).length < SetChannelCapacity by
          simp [SetChannelCapacity]) hfull
      | cons item rest => exact ⟨item, rest, rfl⟩
    obtain ⟨item, rest, hq⟩ := hne
    have h2 : c.getStep s key
        = some { s with
            st := { cache := s1, loader := l1, SetChannel := s.st.SetChannel, closed := false },
            waiting := s.waiting ++ [(key, V)],
            loads := s.loads ++ c.successfulLoad s.st key } := by
      simp only [LoadableCache.getStep, hfullGet hfull]
    have h3 : c.setterStep
          { s with
            st := { cache := s1, loader := l1, SetChannel := s.st.SetChannel, closed := false },
            waiting := s.waiting ++ [(key, V)],
            loads := s.loads ++ c.successfulLoad s.st key }
        = some
          { st := { cache := (c.Cache.Set s1 item.1 item.2 []).1, loader := l1,
                    SetChannel := rest ++ [(key, V)], closed := false },
            waiting := [], exited := s.exited,
            loads := s.loads ++ c.successfulLoad s.st key,
            writes := s.writes ++ [item] } := by
      simp [LoadableCache.setterStep, hq, hw, LoadableCache.Set]
    exact ⟨_, _, h2, by simp [hw], rfl, h3, rfl, by simp [hq], by simp [hq]⟩

theorem loadable_get_miss_loads_witness :
    LoadableCache.Get sampleLoadable
        { cache := [], loader := 0, SetChannel := [(GoAny.int 3, "3")], closed := false }
        (GoAny.string "my-key")
      = LoadableResult.returned
          { cache := [], loader := 1,
            SetChannel := [(GoAny.int 3, "3"), (GoAny.string "my-key", "my-key")],
            closed := false }
          "my-key" none :=
  (loadable_get_miss_loads _ Nat String sampleLoadable
    { cache := [], loader := 0, SetChannel := [(GoAny.int 3, "3")], closed := false }
    (GoAny.string "my-key") [] "" (GoError.New "unable to find in cache 1") 1 "my-key"
    rfl rfl rfl).1 (by decide)

/-- C12: when the inner cache's `Get` fails and the loader fails with error
`E`, `LoadableCache.Get` returns the loader's value with exactly `E`, and the
channel and its closed flag are as before. -/
theorem loadable_get_load_error (σ L T : Type) (c : LoadableCache σ L T)
    (st : LoadableState σ L T) (key : GoAny) (s1 : σ) (o : T) (e : GoError) (l1 : L) (o1 : T)
    (E : GoError) (hc : c.Cache.Get st.cache key = (s1, o, some e))
    (hl : c.LoadFunc st.loader key = (l1, o1, some E)) :
    c.Get st key = LoadableResult.returned
      { cache := s1, loader := l1, SetChannel := st.SetChannel, closed := st.closed }
      o1 (some E) := by
  simp [LoadableCache.Get, hc, hl]

theorem loadable_get_load_error_witness :
    LoadableCache.Get (NewLoadable failingLoader missCache)
        { cache := [], loader := 0, SetChannel := [(GoAny.int 3, "3")], closed := false }
        (GoAny.string "my-key")
      = LoadableResult.returned
          { cache := [], loader := 1, SetChannel := [(GoAny.int 3, "3")], closed := false }
          "" (some (GoError.New "an error has occurred while loading data")) :=
  loadable_get_load_error _ Nat String (NewLoadable failingLoader missCache)
    { cache := [], loader := 0, SetChannel := [(GoAny.int 3, "3")], closed := false }
    (GoAny.string "my-key") [] "" (GoError.New "unable to find in cache 1") 1 ""
    (GoError.New "an error has occurred while loading data") rfl rfl

/-- C13: in every state of the system reachable from the one `NewLoadable`
creates, the write-backs performed, followed by the content of the queue (the
items in the channel, then those of the senders waiting on the full channel),
are the successful loads in load order (no sender waits unless the channel is
full, so on a channel with room these are the write-backs followed by the
channel content); a turn of the worker on a non-empty
channel removes the head item, calls the inner cache's `Set` with the item's
key and value and no options, ignores its error and records one write-back;
once the worker has left its loop the channel is empty and the write-backs are
exactly the loads; and `Close`, on a decorator not yet closed and with no
sender waiting, returns nil in a reachable state where the channel is empty
and the write-backs are exactly the loads. -/
theorem loadable_writebacks_follow_loads (σ L T : Type) (c : LoadableCache σ L T)
    (cache : σ) (loader : L) (s : LoadableSystem σ L T)
    (hr : c.Reachable cache loader s) :
    s.writes ++ (s.st.SetChannel ++ s.waiting) = s.loads ∧
    (s.st.SetChannel.length < SetChannelCapacity → s.writes ++ s.st.SetChannel = s.loads) ∧
    (∀ item rest, s.st.SetChannel = item :: rest →
      ∃ s1, c.setterStep s = some s1 ∧
        s1.st.cache = (c.Cache.Set s.st.cache item.1 item.2 []).1 ∧
        s1.st.SetChannel = rest ++ s.waiting.take 1 ∧
        s1.writes = s.writes ++ [item] ∧ s1.loads = s.loads) ∧
    (s.exited = true → s.st.SetChannel = [] ∧ s.waiting = [] ∧ s.writes = s.loads) ∧
    (s.st.closed = false → s.waiting = [] →
      ∃ s1, c.Close s = some (s1, none) ∧ c.Reachable cache loader s1 ∧
        s1.st.SetChannel = [] ∧ s1.waiting = [] ∧ s1.writes = s1.loads ∧ s1.loads = s.loads) := by
  obtain ⟨ops, hops⟩ := hr
  have hinv := loadableInv_run c ops _ s hops (loadableInv_init cache loader)
  obtain ⟨h1, h2, h3, h4⟩ := hinv
  refine ⟨by rw [← List.append_assoc]; exact h1, ?_, ?_, ?_, ?_⟩
  · intro hroom
    have hw : s.waiting = [] := by
      by_contra hne
      exact h2 hne hroom
    rw [← h1, hw, List.append_nil]
  · intro item rest hq
    refine ⟨{ s with
        st := { (c.Set s.st item.1 item.2 []).1 with SetChannel := rest ++ s.waiting.take 1 },
        waiting := s.waiting.drop 1,
        writes := s.writes ++ [item] }, ?_, ?_, rfl, rfl, rfl⟩
    · simp only [LoadableCache.setterStep, hq]
    · simp [LoadableCache.Set]
  · intro hex
    obtain ⟨hcl, hq⟩ := h4 hex
    have hw := h3 hcl
    refine ⟨hq, hw, ?_⟩
    rw [← h1, hq, hw]
    simp
  · intro hcl hw
    have hex : s.exited = false := by
      cases hx : s.exited with
      | false => rfl
      | true =>
        have := (h4 hx).1
        rw [hcl] at this
        cases this
    obtain ⟨s1, hclose, hrun, hq1, hw1, hl1⟩ := loadable_close_drains c s hcl hw hex
    have hreach : c.Reachable cache loader s1 :=
      ⟨ops ++ LoadableOp.close :: List.replicate (s.st.SetChannel.length + 1) LoadableOp.work,
        by rw [loadable_run_append c ops _ _ s hops]; exact hrun⟩
    obtain ⟨ops1, hops1⟩ := hreach
    have hinv1 := loadableInv_run c ops1 _ s1 hops1 (loadableInv_init cache loader)
    have hcl1 : s1.waiting = [] := by
      have h51 := hinv1.1
      rw [hq1, hw1, hl1, ← h1, hw] at h51
      simpa using h51
    refine ⟨s1, hclose, ⟨ops1, hops1⟩, hq1, hcl1, ?_, hl1⟩
    rw [hw1, hl1, ← h1, hw]
    simp

theorem loadable_writebacks_follow_loads_witness :
    sampleLoadable.Reachable [] 0 sampleSystem ∧
    sampleSystem.writes ++ (sampleSystem.st.SetChannel ++ sampleSystem.waiting)
      = sampleSystem.loads ∧
    (∃ s1, sampleLoadable.Close sampleSystem = some (s1, none) ∧
      sampleLoadable.Reachable [] 0 s1 ∧
      s1.st.SetChannel = [] ∧ s1.waiting = [] ∧ s1.writes = s1.loads ∧
      s1.loads = sampleSystem.loads) :=
  ⟨⟨[LoadableOp.get (GoAny.string "a"), LoadableOp.get (GoAny.int 3), LoadableOp.work], rfl⟩,
    (loadable_writebacks_follow_loads _ Nat String sampleLoadable [] 0 sampleSystem
      ⟨[LoadableOp.get (GoAny.string "a"), LoadableOp.get (GoAny.int 3), LoadableOp.work],
        rfl⟩).1,
    (loadable_writebacks_follow_loads _ Nat String sampleLoadable [] 0 sampleSystem
      ⟨[LoadableOp.get (GoAny.string "a"), LoadableOp.get (GoAny.int 3), LoadableOp.work],
        rfl⟩).2.2.2.2 rfl rfl⟩

/-- C14 (claim as stated fails): on the decorator of the examples, `Close`
called on the state `NewLoadable` creates returns nil, and the next `Get`,
whose inner cache misses and whose loader succeeds, panics on the send to the
closed channel. -/
theorem loadable_get_panics_after_close :
    ∃ s, sampleLoadable.Close (NewLoadableSystem [] 0) = some (s, none) ∧
      sampleLoadable.Reachable [] 0 s ∧
      sampleLoadable.Get s.st (GoAny.string "my-key")
        = LoadableResult.panicked
            { cache := [], loader := 1, SetChannel := [], closed := true } :=
  ⟨_, rfl, ⟨[LoadableOp.close, LoadableOp.work], rfl⟩, rfl⟩

/-- C14 (amended): in every state of the decorator in which `Close` has not
been called, for every outcome of the inner cache and of the loader,
`LoadableCache.Get` does not panic: it returns a value or an error, or, when
the inner cache misses, the loader succeeds and the channel is full, it waits
with the loaded item pending. -/
theorem loadable_get_no_panic_before_close (σ L T : Type) (c : LoadableCache σ L T)
    (st : LoadableState σ L T) (key : GoAny) (hopen : st.closed = false) :
    (∃ st1 object err, c.Get st key = LoadableResult.returned st1 object err) ∨
    (¬ st.SetChannel.length < SetChannelCapacity ∧
      ∃ st1 object, c.Get st key = LoadableResult.blocked st1 (key, object)) := by
  unfold LoadableCache.Get
  rcases hc : c.Cache.Get st.cache key with ⟨s1, o, e⟩
  cases e with
  | none => exact Or.inl ⟨_, _, _, rfl⟩
  | some e =>
    rcases hl : c.LoadFunc st.loader key with ⟨l1, o1, e1⟩
    cases e1 with
    | some e1 => exact Or.inl ⟨_, _, _, rfl⟩
    | none =>
      by_cases hroom : st.SetChannel.length < SetChannelCapacity
      · left
        simp [hopen, hroom]
      · right
        refine ⟨hroom, ?_⟩
        simp [hopen, hroom]

theorem loadable_get_no_panic_before_close_witness :
    (∃ st1 object err, sampleLoadable.Get sampleSystem.st (GoAny.string "my-key")
        = LoadableResult.returned st1 object err) ∨
    (¬ sampleSystem.st.SetChannel.length < SetChannelCapacity ∧
      ∃ st1 object, sampleLoadable.Get sampleSystem.st (GoAny.string "my-key")
        = LoadableResult.blocked st1 (GoAny.string "my-key", object)) :=
  loadable_get_no_panic_before_close _ Nat String sampleLoadable sampleSystem.st
    (GoAny.string "my-key") rfl

/-! ## The metric cache -/

mutual

theorem updateMetrics_logSink {σ C : Type} (st : σ) :
    ∀ (shape : CacheShape C) (log : List C),
      updateMetrics (logSink σ C) st shape log = log ++ shape.codecs
  | CacheShape.chain caches, log => by
    simp only [updateMetrics, CacheShape.codecs]
    exact updateMetricsEach_logSink st caches log
  | CacheShape.setter codec, log => by
    simp [updateMetrics, CacheShape.codecs, logSink]
  | CacheShape.other, log => by
    simp [updateMetrics, CacheShape.codecs]

theorem updateMetricsEach_logSink {σ C : Type} (st : σ) :
    ∀ (caches : List (CacheShape C)) (log : List C),
      updateMetricsEach (logSink σ C) st caches log = log ++ CacheShape.codecsEach caches
  | [], log => by
    simp [updateMetricsEach, CacheShape.codecsEach]
  | cache :: caches, log => by
    simp only [updateMetricsEach, CacheShape.codecsEach]
    rw [updateMetrics_logSink st cache log, updateMetricsEach_logSink st caches]
    simp

end

theorem updateMetricsEach_setters {μ σ C : Type} (metrics : MetricsInterface μ σ C) (st : σ)
    (codecs : List C) :
    ∀ sink : μ, updateMetricsEach metrics st (codecs.map CacheShape.setter) sink
      = codecs.foldl (fun acc codec => metrics.RecordFromCodec acc st codec) sink := by
  induction codecs with
  | nil => intro sink; simp [updateMetricsEach]
  | cons codec codecs ih =>
    intro sink
    simp only [List.map_cons, updateMetricsEach, updateMetrics, List.foldl_cons]
    exact ih _

theorem codecsEach_setters {C : Type} (codecs : List C) :
    CacheShape.codecsEach (codecs.map CacheShape.setter) = codecs := by
  induction codecs with
  | nil => simp [CacheShape.codecsEach]
  | cons codec codecs ih => simp [CacheShape.codecsEach, CacheShape.codecs, ih]

/-- C15: `MetricCache.Get` returns exactly the value and the error of the
wrapped cache's `Get`, and it runs `updateMetrics` on the wrapped cache
whatever that outcome is: with a sink that logs its calls, the codecs recorded
are those of the wrapped cache's shape, whether the `Get` succeeded or failed. -/
theorem metric_get_returns_inner_result (μ σ C T : Type) (c : MetricCache μ σ C T) (st : σ)
    (sink : μ) (key : GoAny) :
    c.Get st sink key
      = ((c.Cache.Get st key).1,
         updateMetrics c.Metrics (c.Cache.Get st key).1 c.shape sink,
         (c.Cache.Get st key).2.1, (c.Cache.Get st key).2.2) ∧
    ∀ (cache : CacheInterface σ T) (shape : CacheShape C) (log : List C),
      ((MetricCache.mk (logSink σ C) cache shape).Get st log key).2.1 = log ++ shape.codecs := by
  constructor
  · rfl
  · intro cache shape log
    simp only [MetricCache.Get]
    exact updateMetrics_logSink _ shape log

/-- C16: for a `MetricCache` wrapping a chain whose tiers expose the codecs
`c1, ..., cn`, `Get` calls the sink's `RecordFromCodec` once per tier, with
`c1, ..., cn` in tier order (a log of the calls grows by exactly that list);
for a `MetricCache` wrapping a cache that exposes its codec directly, `Get`
calls `RecordFromCodec` exactly once, with that codec. -/
theorem metric_get_records_each_tier (μ σ C T : Type) (metrics : MetricsInterface μ σ C)
    (cache : CacheInterface σ T) (st : σ) (sink : μ) (key : GoAny) (codecs : List C)
    (codec : C) (log : List C) :
    ((MetricCache.mk metrics cache (CacheShape.chain (codecs.map CacheShape.setter))).Get
        st sink key).2.1
      = codecs.foldl (fun acc cdc => metrics.RecordFromCodec acc (cache.Get st key).1 cdc) sink ∧
    ((MetricCache.mk (logSink σ C) cache
        (CacheShape.chain (codecs.map CacheShape.setter))).Get st log key).2.1
      = log ++ codecs ∧
    ((MetricCache.mk metrics cache (CacheShape.setter codec)).Get st sink key).2.1
      = metrics.RecordFromCodec sink (cache.Get st key).1 codec ∧
    ((MetricCache.mk (logSink σ C) cache (CacheShape.setter codec)).Get st log key).2.1
      = log ++ [codec] := by
  refine ⟨?_, ?_, rfl, rfl⟩
  · simp only [MetricCache.Get, updateMetrics]
    exact updateMetricsEach_setters metrics _ codecs sink
  · simp only [MetricCache.Get]
    rw [updateMetrics_logSink, CacheShape.codecs, codecsEach_setters]

/-! ## The marshaler -/

/-- C17: when the inner cache's `Get` succeeds with a value that is neither a
byte slice nor a string, `Marshaler.Get` does not decode: the caller's target
is unmodified, and it is returned with a nil error. -/
theorem marshaler_get_skips_other_values (σ Obj : Type) (c : Marshaler σ Obj) (st st1 : σ)
    (key : GoAny) (returnObj : Obj) (value : GoAny)
    (hget : c.Cache.Get st key = (st1, value, none))
    (hb : ∀ b, value ≠ GoAny.bytes b) (hs : ∀ s, value ≠ GoAny.string s) :
    c.Get st key returnObj = (st1, returnObj, some returnObj, none) := by
  unfold Marshaler.Get
  rw [hget]
  cases value with
  | bytes b => exact absurd rfl (hb b)
  | string s => exact absurd rfl (hs s)
  | nil => rfl
  | int n => rfl
  | object T f k => rfl

theorem marshaler_get_skips_other_values_witness :
    Marshaler.Get ⟨constCache (GoAny.int 5), sampleSerializer⟩ 0 (GoAny.string "my-key") "target"
      = (1, "target", some "target", none) :=
  marshaler_get_skips_other_values Nat String ⟨constCache (GoAny.int 5), sampleSerializer⟩ 0 1
    (GoAny.string "my-key") "target" (GoAny.int 5) rfl (fun _ h => by cases h)
    (fun _ h => by cases h)

/-- C18: round trip.  If encoding `v` succeeds with the non-nil bytes `b`,
decoding `b` fills any target with `v`, and the inner cache's `Get` returns, for
the key, the bytes `b` passed to its `Set` (as a byte slice or as a string),
then `Marshaler.Set(k, v)` passes `b` to the inner `Set` and returns its error,
and `Marshaler.Get(k, target)` returns the target filled with `v` and a nil
error; and a stored string `s` is decoded exactly like the byte slice
`[]byte(s)`. -/
theorem marshaler_round_trip (σ Obj : Type) (c : Marshaler σ Obj) (st st1 st2 : σ)
    (k : GoAny) (v target : Obj) (b : String) (options : List StoreOption) (stored : GoAny)
    (henc : c.msgpack.Marshal v = (some b, none))
    (hdec : ∀ t, c.msgpack.Unmarshal (some b) t = (v, none))
    (hset : c.Cache.Set st k (GoAny.bytes (some b)) options = (st1, none))
    (hstored : stored = GoAny.bytes (some b) ∨ stored = GoAny.string b)
    (hget : c.Cache.Get st1 k = (st2, stored, none)) :
    c.Set st k v options = (st1, none) ∧
    c.Get st1 k target = (st2, v, some v, none) ∧
    ∀ (c1 : Marshaler σ Obj) (s : String) (sa sb sc : σ) (k1 : GoAny),
      c.Cache.Get sa k = (sc, GoAny.string s, none) →
      c1.Cache.Get sb k1 = (sc, GoAny.bytes (bytesOfString s), none) →
      c1.msgpack = c.msgpack →
      c.Get sa k target = c1.Get sb k1 target := by
  refine ⟨?_, ?_, ?_⟩
  · simp [Marshaler.Set, henc, hset]
  · rcases hstored with h | h
    · subst h
      simp [Marshaler.Get, hget, hdec]
    · subst h
      simp [Marshaler.Get, hget, hdec, bytesOfString]
  · intro c1 s sa sb sc k1 h1 h2 h3
    simp [Marshaler.Get, h1, h2, h3]

theorem marshaler_round_trip_witness :
    Marshaler.Set ⟨slotCache, sampleSerializer⟩ none (GoAny.string "my-key") "world"
        [WithExpiration 5]
      = (some (GoAny.bytes (some "world"), ⟨0, 5, []⟩), none) ∧
    Marshaler.Get ⟨slotCache, sampleSerializer⟩ (some (GoAny.bytes (some "world"), ⟨0, 5, []⟩))
        (GoAny.string "my-key") ""
      = (some (GoAny.bytes (some "world"), ⟨0, 5, []⟩), "world", some "world", none) :=
  ⟨(marshaler_round_trip _ String ⟨slotCache, sampleSerializer⟩ none
      (some (GoAny.bytes (some "world"), ⟨0, 5, []⟩))
      (some (GoAny.bytes (some "world"), ⟨0, 5, []⟩)) (GoAny.string "my-key") "world" ""
      "world" [WithExpiration 5] (GoAny.bytes (some "world")) rfl (fun _ => rfl) rfl
      (Or.inl rfl) rfl).1,
    (marshaler_round_trip _ String ⟨slotCache, sampleSerializer⟩ none
      (some (GoAny.bytes (some "world"), ⟨0, 5, []⟩))
      (some (GoAny.bytes (some "world"), ⟨0, 5, []⟩)) (GoAny.string "my-key") "world" ""
      "world" [WithExpiration 5] (GoAny.bytes (some "world")) rfl (fun _ => rfl) rfl
      (Or.inl rfl) rfl).2.1⟩

/-- C19: `Marshaler.Get` returns a nil value whenever it returns an error: if
the inner cache's `Get` fails it returns nil and that error and the target is
untouched (nothing is decoded); if decoding the stored bytes, or the stored
string, fails it returns nil and the decoding error, not the target, whatever
the decoder wrote into the target. -/
theorem marshaler_get_nil_on_error (σ Obj : Type) (c : Marshaler σ Obj) (st st1 : σ)
    (key : GoAny) (returnObj partialObj : Obj) (value : GoAny) (err : GoError) :
    (c.Cache.Get st key = (st1, value, some err) →
      c.Get st key returnObj = (st1, returnObj, none, some err)) ∧
    (∀ b, c.Cache.Get st key = (st1, GoAny.bytes b, none) →
      c.msgpack.Unmarshal b returnObj = (partialObj, some err) →
      c.Get st key returnObj = (st1, partialObj, none, some err)) ∧
    (∀ s, c.Cache.Get st key = (st1, GoAny.string s, none) →
      c.msgpack.Unmarshal (bytesOfString s) returnObj = (partialObj, some err) →
      c.Get st key returnObj = (st1, partialObj, none, some err)) := by
  refine ⟨?_, ?_, ?_⟩
  · intro h
    simp [Marshaler.Get, h]
  · intro b h hu
    simp [Marshaler.Get, h, hu]
  · intro s h hu
    simp [Marshaler.Get, h, hu]

theorem marshaler_get_nil_on_error_witness :
    Marshaler.Get ⟨slotCache, sampleSerializer⟩ none (GoAny.string "my-key") "target"
      = (none, "target", none, some (GoError.New "unable to find item in store")) ∧
    Marshaler.Get ⟨slotCache, sampleSerializer⟩
        (some (GoAny.string "unknown-string", ⟨0, 0, []⟩)) (GoAny.string "my-key") "target"
      = (some (GoAny.string "unknown-string", ⟨0, 0, []⟩), "target?", none,
          some (GoError.New "cannot decode")) :=
  ⟨(marshaler_get_nil_on_error _ String ⟨slotCache, sampleSerializer⟩ none none
      (GoAny.string "my-key") "target" "target" GoAny.nil
      (GoError.New "unable to find item in store")).1 rfl,
    (marshaler_get_nil_on_error _ String ⟨slotCache, sampleSerializer⟩
      (some (GoAny.string "unknown-string", ⟨0, 0, []⟩))
      (some (GoAny.string "unknown-string", ⟨0, 0, []⟩))
      (GoAny.string "my-key") "target" "target?" GoAny.nil
      (GoError.New "cannot decode")).2.2 "unknown-string" rfl rfl⟩

/-- C20: when encoding the value fails, `Marshaler.Set` returns the encoding
error and the inner cache's state is untouched (its `Set` is not called);
otherwise the result is that of one call of the inner cache's `Set` with the
same key, the encoded bytes and the caller's options, error included. -/
theorem marshaler_set_encodes_first (σ Obj : Type) (c : Marshaler σ Obj) (st : σ)
    (key : GoAny) (object : Obj) (options : List StoreOption) (bytes : ByteSlice)
    (err : GoError) :
    (c.msgpack.Marshal object = (bytes, some err) →
      c.Set st key object options = (st, some err)) ∧
    (c.msgpack.Marshal object = (bytes, none) →
      c.Set st key object options = c.Cache.Set st key (GoAny.bytes bytes) options) := by
  constructor
  · intro h
    simp [Marshaler.Set, h]
  · intro h
    simp [Marshaler.Set, h]

theorem marshaler_set_encodes_first_witness :
    Marshaler.Set ⟨slotCache, sampleSerializer⟩ none (GoAny.string "my-key") "" [WithExpiration 5]
      = (none, some (GoError.New "cannot encode")) ∧
    Marshaler.Set ⟨slotCache, sampleSerializer⟩ none (GoAny.string "my-key") "test"
        [WithExpiration 5]
      = slotCache.Set none (GoAny.string "my-key") (GoAny.bytes (some "test"))
          [WithExpiration 5] :=
  ⟨(marshaler_set_encodes_first _ String ⟨slotCache, sampleSerializer⟩ none
      (GoAny.string "my-key") "" [WithExpiration 5] none (GoError.New "cannot encode")).1 rfl,
    (marshaler_set_encodes_first _ String ⟨slotCache, sampleSerializer⟩ none
      (GoAny.string "my-key") "test" [WithExpiration 5] (some "test")
      (GoError.New "cannot encode")).2 rfl⟩

/-! ## Rounding to `float64` and seconds of a duration -/

theorem roundHalfEven_intCast (k : ℤ) : roundHalfEven (k : ℚ) = k := by
  simp [roundHalfEven]

theorem abs_roundHalfEven_sub (q : ℚ) : |(roundHalfEven q : ℚ) - q| ≤ 1 / 2 := by
  have h1 : (⌊q⌋ : ℚ) ≤ q := Int.floor_le q
  have h2 : q < (⌊q⌋ : ℚ) + 1 := Int.lt_floor_add_one q
  unfold roundHalfEven
  split_ifs with a b c
  · rw [abs_le]; constructor <;> linarith
  · push_cast; rw [abs_le]; constructor <;> linarith
  · rw [abs_le]; constructor <;> linarith
  · push_cast; rw [abs_le]; constructor <;> linarith

theorem float64Round_natCast (n : ℕ) (h : n < 2 ^ 53) : float64Round (n : ℚ) = n := by
  rcases Nat.eq_zero_or_pos n with h0 | hpos
  · subst h0; simp [float64Round]
  · have hne : (n : ℚ) ≠ 0 := by exact_mod_cast hpos.ne'
    have hq : (0 : ℚ) < n := by exact_mod_cast hpos
    have hlog : Int.log 2 (n : ℚ) = (Nat.log 2 n : ℤ) := by
      exact_mod_cast Int.log_natCast (R := ℚ) 2 n
    have hL : Nat.log 2 n < 53 := Nat.log_lt_of_lt_pow hpos.ne' h
    have hexp : (52 : ℤ) - (Nat.log 2 n : ℤ) = ((52 - Nat.log 2 n : ℕ) : ℤ) := by omega
    simp only [float64Round, hne, hq, if_true, if_false, hlog]
    rw [hexp, zpow_natCast]
    have hcast : (n : ℚ) * 2 ^ (52 - Nat.log 2 n) = ((n * 2 ^ (52 - Nat.log 2 n) : ℕ) : ℤ) := by
      push_cast; ring
    rw [hcast, roundHalfEven_intCast]
    have hexp2 : ((Nat.log 2 n : ℤ) - 52) = -((52 - Nat.log 2 n : ℕ) : ℤ) := by omega
    rw [hexp2, zpow_neg, zpow_natCast]
    push_cast
    field_simp

theorem float64Round_error (z : ℚ) (hz : 0 < z) :
    |float64Round z - z| ≤ 2 ^ (Int.log 2 z - 53) := by
  have hne : z ≠ 0 := hz.ne'
  simp only [float64Round, hne, hz, if_true, if_false]
  have hr := abs_roundHalfEven_sub (z * 2 ^ (52 - Int.log 2 z))
  have h2 : (0 : ℚ) < 2 ^ (Int.log 2 z - 52) := by positivity
  have hz2 : z = z * 2 ^ (52 - Int.log 2 z) * 2 ^ (Int.log 2 z - 52) := by
    rw [mul_assoc, ← zpow_add₀ (by norm_num : (2 : ℚ) ≠ 0)]
    simp
  have hsplit : (2 : ℚ) ^ (Int.log 2 z - 53) = 1 / 2 * 2 ^ (Int.log 2 z - 52) := by
    have : Int.log 2 z - 53 = (Int.log 2 z - 52) + (-1) := by ring
    rw [this, zpow_add₀ (by norm_num : (2 : ℚ) ≠ 0)]
    norm_num
    ring
  rw [hsplit]
  have : (roundHalfEven (z * 2 ^ (52 - Int.log 2 z)) : ℚ) * 2 ^ (Int.log 2 z - 52) - z
      = ((roundHalfEven (z * 2 ^ (52 - Int.log 2 z)) : ℚ) - z * 2 ^ (52 - Int.log 2 z))
        * 2 ^ (Int.log 2 z - 52) := by
    rw [sub_mul, ← hz2]
  rw [this, abs_mul, abs_of_pos h2]
  exact mul_le_mul_of_nonneg_right hr h2.le

theorem float64Round_unit (z : ℚ) (hz : 0 < z) (h1 : z < 1) :
    0 < float64Round z ∧ float64Round z ≤ z + 2 ^ (-54 : ℤ) := by
  have herr := float64Round_error z hz
  have hlog : Int.log 2 z < 0 := by
    have := (Int.lt_zpow_iff_log_lt (R := ℚ) (b := 2) (by norm_num) hz (x := 0)).mp (by simpa using h1)
    exact this
  have hle : (2 : ℚ) ^ (Int.log 2 z) ≤ z := Int.zpow_log_le_self (by norm_num) hz
  have hb1 : (2 : ℚ) ^ (Int.log 2 z - 53) ≤ 2 ^ (-54 : ℤ) :=
    zpow_le_zpow_right₀ (by norm_num) (by omega)
  have hb2 : (2 : ℚ) ^ (Int.log 2 z - 53) = 2 ^ (Int.log 2 z) * 2 ^ (-53 : ℤ) := by
    rw [← zpow_add₀ (by norm_num : (2 : ℚ) ≠ 0)]
    congr 1
  have hsmall : (2 : ℚ) ^ (-53 : ℤ) < 1 := by norm_num
  have hpos : (0 : ℚ) < 2 ^ (Int.log 2 z) := by positivity
  rw [abs_le] at herr
  constructor
  · have : (2 : ℚ) ^ (Int.log 2 z - 53) < z := by
      rw [hb2]
      calc (2 : ℚ) ^ (Int.log 2 z) * 2 ^ (-53 : ℤ) < 2 ^ (Int.log 2 z) * 1 :=
            mul_lt_mul_of_pos_left hsmall hpos
        _ ≤ z := by simpa using hle
    linarith [herr.1]
  · linarith [herr.2]

theorem float64Round_zero : float64Round 0 = 0 := by
  simp [float64Round]

theorem Duration.Seconds_whole (n : ℤ) (h0 : 0 ≤ n) (h1 : n < 2147483648) :
    Duration.Seconds (n * Second) = n := by
  obtain ⟨m, rfl⟩ := Int.eq_ofNat_of_zero_le h0
  have hm : m < 2 ^ 53 := by
    have : m < 2147483648 := by exact_mod_cast h1
    omega
  have hdiv : Int.tdiv ((m : ℤ) * Second) Second = m :=
    Int.mul_tdiv_cancel _ (by decide)
  have hmod : Int.tmod ((m : ℤ) * Second) Second = 0 := Int.mul_tmod_left _ _
  have hbig : float64Round (1000000000 : ℚ) = 1000000000 := by
    have := float64Round_natCast 1000000000 (by norm_num)
    simpa using this
  have hm2 : float64Round ((m : ℤ) : ℚ) = ((m : ℤ) : ℚ) := by
    have := float64Round_natCast m hm
    simpa using this
  unfold Duration.Seconds
  rw [hdiv, hmod]
  simp only [Int.cast_zero, float64Round_zero, zero_div, add_zero, hm2]

theorem Duration.Seconds_subsecond (d : ℤ) (h0 : 0 < d) (h1 : d < Second) :
    0 < Duration.Seconds d ∧ Duration.Seconds d < 1 := by
  have hdiv : Int.tdiv d Second = 0 := Int.tdiv_eq_zero_of_lt h0.le h1
  have hmod : Int.tmod d Second = d := Int.tmod_eq_of_lt h0.le h1
  obtain ⟨m, rfl⟩ := Int.eq_ofNat_of_zero_le h0.le
  have hmlt : m < 1000000000 := by
    have : (m : ℤ) < 1000000000 := h1
    exact_mod_cast this
  have hmpos : 0 < m := by exact_mod_cast h0
  have hbig : float64Round (1000000000 : ℚ) = 1000000000 := by
    have := float64Round_natCast 1000000000 (by norm_num)
    simpa using this
  have hm2 : float64Round ((m : ℤ) : ℚ) = (m : ℚ) := by
    have := float64Round_natCast m (by omega)
    simpa using this
  have hx0 : (0 : ℚ) < (m : ℚ) / 1000000000 := by positivity
  have hx1 : (m : ℚ) / 1000000000 ≤ 1 - 1 / 1000000000 := by
    have : (m : ℚ) ≤ 999999999 := by
      have : m ≤ 999999999 := by omega
      exact_mod_cast this
    rw [div_le_iff₀ (by norm_num)]
    linarith
  have hsmall : (2 : ℚ) ^ (-54 : ℤ) < 1 / 4000000000 := by
    rw [zpow_neg]
    norm_num
  obtain ⟨hy0, hy1⟩ := float64Round_unit _ hx0 (by linarith)
  obtain ⟨hz0, hz1⟩ := float64Round_unit _ hy0 (by linarith)
  unfold Duration.Seconds
  rw [hdiv, hmod]
  simp only [Int.cast_zero, float64Round_zero, zero_add, hm2, hbig]
  exact ⟨hz0, by linarith⟩

theorem int32OfFloat_intCast (n : ℤ) (h0 : -2147483648 ≤ n) (h1 : n < 2147483648) :
    int32OfFloat (n : ℚ) = n := by
  unfold int32OfFloat
  simp [h0, h1]

theorem int32OfFloat_unit (x : ℚ) (h0 : 0 < x) (h1 : x < 1) : int32OfFloat x = 0 := by
  have hf : ⌊x⌋ = 0 := Int.floor_eq_zero_iff.mpr ⟨h0.le, h1⟩
  unfold int32OfFloat
  simp [h0.le, hf]

theorem TagKeyExpiry_seconds : int32OfFloat (Duration.Seconds TagKeyExpiry) = 2592000 := by
  have h : TagKeyExpiry = 2592000 * Second := by decide
  rw [h, Duration.Seconds_whole 2592000 (by norm_num) (by norm_num)]
  exact int32OfFloat_intCast 2592000 (by norm_num) (by norm_num)

/-! ## Invalidation in the three stores -/

theorem BigcacheStore.bigcache_deleteKeys_eq_foldl {σ : Type} (s : BigcacheStore σ) (keys : List String) :
    ∀ st : σ, s.deleteKeys st keys = keys.foldl (fun st k => (s.Client.Delete st k).1) st := by
  induction keys with
  | nil => intro st; rfl
  | cons k ks ih => intro st; simp only [BigcacheStore.deleteKeys, List.foldl_cons]; exact ih _

theorem MemcacheStore.memcache_deleteKeys_eq_foldl {σ : Type} (s : MemcacheStore σ) (keys : List String) :
    ∀ st : σ, s.deleteKeys st keys = keys.foldl (fun st k => (s.Client.Delete st k).1) st := by
  induction keys with
  | nil => intro st; rfl
  | cons k ks ih => intro st; simp only [MemcacheStore.deleteKeys, List.foldl_cons]; exact ih _

theorem RedisClusterStore.rediscluster_deleteKeys_eq_foldl {σ : Type} (s : RedisClusterStore σ)
    (keys : List String) :
    ∀ st : σ, s.deleteKeys st keys = keys.foldl (fun st k => (s.Clusclient.Del st [k]).1) st := by
  induction keys with
  | nil => intro st; rfl
  | cons k ks ih =>
    intro st
    simp only [RedisClusterStore.deleteKeys, List.foldl_cons]
    exact ih _

theorem BigcacheStore.bigcache_invalidateTags_nil_error {σ : Type} (s : BigcacheStore σ)
    (tags : List String) : ∀ st : σ, (s.invalidateTags st tags).2 = none := by
  induction tags with
  | nil => intro st; rfl
  | cons tag tags ih =>
    intro st
    simp only [BigcacheStore.invalidateTags]
    split
    · rfl
    · exact ih _

theorem MemcacheStore.memcache_invalidateTags_nil_error {σ : Type} (s : MemcacheStore σ)
    (tags : List String) : ∀ st : σ, (s.invalidateTags st tags).2 = none := by
  induction tags with
  | nil => intro st; rfl
  | cons tag tags ih =>
    intro st
    simp only [MemcacheStore.invalidateTags]
    split
    · rfl
    · exact ih _

theorem recordingRedis_deleteKeys (members : String → Option (List String))
    (delFails : String → Bool) (o : Options) (keys : List String) :
    ∀ log : List String,
      (RedisClusterStore.mk (recordingRedis members delFails) o).deleteKeys log keys
        = log ++ keys := by
  induction keys with
  | nil => intro log; simp [RedisClusterStore.deleteKeys]
  | cons k ks ih =>
    intro log
    simp only [RedisClusterStore.deleteKeys, RedisClusterStore.Delete]
    rw [show ((recordingRedis members delFails).Del log [k]).1 = log ++ [k] from rfl]
    rw [ih]
    simp

theorem recordingRedis_invalidateTags (members : String → Option (List String))
    (delFails : String → Bool) (o : Options) (tags : List String) :
    ∀ log : List String,
      (RedisClusterStore.mk (recordingRedis members delFails) o).invalidateTags log tags
        = log ++ expectedRedisDeletes members tags := by
  induction tags with
  | nil => intro log; simp [RedisClusterStore.invalidateTags, expectedRedisDeletes]
  | cons tag tags ih =>
    intro log
    simp only [RedisClusterStore.invalidateTags, expectedRedisDeletes]
    cases hm : members (RedisTagKey tag) with
    | none =>
      have h1 : (recordingRedis members delFails).SMembers log (RedisTagKey tag)
          = (log, [], some (GoError.New "unable to read members")) := by
        simp [recordingRedis, hm]
      simp only [h1]
      rw [ih]
      simp
    | some ms =>
      have h1 : (recordingRedis members delFails).SMembers log (RedisTagKey tag)
          = (log, ms, none) := by
        simp [recordingRedis, hm]
      simp only [h1]
      rw [recordingRedis_deleteKeys]
      simp only [RedisClusterStore.Delete]
      rw [show ((recordingRedis members delFails).Del (log ++ ms) [RedisTagKey tag]).1
          = log ++ ms ++ [RedisTagKey tag] from rfl]
      rw [ih]
      simp

theorem BigcacheStore.bigcache_Invalidate_tags {σ : Type} (s : BigcacheStore σ) (st : σ)
    (tags : List String) :
    s.Invalidate st [WithInvalidateTags tags] = s.invalidateTags st tags := by
  cases tags with
  | nil => rfl
  | cons t ts => simp [BigcacheStore.Invalidate, applyInvalidateOptions, WithInvalidateTags]

theorem MemcacheStore.memcache_Invalidate_tags {σ : Type} (s : MemcacheStore σ) (st : σ)
    (tags : List String) :
    s.Invalidate st [WithInvalidateTags tags] = s.invalidateTags st tags := by
  cases tags with
  | nil => rfl
  | cons t ts => simp [MemcacheStore.Invalidate, applyInvalidateOptions, WithInvalidateTags]

theorem RedisClusterStore.rediscluster_Invalidate_tags {σ : Type} (s : RedisClusterStore σ)
    (st : σ) (tags : List String) :
    s.Invalidate st [WithInvalidateTags tags] = (s.invalidateTags st tags, none) := by
  cases tags with
  | nil => rfl
  | cons t ts => simp [RedisClusterStore.Invalidate, applyInvalidateOptions, WithInvalidateTags]

theorem BigcacheStore.bigcache_Invalidate_cons {σ : Type} (s : BigcacheStore σ) (st : σ)
    (tag : String) (tags : List String) :
    s.Invalidate st [WithInvalidateTags (tag :: tags)]
      = match s.Get st (BigcacheTagKey tag) with
        | (st1, _, some _) => (st1, none)
        | (st1, result, none) =>
          s.Invalidate
            ((match result with
              | GoAny.bytes bytes => strings.Split (stringOfBytes bytes) ','
              | _ => []).foldl (fun st k => (s.Client.Delete st k).1) st1)
            [WithInvalidateTags tags] := by
  rw [BigcacheStore.bigcache_Invalidate_tags]
  simp only [BigcacheStore.invalidateTags]
  split
  · rfl
  · rw [BigcacheStore.bigcache_Invalidate_tags, BigcacheStore.bigcache_deleteKeys_eq_foldl]

theorem MemcacheStore.memcache_Invalidate_cons {σ : Type} (s : MemcacheStore σ) (st : σ)
    (tag : String) (tags : List String) :
    s.Invalidate st [WithInvalidateTags (tag :: tags)]
      = match s.Get st (MemcacheTagKey tag) with
        | (st1, _, some _) => (st1, none)
        | (st1, result, none) =>
          s.Invalidate
            ((match result with
              | GoAny.bytes bytes => strings.Split (stringOfBytes bytes) ','
              | _ => []).foldl (fun st k => (s.Client.Delete st k).1) st1)
            [WithInvalidateTags tags] := by
  rw [MemcacheStore.memcache_Invalidate_tags]
  simp only [MemcacheStore.invalidateTags]
  split
  · rfl
  · rw [MemcacheStore.memcache_Invalidate_tags, MemcacheStore.memcache_deleteKeys_eq_foldl]

theorem RedisClusterStore.rediscluster_Invalidate_cons {σ : Type} (s : RedisClusterStore σ)
    (st : σ) (tag : String) (tags : List String) :
    s.Invalidate st [WithInvalidateTags (tag :: tags)]
      = match s.Clusclient.SMembers st (RedisTagKey tag) with
        | (st1, _, some _) => s.Invalidate st1 [WithInvalidateTags tags]
        | (st1, cacheKeys, none) =>
          s.Invalidate
            (s.Clusclient.Del
              (cacheKeys.foldl (fun st k => (s.Clusclient.Del st [k]).1) st1)
              [RedisTagKey tag]).1
            [WithInvalidateTags tags] := by
  rw [RedisClusterStore.rediscluster_Invalidate_tags]
  simp only [RedisClusterStore.invalidateTags]
  split
  · rw [RedisClusterStore.rediscluster_Invalidate_tags]
  · rw [RedisClusterStore.rediscluster_Invalidate_tags,
      RedisClusterStore.rediscluster_deleteKeys_eq_foldl]
    rfl

theorem recordingBigcache_deleteKeys (index : String → Option String)
    (delFails : String → Bool) (o : Options) (keys : List String) :
    ∀ log : List String,
      (BigcacheStore.mk (recordingBigcache index delFails) o).deleteKeys log keys
        = log ++ keys := by
  induction keys with
  | nil => intro log; simp [BigcacheStore.deleteKeys]
  | cons k ks ih =>
    intro log
    simp only [BigcacheStore.deleteKeys, BigcacheStore.Delete]
    rw [show ((recordingBigcache index delFails).Delete log k).1 = log ++ [k] from rfl]
    rw [ih]
    simp

theorem recordingMemcache_deleteKeys (index : String → Option String)
    (delFails : String → Bool) (o : Options) (keys : List String) :
    ∀ log : List String,
      (MemcacheStore.mk (recordingMemcache index delFails) o).deleteKeys log keys
        = log ++ keys := by
  induction keys with
  | nil => intro log; simp [MemcacheStore.deleteKeys]
  | cons k ks ih =>
    intro log
    simp only [MemcacheStore.deleteKeys, MemcacheStore.Delete]
    rw [show ((recordingMemcache index delFails).Delete log k).1 = log ++ [k] from rfl]
    rw [ih]
    simp

theorem recordingBigcache_invalidateTags (index : String → Option String)
    (delFails : String → Bool) (o : Options) (tags : List String) :
    ∀ log : List String,
      (BigcacheStore.mk (recordingBigcache index delFails) o).invalidateTags log tags
        = (log ++ expectedIndexDeletes BigcacheTagKey index tags, none) := by
  induction tags with
  | nil => intro log; simp [BigcacheStore.invalidateTags, expectedIndexDeletes]
  | cons tag tags ih =>
    intro log
    simp only [BigcacheStore.invalidateTags, expectedIndexDeletes]
    cases hm : index (BigcacheTagKey tag) with
    | none =>
      have h1 : (BigcacheStore.mk (recordingBigcache index delFails) o).Get log
          (BigcacheTagKey tag) = (log, GoAny.nil, some ErrEntryNotFound) := by
        simp [BigcacheStore.Get, recordingBigcache, hm]
      simp only [h1]
      simp
    | some b =>
      have h1 : (BigcacheStore.mk (recordingBigcache index delFails) o).Get log
          (BigcacheTagKey tag) = (log, GoAny.bytes (some b), none) := by
        simp [BigcacheStore.Get, recordingBigcache, hm]
      simp only [h1]
      rw [recordingBigcache_deleteKeys, ih]
      simp [stringOfBytes]

theorem recordingMemcache_invalidateTags (index : String → Option String)
    (delFails : String → Bool) (o : Options) (tags : List String) :
    ∀ log : List String,
      (MemcacheStore.mk (recordingMemcache index delFails) o).invalidateTags log tags
        = (log ++ expectedIndexDeletes MemcacheTagKey index tags, none) := by
  induction tags with
  | nil => intro log; simp [MemcacheStore.invalidateTags, expectedIndexDeletes]
  | cons tag tags ih =>
    intro log
    simp only [MemcacheStore.invalidateTags, expectedIndexDeletes]
    cases hm : index (MemcacheTagKey tag) with
    | none =>
      have h1 : (MemcacheStore.mk (recordingMemcache index delFails) o).Get log
          (MemcacheTagKey tag) = (log, GoAny.nil, some ErrCacheMiss) := by
        simp [MemcacheStore.Get, recordingMemcache, hm]
      simp only [h1]
      simp
    | some b =>
      have h1 : (MemcacheStore.mk (recordingMemcache index delFails) o).Get log
          (MemcacheTagKey tag) = (log, GoAny.bytes (some b), none) := by
        simp [MemcacheStore.Get, recordingMemcache, hm]
      simp only [h1]
      rw [recordingMemcache_deleteKeys, ih]
      simp [stringOfBytes]

/-- C21: for `BigcacheStore`, `MemcacheStore` and `RedisClusterStore`, for every
client, client state and option list, `Invalidate` returns a nil error; and the
loop over the indexed keys of a tag calls the client's delete for every key in
order, carrying on from the state each call leaves whatever error it returned.
On the client of `TestBigcacheInvalidateWhenError`, where the first delete
fails, both keys are deleted and the result is nil.  `Invalidate` itself runs
that loop: with the tags `tag :: tags` it looks the index of `tag` up and, when
the lookup succeeds, leaves the state in which the client's delete has been
called for every indexed key in order, each call starting from the state the
previous one left whatever its error, and goes on with `tags` from there; with
no tag it leaves the state as it is; and it depends on its options through the
tag list only.  On a client that records the deletions requested, for every
index, every tag list and every set of keys whose deletion fails, the record
after `Invalidate` is that of the same call when no deletion fails: every
indexed key of every tag reached, in order. -/
theorem store_invalidate_never_fails :
    (∀ (σ : Type) (s : BigcacheStore σ) (st : σ) (options : List InvalidateOption),
      (s.Invalidate st options).2 = none) ∧
    (∀ (σ : Type) (s : MemcacheStore σ) (st : σ) (options : List InvalidateOption),
      (s.Invalidate st options).2 = none) ∧
    (∀ (σ : Type) (s : RedisClusterStore σ) (st : σ) (options : List InvalidateOption),
      (s.Invalidate st options).2 = none) ∧
    (∀ (σ : Type) (s : BigcacheStore σ) (st : σ) (keys : List String),
      s.deleteKeys st keys = keys.foldl (fun st k => (s.Client.Delete st k).1) st) ∧
    (∀ (σ : Type) (s : MemcacheStore σ) (st : σ) (keys : List String),
      s.deleteKeys st keys = keys.foldl (fun st k => (s.Client.Delete st k).1) st) ∧
    (∀ (σ : Type) (s : RedisClusterStore σ) (st : σ) (keys : List String),
      s.deleteKeys st keys = keys.foldl (fun st k => (s.Clusclient.Del st [k]).1) st) ∧
    BigcacheStore.Invalidate
        (NewBigcache
          (recordingBigcache
            (fun key =>
              if key = "gocache_tag_tag1" then some "a23fdf987h2svc23,jHG2372x38hf74" else none)
            (fun key => key == "a23fdf987h2svc23")) [])
        [] [WithInvalidateTags ["tag1"]]
      = (["a23fdf987h2svc23", "jHG2372x38hf74"], none) ∧
    (∀ (σ : Type) (s : BigcacheStore σ) (st : σ) (tag : String) (tags : List String),
      s.Invalidate st [WithInvalidateTags (tag :: tags)]
        = match s.Get st (BigcacheTagKey tag) with
          | (st1, _, some _) => (st1, none)
          | (st1, result, none) =>
            s.Invalidate
              ((match result with
                | GoAny.bytes bytes => strings.Split (stringOfBytes bytes) ','
                | _ => []).foldl (fun st k => (s.Client.Delete st k).1) st1)
              [WithInvalidateTags tags]) ∧
    (∀ (σ : Type) (s : MemcacheStore σ) (st : σ) (tag : String) (tags : List String),
      s.Invalidate st [WithInvalidateTags (tag :: tags)]
        = match s.Get st (MemcacheTagKey tag) with
          | (st1, _, some _) => (st1, none)
          | (st1, result, none) =>
            s.Invalidate
              ((match result with
                | GoAny.bytes bytes => strings.Split (stringOfBytes bytes) ','
                | _ => []).foldl (fun st k => (s.Client.Delete st k).1) st1)
              [WithInvalidateTags tags]) ∧
    (∀ (σ : Type) (s : RedisClusterStore σ) (st : σ) (tag : String) (tags : List String),
      s.Invalidate st [WithInvalidateTags (tag :: tags)]
        = match s.Clusclient.SMembers st (RedisTagKey tag) with
          | (st1, _, some _) => s.Invalidate st1 [WithInvalidateTags tags]
          | (st1, cacheKeys, none) =>
            s.Invalidate
              (s.Clusclient.Del
                (cacheKeys.foldl (fun st k => (s.Clusclient.Del st [k]).1) st1)
                [RedisTagKey tag]).1
              [WithInvalidateTags tags]) ∧
    (∀ (σ : Type) (s : BigcacheStore σ) (st : σ) (options : List InvalidateOption),
      s.Invalidate st [WithInvalidateTags []] = (st, none) ∧
      s.Invalidate st options
        = s.Invalidate st [WithInvalidateTags (applyInvalidateOptions options).Tags]) ∧
    (∀ (σ : Type) (s : MemcacheStore σ) (st : σ) (options : List InvalidateOption),
      s.Invalidate st [WithInvalidateTags []] = (st, none) ∧
      s.Invalidate st options
        = s.Invalidate st [WithInvalidateTags (applyInvalidateOptions options).Tags]) ∧
    (∀ (σ : Type) (s : RedisClusterStore σ) (st : σ) (options : List InvalidateOption),
      s.Invalidate st [WithInvalidateTags []] = (st, none) ∧
      s.Invalidate st options
        = s.Invalidate st [WithInvalidateTags (applyInvalidateOptions options).Tags]) ∧
    (∀ (index : String → Option String) (delFails : String → Bool) (o : Options)
        (tags : List String) (log : List String),
      (BigcacheStore.mk (recordingBigcache index delFails) o).Invalidate log
          [WithInvalidateTags tags]
        = (log ++ expectedIndexDeletes BigcacheTagKey index tags, none) ∧
      (BigcacheStore.mk (recordingBigcache index delFails) o).Invalidate log
          [WithInvalidateTags tags]
        = (BigcacheStore.mk (recordingBigcache index (fun _ => false)) o).Invalidate log
            [WithInvalidateTags tags]) ∧
    (∀ (index : String → Option String) (delFails : String → Bool) (o : Options)
        (tags : List String) (log : List String),
      (MemcacheStore.mk (recordingMemcache index delFails) o).Invalidate log
          [WithInvalidateTags tags]
        = (log ++ expectedIndexDeletes MemcacheTagKey index tags, none) ∧
      (MemcacheStore.mk (recordingMemcache index delFails) o).Invalidate log
          [WithInvalidateTags tags]
        = (MemcacheStore.mk (recordingMemcache index (fun _ => false)) o).Invalidate log
            [WithInvalidateTags tags]) ∧
    (∀ (members : String → Option (List String)) (delFails : String → Bool) (o : Options)
        (tags : List String) (log : List String),
      (RedisClusterStore.mk (recordingRedis members delFails) o).Invalidate log
          [WithInvalidateTags tags]
        = (log ++ expectedRedisDeletes members tags, none) ∧
      (RedisClusterStore.mk (recordingRedis members delFails) o).Invalidate log
          [WithInvalidateTags tags]
        = (RedisClusterStore.mk (recordingRedis members (fun _ => false)) o).Invalidate log
            [WithInvalidateTags tags]) := by
  refine ⟨?_, ?_, ?_, ?_, ?_, ?_, ?_, ?_, ?_, ?_, ?_, ?_, ?_, ?_, ?_, ?_⟩
  · intro σ s st options
    simp only [BigcacheStore.Invalidate]
    split
    · exact BigcacheStore.bigcache_invalidateTags_nil_error s _ st
    · rfl
  · intro σ s st options
    simp only [MemcacheStore.Invalidate]
    split
    · exact MemcacheStore.memcache_invalidateTags_nil_error s _ st
    · rfl
  · intro σ s st options
    simp only [RedisClusterStore.Invalidate]
    split <;> rfl
  · intro σ s st keys
    exact BigcacheStore.bigcache_deleteKeys_eq_foldl s keys st
  · intro σ s st keys
    exact MemcacheStore.memcache_deleteKeys_eq_foldl s keys st
  · intro σ s st keys
    exact RedisClusterStore.rediscluster_deleteKeys_eq_foldl s keys st
  · decide
  · intro σ s st tag tags
    exact BigcacheStore.bigcache_Invalidate_cons s st tag tags
  · intro σ s st tag tags
    exact MemcacheStore.memcache_Invalidate_cons s st tag tags
  · intro σ s st tag tags
    exact RedisClusterStore.rediscluster_Invalidate_cons s st tag tags
  · intro σ s st options
    exact ⟨rfl, by simp [BigcacheStore.Invalidate, applyInvalidateOptions, WithInvalidateTags]⟩
  · intro σ s st options
    exact ⟨rfl, by simp [MemcacheStore.Invalidate, applyInvalidateOptions, WithInvalidateTags]⟩
  · intro σ s st options
    exact ⟨rfl, by
      simp [RedisClusterStore.Invalidate, applyInvalidateOptions, WithInvalidateTags]⟩
  · intro index delFails o tags log
    simp only [BigcacheStore.bigcache_Invalidate_tags, recordingBigcache_invalidateTags,
      and_self]
  · intro index delFails o tags log
    simp only [MemcacheStore.memcache_Invalidate_tags, recordingMemcache_invalidateTags,
      and_self]
  · intro members delFails o tags log
    simp only [RedisClusterStore.rediscluster_Invalidate_tags, recordingRedis_invalidateTags,
      and_self]

/-- C22: for `RedisClusterStore`, the loop of `Invalidate` over the tags skips
a tag whose member lookup fails and goes on with the next tags, and for a tag
whose members can be read it deletes every member, then the tag's index key,
then goes on; on a client that records the deletions requested, the record
after `Invalidate` is, for every tag list, the members of each readable tag
followed by its index key, tag after tag, whether or not deletions fail. -/
theorem rediscluster_invalidate_deletes_members_then_index :
    (∀ (σ : Type) (s : RedisClusterStore σ) (st : σ) (tag : String) (tags : List String),
      s.invalidateTags st (tag :: tags)
        = match s.Clusclient.SMembers st (RedisTagKey tag) with
          | (st1, _, some _) => s.invalidateTags st1 tags
          | (st1, cacheKeys, none) =>
            s.invalidateTags
              (s.Clusclient.Del
                (cacheKeys.foldl (fun st k => (s.Clusclient.Del st [k]).1) st1)
                [RedisTagKey tag]).1 tags) ∧
    (∀ (members : String → Option (List String)) (delFails : String → Bool) (o : Options)
        (tags : List String) (log : List String),
      (RedisClusterStore.mk (recordingRedis members delFails) o).Invalidate log
          [WithInvalidateTags tags]
        = (log ++ expectedRedisDeletes members tags, none)) := by
  constructor
  · intro σ s st tag tags
    simp only [RedisClusterStore.invalidateTags, RedisClusterStore.rediscluster_deleteKeys_eq_foldl,
      RedisClusterStore.Delete]
  · intro members delFails o tags log
    simp only [RedisClusterStore.Invalidate, applyInvalidateOptions, WithInvalidateTags,
      List.foldl]
    split
    · rw [recordingRedis_invalidateTags]
    · rename_i h
      have : tags = [] := by
        cases tags with
        | nil => rfl
        | cons t ts => simp at h
      subst this
      simp [expectedRedisDeletes]

/-! ## The tag index of the Memcache store -/

theorem MemcacheStore.addKeyToTagValue_miss {σ : Type} (s : MemcacheStore σ) (st st1 : σ)
    (tagKey key : String) (e : GoError) (h : s.Client.Get st tagKey = (st1, none, some e))
    (he : errorsIs e ErrCacheMiss = true) :
    s.addKeyToTagValue st tagKey key
      = some (s.Client.Add st1
          { Key := tagKey, Value := some key, Flags := 0, Expiration := 2592000, casid := 0 }) := by
  simp [MemcacheStore.addKeyToTagValue, h, he, TagKeyExpiry_seconds, bytesOfString,
    strings.Join, joinChars]

theorem MemcacheStore.addKeyToTagValue_unlisted {σ : Type} (s : MemcacheStore σ) (st st1 : σ)
    (tagKey key : String) (item : MemcacheItem)
    (h : s.Client.Get st tagKey = (st1, some item, none))
    (hk : key ∉ strings.Split (stringOfBytes item.Value) ',') :
    s.addKeyToTagValue st tagKey key
      = some (s.Client.CompareAndSwap st1
          { item with
            Value := some (strings.Join (strings.Split (stringOfBytes item.Value) ',' ++ [key]) ','),
            Expiration := 2592000 }) := by
  simp [MemcacheStore.addKeyToTagValue, h, hk, TagKeyExpiry_seconds, bytesOfString]

theorem MemcacheStore.addKeyToTagValue_listed {σ : Type} (s : MemcacheStore σ) (st st1 : σ)
    (tagKey key : String) (item : MemcacheItem)
    (h : s.Client.Get st tagKey = (st1, some item, none))
    (hk : key ∈ strings.Split (stringOfBytes item.Value) ',') :
    s.addKeyToTagValue st tagKey key = some (st1, none) := by
  simp [MemcacheStore.addKeyToTagValue, h, hk]

theorem MemcacheStore.addKeyRetry_three {σ : Type} (s : MemcacheStore σ) (st : σ)
    (tagKey key : String) :
    s.addKeyRetry tagKey key 3 st none
      = (match s.addKeyToTagValue st tagKey key with
         | none => none
         | some (s1, none) => some (s1, none)
         | some (s1, some _) =>
           match s.addKeyToTagValue s1 tagKey key with
           | none => none
           | some (s2, none) => some (s2, none)
           | some (s2, some _) =>
             match s.addKeyToTagValue s2 tagKey key with
             | none => none
             | some (s3, err) => some (s3, err)) := by
  simp only [MemcacheStore.addKeyRetry]
  rcases h1 : s.addKeyToTagValue st tagKey key with _ | ⟨s1, _ | e1⟩
  · rfl
  · rfl
  · simp only
    rcases h2 : s.addKeyToTagValue s1 tagKey key with _ | ⟨s2, _ | e2⟩
    · rfl
    · rfl
    · simp only
      rcases h3 : s.addKeyToTagValue s2 tagKey key with _ | ⟨s3, _ | e3⟩ <;> rfl

theorem tagWriteMemcache_failed_attempt (log : List (String × MemcacheItem)) :
    MemcacheStore.addKeyToTagValue (NewMemcache (tagWriteMemcache sampleIndex true) []) log
        "gocache_tag_tag2" "my-key"
      = some (log ++ [("Add", { Key := "gocache_tag_tag2", Value := some "my-key", Flags := 0,
                                Expiration := 2592000, casid := 0 })],
          some (GoError.New "memcache: item not stored")) := by
  rw [MemcacheStore.addKeyToTagValue_miss _ log log "gocache_tag_tag2" "my-key" ErrCacheMiss rfl
    (by decide)]
  rfl

theorem tagWriteMemcache_three_failed_attempts :
    MemcacheStore.Set (NewMemcache (tagWriteMemcache sampleIndex true) []) []
        "my-key" (GoAny.bytes (some "my-cache-value")) [WithTags ["tag2"]]
      = some ([("Add", { Key := "gocache_tag_tag2", Value := some "my-key", Flags := 0,
                         Expiration := 2592000, casid := 0 }),
               ("Add", { Key := "gocache_tag_tag2", Value := some "my-key", Flags := 0,
                         Expiration := 2592000, casid := 0 }),
               ("Add", { Key := "gocache_tag_tag2", Value := some "my-key", Flags := 0,
                         Expiration := 2592000, casid := 0 })], none) := by
  have hset : ∀ item, (NewMemcache (tagWriteMemcache sampleIndex true) []).Client.Set [] item
      = ([], none) := fun _ => rfl
  have htags : (ApplyOptionsWithDefault (NewMemcache (tagWriteMemcache sampleIndex true) []).Options
      [WithTags ["tag2"]]).Tags = ["tag2"] := rfl
  have hkey : MemcacheTagKey "tag2" = "gocache_tag_tag2" := by decide
  simp only [MemcacheStore.Set, hset, htags, MemcacheStore.setTags, hkey,
    MemcacheStore.addKeyRetry_three, tagWriteMemcache_failed_attempt]
  simp

/-- C23 (claim as stated fails): on the client of
`TestMemcacheSetWithTagsWhenAlreadyInserted`, whose index for `tag1` already
lists `my-key`, `Set("my-key", value, WithTags(["tag1"]))` returns nil and the
client has received no index write at all (neither `Add` nor
`CompareAndSwap`): the expiration of the index entry is not refreshed. -/
theorem memcache_listed_key_does_not_refresh_index :
    MemcacheStore.Set (NewMemcache (tagWriteMemcache sampleIndex false) []) []
        "my-key" (GoAny.bytes (some "my-cache-value")) [WithTags ["tag1"]]
      = some ([], none) := by
  decide

/-- C23 (amended): in `MemcacheStore`, an attempt to add a key to a tag's index
that finds the key not yet listed writes the index entry with an expiration of
2,592,000 seconds (720 hours): with `Add` when the lookup reports a cache miss
with no item, with `CompareAndSwap` on the item read otherwise; an attempt that
finds the key already listed returns nil without writing the entry. -/
theorem memcache_index_write_expiration (σ : Type) (s : MemcacheStore σ) (st st1 : σ)
    (tagKey key : String) (item : MemcacheItem) (e : GoError) :
    (s.Client.Get st tagKey = (st1, none, some e) → errorsIs e ErrCacheMiss = true →
      s.addKeyToTagValue st tagKey key
        = some (s.Client.Add st1
            { Key := tagKey, Value := some key, Flags := 0, Expiration := 2592000,
              casid := 0 })) ∧
    (s.Client.Get st tagKey = (st1, some item, none) →
      key ∉ strings.Split (stringOfBytes item.Value) ',' →
      s.addKeyToTagValue st tagKey key
        = some (s.Client.CompareAndSwap st1
            { item with
              Value := some (strings.Join (strings.Split (stringOfBytes item.Value) ',' ++ [key]) ','),
              Expiration := 2592000 })) ∧
    (s.Client.Get st tagKey = (st1, some item, none) →
      key ∈ strings.Split (stringOfBytes item.Value) ',' →
      s.addKeyToTagValue st tagKey key = some (st1, none)) :=
  ⟨MemcacheStore.addKeyToTagValue_miss s st st1 tagKey key e,
    MemcacheStore.addKeyToTagValue_unlisted s st st1 tagKey key item,
    MemcacheStore.addKeyToTagValue_listed s st st1 tagKey key item⟩

theorem memcache_index_write_expiration_witness :
    MemcacheStore.addKeyToTagValue (NewMemcache (tagWriteMemcache sampleIndex false) []) []
        "gocache_tag_tag2" "my-key"
      = some ([("Add", { Key := "gocache_tag_tag2", Value := some "my-key", Flags := 0,
                         Expiration := 2592000, casid := 0 })], none) ∧
    MemcacheStore.addKeyToTagValue (NewMemcache (tagWriteMemcache sampleIndex false) []) []
        "gocache_tag_tag1" "a-third-key"
      = some ([("CompareAndSwap",
                { Key := "gocache_tag_tag1", Value := some "my-key,a-second-key,a-third-key",
                  Flags := 0, Expiration := 2592000, casid := 1 })], none) ∧
    MemcacheStore.addKeyToTagValue (NewMemcache (tagWriteMemcache sampleIndex false) []) []
        "gocache_tag_tag1" "my-key"
      = some ([], none) :=
  ⟨(memcache_index_write_expiration _ (NewMemcache (tagWriteMemcache sampleIndex false) [])
      [] [] "gocache_tag_tag2" "my-key" ⟨"", none, 0, 0, 0⟩ ErrCacheMiss).1 rfl (by decide),
    ((memcache_index_write_expiration _ (NewMemcache (tagWriteMemcache sampleIndex false) [])
      [] [] "gocache_tag_tag1" "a-third-key"
      ⟨"gocache_tag_tag1", some "my-key,a-second-key", 0, 0, 1⟩ ErrCacheMiss).2.1 rfl
        (by decide)).trans (by decide),
    (memcache_index_write_expiration _ (NewMemcache (tagWriteMemcache sampleIndex false) [])
      [] [] "gocache_tag_tag1" "my-key"
      ⟨"gocache_tag_tag1", some "my-key,a-second-key", 0, 0, 1⟩ ErrCacheMiss).2.2 rfl
        (by decide)⟩

theorem MemcacheStore.addKeyToTagValue_returns {σ : Type} (s : MemcacheStore σ)
    (hget : ∀ st k, (s.Client.Get st k).2 ≠ (none, none)) (st : σ) (tagKey key : String) :
    ∃ r, s.addKeyToTagValue st tagKey key = some r := by
  unfold MemcacheStore.addKeyToTagValue
  have h := hget st tagKey
  rcases hc : s.Client.Get st tagKey with ⟨st1, _ | item, _ | e⟩
  · rw [hc] at h
    exact absurd rfl h
  · cases he : errorsIs e ErrCacheMiss
    · exact ⟨_, by simp [he]; rfl⟩
    · simp [he]
  · simp only
    split <;> exact ⟨_, rfl⟩
  · cases he : errorsIs e ErrCacheMiss
    · exact ⟨_, by simp [he]; rfl⟩
    · simp [he]

theorem MemcacheStore.addKeyRetry_returns {σ : Type} (s : MemcacheStore σ)
    (hget : ∀ st k, (s.Client.Get st k).2 ≠ (none, none)) (tagKey key : String) :
    ∀ (n : Nat) (st : σ) (err : Option GoError), ∃ r, s.addKeyRetry tagKey key n st err = some r := by
  intro n
  induction n with
  | zero => intro st err; exact ⟨_, rfl⟩
  | succ n ih =>
    intro st err
    obtain ⟨⟨st1, e⟩, hr⟩ := MemcacheStore.addKeyToTagValue_returns s hget st tagKey key
    simp only [MemcacheStore.addKeyRetry, hr]
    cases e with
    | none => exact ⟨_, rfl⟩
    | some e => exact ih st1 (some e)

theorem MemcacheStore.setTags_returns {σ : Type} (s : MemcacheStore σ)
    (hget : ∀ st k, (s.Client.Get st k).2 ≠ (none, none)) (key : String) :
    ∀ (tags : List String) (st : σ), ∃ st2, s.setTags st key tags = some st2 := by
  intro tags
  induction tags with
  | nil => intro st; exact ⟨_, rfl⟩
  | cons tag tags ih =>
    intro st
    obtain ⟨⟨st1, e⟩, hr⟩ := MemcacheStore.addKeyRetry_returns s hget (MemcacheTagKey tag) key 3 st none
    simp only [MemcacheStore.setTags, hr]
    exact ih st1

theorem MemcacheStore.Set_returns_nil {σ : Type} (s : MemcacheStore σ)
    (hget : ∀ st k, (s.Client.Get st k).2 ≠ (none, none)) (st : σ) (key : String)
    (v : ByteSlice) (options : List StoreOption)
    (hset : (s.Client.Set st (MemcacheStore.newItem
      (ApplyOptionsWithDefault s.Options options) key v)).2 = none) :
    ∃ st2, s.Set st key (GoAny.bytes v) options = some (st2, none) := by
  unfold MemcacheStore.Set
  simp only
  rcases hc : s.Client.Set st (MemcacheStore.newItem
      (ApplyOptionsWithDefault s.Options options) key v) with ⟨c1, ce⟩
  rw [hc] at hset
  simp only at hset
  subst hset
  simp only
  split
  · obtain ⟨st2, h2⟩ := MemcacheStore.setTags_returns s hget key
      (ApplyOptionsWithDefault s.Options options).Tags c1
    rw [h2]
    exact ⟨_, rfl⟩
  · exact ⟨_, rfl⟩

theorem tagWriteMemcache_attempt (index : String → Option String) (writeFails : Bool)
    (o : Options) (tagKey key : String) (log : List (String × MemcacheItem)) :
    (MemcacheStore.mk (tagWriteMemcache index writeFails) o).addKeyToTagValue log tagKey key
      = match index tagKey with
        | none =>
          some (log ++ [("Add", { Key := tagKey, Value := some key, Flags := 0,
                                  Expiration := 2592000, casid := 0 })],
            if writeFails then some (GoError.New "memcache: item not stored") else none)
        | some b =>
          if key ∈ strings.Split b ',' then some (log, none)
          else
            some (log ++ [("CompareAndSwap",
                { Key := tagKey, Value := some (strings.Join (strings.Split b ',' ++ [key]) ','),
                  Flags := 0, Expiration := 2592000, casid := 1 })],
              if writeFails then some (GoError.New "memcache: compare-and-swap conflict")
              else none) := by
  cases hm : index tagKey with
  | none =>
    have hget : (MemcacheStore.mk (tagWriteMemcache index writeFails) o).Client.Get log tagKey
        = (log, none, some ErrCacheMiss) := by
      simp [tagWriteMemcache, hm]
    rw [MemcacheStore.addKeyToTagValue_miss _ log log tagKey key ErrCacheMiss hget (by decide)]
    rfl
  | some b =>
    have hget : (MemcacheStore.mk (tagWriteMemcache index writeFails) o).Client.Get log tagKey
        = (log, some { Key := tagKey, Value := some b, Flags := 0, Expiration := 0, casid := 1 },
            none) := by
      simp [tagWriteMemcache, hm]
    by_cases hk : key ∈ strings.Split b ','
    · rw [MemcacheStore.addKeyToTagValue_listed _ log log tagKey key _ hget
        (by simpa [stringOfBytes] using hk)]
      simp [hk]
    · rw [MemcacheStore.addKeyToTagValue_unlisted _ log log tagKey key _ hget
        (by simpa [stringOfBytes] using hk)]
      simp only [hk, if_false]
      rfl

theorem tagWriteMemcache_retry (index : String → Option String) (writeFails : Bool)
    (o : Options) (key tag : String) (log : List (String × MemcacheItem)) :
    ∃ err, (MemcacheStore.mk (tagWriteMemcache index writeFails) o).addKeyRetry
        (MemcacheTagKey tag) key 3 log none
      = some (log ++ expectedIndexWrites index writeFails key [tag], err) := by
  rw [MemcacheStore.addKeyRetry_three]
  simp only [tagWriteMemcache_attempt, expectedIndexWrites, List.append_nil]
  cases hm : index (MemcacheTagKey tag) with
  | none =>
    cases writeFails <;> simp [List.replicate]
  | some b =>
    by_cases hk : key ∈ strings.Split b ','
    · simp [hk]
    · cases writeFails <;> simp [hk, List.replicate]

theorem expectedIndexWrites_cons (index : String → Option String) (writeFails : Bool)
    (key tag : String) (tags : List String) :
    expectedIndexWrites index writeFails key (tag :: tags)
      = expectedIndexWrites index writeFails key [tag]
          ++ expectedIndexWrites index writeFails key tags := by
  simp [expectedIndexWrites]

theorem tagWriteMemcache_setTags (index : String → Option String) (writeFails : Bool)
    (o : Options) (key : String) (tags : List String) :
    ∀ log : List (String × MemcacheItem),
      (MemcacheStore.mk (tagWriteMemcache index writeFails) o).setTags log key tags
        = some (log ++ expectedIndexWrites index writeFails key tags) := by
  induction tags with
  | nil => intro log; simp [MemcacheStore.setTags, expectedIndexWrites]
  | cons tag tags ih =>
    intro log
    obtain ⟨err, h⟩ := tagWriteMemcache_retry index writeFails o key tag log
    simp only [MemcacheStore.setTags, h]
    rw [ih, expectedIndexWrites_cons index writeFails key tag tags, List.append_assoc]

theorem tagWriteMemcache_Set (index : String → Option String) (writeFails : Bool)
    (o : Options) (key : String) (v : ByteSlice) (options : List StoreOption)
    (log : List (String × MemcacheItem)) :
    (MemcacheStore.mk (tagWriteMemcache index writeFails) o).Set log key (GoAny.bytes v) options
      = some (log ++ expectedIndexWrites index writeFails key
          (ApplyOptionsWithDefault o options).Tags, none) := by
  have hset : ∀ item, (tagWriteMemcache index writeFails).Set log item = (log, none) :=
    fun _ => rfl
  simp only [MemcacheStore.Set, hset, tagWriteMemcache_setTags]
  split
  · rfl
  · rename_i h
    have : (ApplyOptionsWithDefault o options).Tags = [] := by
      cases hT : (ApplyOptionsWithDefault o options).Tags with
      | nil => rfl
      | cons t ts => rw [hT] at h; simp at h
    rw [this]
    simp [expectedIndexWrites]

/-- C24: for every tag of a `MemcacheStore.Set`, the retry loop runs
`addKeyToTagValue` once, a second time only if the first attempt failed, a
third time only if the first two failed, and never a fourth time; an attempt
that finds no index (cache miss, no item) issues `Add` for the tag key with the
key as value, one that finds an index not listing the key issues
`CompareAndSwap` on the item read, with the key appended; and whenever the
client's `Set` of the entry succeeds, `Set` returns, with a nil error, whatever
the attempts returned (on a client that never answers a lookup with neither an
item nor an error; on any other client `Set` panics or returns nil).  `Set`
runs `setTags` on the tags of its merged options once the entry is written, and
`setTags` runs that retry loop for every tag of the list, in order, each from
the state the previous tag left and whatever the previous tag's outcome.  On a
client that records the index writes, and whose index writes all succeed or all
fail, for every index, key, value and option list the record after `Set` is, for
each tag of the merged options in order: nothing when the index lists the key,
otherwise one write when the writes succeed and three when they fail, an `Add`
for a missing index and a `CompareAndSwap` for an existing one; and `Set`
returns nil. -/
theorem memcache_set_tags_bounded_retry (σ : Type) (s : MemcacheStore σ) (st st1 : σ)
    (tagKey key : String) (item : MemcacheItem) (e : GoError) (v : ByteSlice)
    (options : List StoreOption) :
    s.addKeyRetry tagKey key 3 st none
      = (match s.addKeyToTagValue st tagKey key with
         | none => none
         | some (s1, none) => some (s1, none)
         | some (s1, some _) =>
           match s.addKeyToTagValue s1 tagKey key with
           | none => none
           | some (s2, none) => some (s2, none)
           | some (s2, some _) =>
             match s.addKeyToTagValue s2 tagKey key with
             | none => none
             | some (s3, err) => some (s3, err)) ∧
    (s.Client.Get st tagKey = (st1, none, some e) → errorsIs e ErrCacheMiss = true →
      ∃ added, s.addKeyToTagValue st tagKey key = some (s.Client.Add st1 added) ∧
        added.Key = tagKey ∧ added.Value = some key) ∧
    (s.Client.Get st tagKey = (st1, some item, none) →
      key ∉ strings.Split (stringOfBytes item.Value) ',' →
      ∃ swapped, s.addKeyToTagValue st tagKey key = some (s.Client.CompareAndSwap st1 swapped) ∧
        swapped.Key = item.Key ∧ swapped.casid = item.casid ∧
        swapped.Value
          = some (strings.Join (strings.Split (stringOfBytes item.Value) ',' ++ [key]) ',')) ∧
    ((∀ st k, (s.Client.Get st k).2 ≠ (none, none)) →
      (s.Client.Set st (MemcacheStore.newItem
          (ApplyOptionsWithDefault s.Options options) key v)).2 = none →
      ∃ st2, s.Set st key (GoAny.bytes v) options = some (st2, none)) ∧
    (∀ r, (s.Client.Set st (MemcacheStore.newItem
          (ApplyOptionsWithDefault s.Options options) key v)).2 = none →
      s.Set st key (GoAny.bytes v) options = some r → r.2 = none) ∧
    s.Set st key (GoAny.bytes v) options
      = (match s.Client.Set st
            (MemcacheStore.newItem (ApplyOptionsWithDefault s.Options options) key v) with
         | (st1, some err) => some (st1, some err)
         | (st1, none) =>
           if (ApplyOptionsWithDefault s.Options options).Tags.length > 0 then
             match s.setTags st1 key (ApplyOptionsWithDefault s.Options options).Tags with
             | none => none
             | some st2 => some (st2, none)
           else some (st1, none)) ∧
    (∀ (st0 : σ) (tag : String) (tags : List String),
      s.setTags st0 key [] = some st0 ∧
      s.setTags st0 key (tag :: tags)
        = match s.addKeyRetry (MemcacheTagKey tag) key 3 st0 none with
          | none => none
          | some (st1, _) => s.setTags st1 key tags) ∧
    (∀ (index : String → Option String) (writeFails : Bool) (o : gocache.Options)
        (log : List (String × MemcacheItem)),
      (MemcacheStore.mk (tagWriteMemcache index writeFails) o).Set log key (GoAny.bytes v) options
        = some (log ++ expectedIndexWrites index writeFails key
            (ApplyOptionsWithDefault o options).Tags, none)) := by
  refine ⟨MemcacheStore.addKeyRetry_three s st tagKey key, ?_, ?_, ?_, ?_, rfl,
    fun _ _ _ => ⟨rfl, rfl⟩,
    fun index writeFails o log => tagWriteMemcache_Set index writeFails o key v options log⟩
  · intro h he
    exact ⟨_, MemcacheStore.addKeyToTagValue_miss s st st1 tagKey key e h he, rfl, rfl⟩
  · intro h hk
    exact ⟨_, MemcacheStore.addKeyToTagValue_unlisted s st st1 tagKey key item h hk,
      rfl, rfl, rfl⟩
  · intro hget hset
    exact MemcacheStore.Set_returns_nil s hget st key v options hset
  · intro r hset hr
    unfold MemcacheStore.Set at hr
    simp only at hr
    rcases hc : s.Client.Set st (MemcacheStore.newItem
        (ApplyOptionsWithDefault s.Options options) key v) with ⟨c1, ce⟩
    rw [hc] at hset hr
    simp only at hset
    subst hset
    simp only at hr
    split at hr
    · split at hr
      · cases hr
      · simp only [Option.some.injEq] at hr
        subst hr
        rfl
    · simp only [Option.some.injEq] at hr
      subst hr
      rfl

theorem memcache_set_tags_bounded_retry_witness :
    (∃ added, MemcacheStore.addKeyToTagValue
          (NewMemcache (tagWriteMemcache sampleIndex true) []) [] "gocache_tag_tag2" "my-key"
        = some ((tagWriteMemcache sampleIndex true).Add [] added) ∧
      added.Key = "gocache_tag_tag2" ∧ added.Value = some "my-key") ∧
    MemcacheStore.Set (NewMemcache (tagWriteMemcache sampleIndex true) []) []
        "my-key" (GoAny.bytes (some "my-cache-value")) [WithTags ["tag2"]]
      = some ([("Add", { Key := "gocache_tag_tag2", Value := some "my-key", Flags := 0,
                         Expiration := 2592000, casid := 0 }),
               ("Add", { Key := "gocache_tag_tag2", Value := some "my-key", Flags := 0,
                         Expiration := 2592000, casid := 0 }),
               ("Add", { Key := "gocache_tag_tag2", Value := some "my-key", Flags := 0,
                         Expiration := 2592000, casid := 0 })], none) ∧
    (∃ st2, MemcacheStore.Set (NewMemcache (tagWriteMemcache sampleIndex true) []) []
        "my-key" (GoAny.bytes (some "my-cache-value")) [WithTags ["tag2"]]
      = some (st2, none)) ∧
    MemcacheStore.Set (MemcacheStore.mk (tagWriteMemcache sampleIndex false) ⟨0, 0, []⟩) []
        "a-third-key" (GoAny.bytes (some "my-cache-value")) [WithTags ["tag2", "tag1"]]
      = some ([("Add", { Key := "gocache_tag_tag2", Value := some "a-third-key", Flags := 0,
                         Expiration := 2592000, casid := 0 }),
               ("CompareAndSwap",
                 { Key := "gocache_tag_tag1", Value := some "my-key,a-second-key,a-third-key",
                   Flags := 0, Expiration := 2592000, casid := 1 })], none) :=
  ⟨(memcache_set_tags_bounded_retry _ (NewMemcache (tagWriteMemcache sampleIndex true) [])
      [] [] "gocache_tag_tag2" "my-key" ⟨"", none, 0, 0, 0⟩ ErrCacheMiss none []).2.1 rfl
      (by decide),
    tagWriteMemcache_three_failed_attempts,
    (memcache_set_tags_bounded_retry _
      (NewMemcache (tagWriteMemcache sampleIndex true) [])
      [] [] "gocache_tag_tag2" "my-key" ⟨"", none, 0, 0, 0⟩ ErrCacheMiss
      (some "my-cache-value") [WithTags ["tag2"]]).2.2.2.1
      (fun st k => by
        simp only [NewMemcache, tagWriteMemcache]
        split <;> simp)
      rfl,
    ((memcache_set_tags_bounded_retry _
      (NewMemcache (tagWriteMemcache sampleIndex true) [])
      [] [] "gocache_tag_tag2" "a-third-key" ⟨"", none, 0, 0, 0⟩ ErrCacheMiss
      (some "my-cache-value") [WithTags ["tag2", "tag1"]]).2.2.2.2.2.2.2
      sampleIndex false ⟨0, 0, []⟩ []).trans (by decide)⟩

/-! ## Per-tag invalidation and termination of `Set` in the Bigcache store -/

/-- C25 (the code at the failing input): on the store of the tests over the
map client, in a state where the tag `a` has no index entry, the tag `b` lists
the key `k` and `k` holds a value, `Invalidate(WithInvalidateTags(["a",
"b"]))` returns nil and leaves `k` in place, although the index entry of `b`
can be read: the failed lookup of `a` ends the call.  With the tags in the
other order `k` is deleted. -/
theorem bigcache_invalidate_stops_at_first_missing_tag :
    (defaultStore.Get twoTagMap "gocache_tag_b").2 = (GoAny.bytes (some "k"), none) ∧
    (defaultStore.Invalidate twoTagMap [WithInvalidateTags ["a", "b"]]).2 = none ∧
    (defaultStore.Invalidate twoTagMap [WithInvalidateTags ["a", "b"]]).1 "k" = some "v" ∧
    (defaultStore.Invalidate twoTagMap [WithInvalidateTags ["b", "a"]]).1 "k" = none := by
  decide

theorem BigcacheStore.Set_never_returns {σ : Type} (s : BigcacheStore σ)
    (hset : ∀ st k v, (s.Client.Set st k v).2 = none) (hd : s.Options.Tags ≠ []) :
    ∀ (fuel : Nat) (st : σ) (key : String) (b : ByteSlice) (options : List StoreOption),
      (ApplyOptionsWithDefault s.Options options).Tags ≠ [] →
      s.Set fuel st key (GoAny.bytes b) options = none := by
  intro fuel
  induction fuel with
  | zero => intro st key b options _; rfl
  | succ fuel ih =>
    intro st key b options htags
    have hrec : ∀ st key b, s.Set fuel st key (GoAny.bytes b) [WithExpiration (720 * Hour)]
        = none := fun st key b => ih st key b _ hd
    rw [BigcacheStore.Set]
    rcases hc : s.Client.Set st key b with ⟨st1, e⟩
    have he : e = none := by
      have := hset st key b
      rw [hc] at this
      exact this
    subst he
    cases hT : (ApplyOptionsWithDefault s.Options options).Tags with
    | nil => exact absurd hT htags
    | cons t ts =>
      simp [BigcacheStore.setTagsWith, BigcacheStore.setTag, hrec]

/-- C26 (the code at the failing input): on the store built by
`NewBigcache(client, WithTags([]string{"a"}))` over the map client,
`Set("k", []byte("v"))` returns at no call depth: `Set` calls `setTags`, which
writes the index entry through `Set`, which applies the default tags again and
calls `setTags` again, without end.  On the store without default tags the
same call with the tag given as an option returns at depth two, with the entry
and the index entry written. -/
theorem bigcache_set_with_default_tags_never_returns :
    (∀ fuel : Nat, taggedStore.Set fuel emptyMap "k" (GoAny.bytes (some "v")) [] = none) ∧
    (∃ st, defaultStore.Set 2 emptyMap "k" (GoAny.bytes (some "v")) [WithTags ["a"]]
        = some (st, none) ∧ st "k" = some "v" ∧ st "gocache_tag_a" = some "k") :=
  ⟨fun fuel => BigcacheStore.Set_never_returns taggedStore (fun _ _ _ => rfl) (by decide) fuel
      emptyMap "k" (some "v") [] (by decide),
    ⟨_, rfl, by decide, by decide⟩⟩

/-! ## Keys of different kinds -/

/-- C27: `GetCacheKey` gives the string key `Checksum(273273623)` and the
integer key `273273623` the same cache key, `a187c153af38575778244cb3796536da`,
although the two keys differ; more generally a hashed key and the string that
is its checksum always get the same cache key, because a string key is used
verbatim. -/
theorem getCacheKey_string_collides_with_hashed_key :
    GoAny.string (Checksum (GoAny.int 273273623)) ≠ GoAny.int 273273623 ∧
    GetCacheKey (GoAny.string (Checksum (GoAny.int 273273623)))
      = GetCacheKey (GoAny.int 273273623) ∧
    GetCacheKey (GoAny.int 273273623) = "a187c153af38575778244cb3796536da" ∧
    (∃ (s : String) (k : GoAny), k.isString = false ∧
      GetCacheKey (GoAny.string s) = GetCacheKey k) ∧
    ∀ s : String, GetCacheKey (GoAny.string s) = s := by
  refine ⟨?_, rfl, ?_, ?_, fun _ => rfl⟩
  · intro h
    cases h
  · decide!
  · exact ⟨Checksum (GoAny.int 273273623), GoAny.int 273273623, rfl, rfl⟩

/-! ## The defaults behind the pointer -/

theorem OptionsHeap.write_same (h : OptionsHeap) (p : Nat) (o : Options) :
    (h.write p o) p = o := by
  simp [OptionsHeap.write]

theorem OptionsHeap.write_other (h : OptionsHeap) (p q : Nat) (o : Options) (hq : q ≠ p) :
    (h.write p o) q = h q := by
  simp [OptionsHeap.write, hq]

theorem pointerOptions_foldl (fresh : Nat) (overrides : List Override) :
    ∀ h : OptionsHeap,
      (∀ q, q ≠ fresh →
        ((overrides.map Override.toPointerOption).foldl (fun heap opt => opt heap fresh) h) q
          = h q) ∧
      ((overrides.map Override.toPointerOption).foldl (fun heap opt => opt heap fresh) h) fresh
        = ApplyOptionsWithDefault (h fresh) (overrides.map Override.toOption) := by
  induction overrides with
  | nil => intro h; exact ⟨fun _ _ => rfl, rfl⟩
  | cons o os ih =>
    intro h
    simp only [List.map_cons, List.foldl_cons]
    obtain ⟨i1, i2⟩ := ih (o.toPointerOption h fresh)
    constructor
    · intro q hq
      rw [i1 q hq]
      cases o <;>
        simp [Override.toPointerOption, WithCostPtr, WithExpirationPtr, WithTagsPtr,
          OptionsHeap.write, hq]
    · rw [i2]
      cases o <;>
        simp [Override.toPointerOption, WithCostPtr, WithExpirationPtr, WithTagsPtr,
          OptionsHeap.write, Override.toOption, WithCost, WithExpiration, WithTags,
          ApplyOptionsWithDefault]

/-- C29: `ApplyOptionsWithDefault`, run on pointers, leaves the struct behind
`defaultOptions` unchanged: for every memory, every default pointer, every
freshly allocated result pointer and every list of overrides built from
`WithCost`, `WithExpiration` and `WithTags`, after the call the struct at the
default pointer (and at every address other than the result) is the one before
the call, and the struct behind the returned pointer is the value the
functional `ApplyOptionsWithDefault` computes from the default. -/
theorem applyOptionsWithDefault_preserves_default (h : OptionsHeap) (fresh defaultOptions : Nat)
    (overrides : List Override) (hfresh : fresh ≠ defaultOptions) :
    (ApplyOptionsWithDefaultPtr h fresh defaultOptions
        (overrides.map Override.toPointerOption)).1 defaultOptions = h defaultOptions ∧
    (∀ q, q ≠ fresh →
      (ApplyOptionsWithDefaultPtr h fresh defaultOptions
        (overrides.map Override.toPointerOption)).1 q = h q) ∧
    (ApplyOptionsWithDefaultPtr h fresh defaultOptions
        (overrides.map Override.toPointerOption)).2 = fresh ∧
    (ApplyOptionsWithDefaultPtr h fresh defaultOptions
        (overrides.map Override.toPointerOption)).1 fresh
      = ApplyOptionsWithDefault (h defaultOptions) (overrides.map Override.toOption) := by
  obtain ⟨i1, i2⟩ := pointerOptions_foldl fresh overrides (h.write fresh (h defaultOptions))
  refine ⟨?_, ?_, rfl, ?_⟩
  · simp only [ApplyOptionsWithDefaultPtr]
    rw [i1 defaultOptions (Ne.symm hfresh), OptionsHeap.write_other _ _ _ _ (Ne.symm hfresh)]
  · intro q hq
    simp only [ApplyOptionsWithDefaultPtr]
    rw [i1 q hq, OptionsHeap.write_other _ _ _ _ hq]
  · simp only [ApplyOptionsWithDefaultPtr]
    rw [i2, OptionsHeap.write_same]

theorem applyOptionsWithDefault_preserves_default_witness :
    (1 : Nat) ≠ 0 ∧
    (ApplyOptionsWithDefaultPtr (fun _ => ⟨0, 3 * Second, ["d"]⟩) 1 0
        ([Override.expiration (5 * Second), Override.tags ["x"]].map Override.toPointerOption)).1 0
      = ⟨0, 3 * Second, ["d"]⟩ ∧
    (ApplyOptionsWithDefaultPtr (fun _ => ⟨0, 3 * Second, ["d"]⟩) 1 0
        ([Override.expiration (5 * Second), Override.tags ["x"]].map Override.toPointerOption)).1 1
      = ApplyOptionsWithDefault ⟨0, 3 * Second, ["d"]⟩
          ([Override.expiration (5 * Second), Override.tags ["x"]].map Override.toOption) :=
  ⟨by decide,
    (applyOptionsWithDefault_preserves_default (fun _ => ⟨0, 3 * Second, ["d"]⟩) 1 0
      [Override.expiration (5 * Second), Override.tags ["x"]] (by decide)).1,
    (applyOptionsWithDefault_preserves_default (fun _ => ⟨0, 3 * Second, ["d"]⟩) 1 0
      [Override.expiration (5 * Second), Override.tags ["x"]] (by decide)).2.2.2⟩

/-! ## The metric cache on other decorators -/

/-- C30: when a `MetricCache` wraps a cache whose dynamic type is neither
`*ChainCache[T]` nor a `SetterCacheInterface[T]`, `Get` leaves the sink as it
was: `RecordFromCodec` is not called; and for every wrapped cache, `Set`,
`Delete`, `Invalidate` and `Clear` leave the sink as it was and return the
wrapped cache's result. -/
theorem metric_other_cache_records_nothing (μ σ C T : Type) (metrics : MetricsInterface μ σ C)
    (cache : CacheInterface σ T) (shape : CacheShape C) (st : σ) (sink : μ) (key : GoAny)
    (object : T) (options : List StoreOption) (invalidateOptions : List InvalidateOption) :
    (MetricCache.mk metrics cache CacheShape.other).Get st sink key
      = ((cache.Get st key).1, sink, (cache.Get st key).2.1, (cache.Get st key).2.2) ∧
    (MetricCache.mk metrics cache shape).Set st sink key object options
      = ((cache.Set st key object options).1, sink, (cache.Set st key object options).2) ∧
    (MetricCache.mk metrics cache shape).Delete st sink key
      = ((cache.Delete st key).1, sink, (cache.Delete st key).2) ∧
    (MetricCache.mk metrics cache shape).Invalidate st sink invalidateOptions
      = ((cache.Invalidate st invalidateOptions).1, sink,
          (cache.Invalidate st invalidateOptions).2) ∧
    (MetricCache.mk metrics cache shape).Clear st sink
      = ((cache.Clear st).1, sink, (cache.Clear st).2) ∧
    (CacheShape.other : CacheShape C).codecs = [] :=
  ⟨rfl, rfl, rfl, rfl, rfl, rfl⟩

/-! ## The expiration sent to Memcache -/

/-- C28: `MemcacheStore.Set` sends the client the item built from the key, the
bytes and the merged options; when the merged expiration is `n` whole seconds
with `0 <= n < 2^31` the item has `Expiration = n`, and when it is positive and
shorter than one second the item has `Expiration = 0`. -/
theorem memcache_set_expiration_seconds (σ : Type) (s : MemcacheStore σ) (st : σ)
    (key : String) (v : ByteSlice) (options : List StoreOption) (n : ℤ) :
    s.Set st key (GoAny.bytes v) options
      = (match s.Client.Set st
            (MemcacheStore.newItem (ApplyOptionsWithDefault s.Options options) key v) with
         | (st1, some err) => some (st1, some err)
         | (st1, none) =>
           if (ApplyOptionsWithDefault s.Options options).Tags.length > 0 then
             match s.setTags st1 key (ApplyOptionsWithDefault s.Options options).Tags with
             | none => none
             | some st2 => some (st2, none)
           else some (st1, none)) ∧
    (MemcacheStore.newItem (ApplyOptionsWithDefault s.Options options) key v).Key = key ∧
    (MemcacheStore.newItem (ApplyOptionsWithDefault s.Options options) key v).Value = v ∧
    ((ApplyOptionsWithDefault s.Options options).Expiration = n * Second →
      0 ≤ n → n < 2147483648 →
      (MemcacheStore.newItem (ApplyOptionsWithDefault s.Options options) key v).Expiration = n) ∧
    (0 < (ApplyOptionsWithDefault s.Options options).Expiration →
      (ApplyOptionsWithDefault s.Options options).Expiration < Second →
      (MemcacheStore.newItem (ApplyOptionsWithDefault s.Options options) key v).Expiration
        = 0) := by
  refine ⟨rfl, rfl, rfl, ?_, ?_⟩
  · intro h h0 h1
    simp only [MemcacheStore.newItem, h]
    rw [Duration.Seconds_whole n h0 h1]
    exact int32OfFloat_intCast n (by omega) h1
  · intro h0 h1
    simp only [MemcacheStore.newItem]
    obtain ⟨a, b⟩ := Duration.Seconds_subsecond _ h0 h1
    exact int32OfFloat_unit _ a b

theorem memcache_set_expiration_seconds_witness :
    (MemcacheStore.newItem
        (ApplyOptionsWithDefault
          (NewMemcache (tagWriteMemcache sampleIndex false) [WithExpiration (3 * Second)]).Options
          [WithExpiration (5 * Second)])
        "my-key" (some "my-cache-value")).Expiration = 5 ∧
    (MemcacheStore.newItem
        (ApplyOptionsWithDefault
          (NewMemcache (tagWriteMemcache sampleIndex false) [WithExpiration (3 * Second)]).Options
          [WithExpiration 500000000])
        "my-key" (some "my-cache-value")).Expiration = 0 :=
  ⟨(memcache_set_expiration_seconds _
      (NewMemcache (tagWriteMemcache sampleIndex false) [WithExpiration (3 * Second)]) []
      "my-key" (some "my-cache-value") [WithExpiration (5 * Second)] 5).2.2.2.1 rfl
      (by decide) (by decide),
    (memcache_set_expiration_seconds _
      (NewMemcache (tagWriteMemcache sampleIndex false) [WithExpiration (3 * Second)]) []
      "my-key" (some "my-cache-value") [WithExpiration 500000000] 0).2.2.2.2
      (by decide) (by decide)⟩

end gocache
